import Mathlib

/-!
# Streaming speech pipeline: playback ring buffer, producer discipline, text normalizer

Shallow embedding of `src/tts/PCMPlayerWorklet.js` (the `PCMProcessor` audio-worklet ring
buffer and the main-thread `PCMPlayerWorklet` producer) and of the text normalizer of
`src/tts/inference-worker.js`.

Conventions.
* JavaScript numbers that hold sample counts and cursors are integers far below `2^53`;
  they are modelled by `Int`, so that a difference such as `bufferSize - used - 128` may be
  negative exactly as in the source.
* A `Float32Array` of length `bufferSize` is modelled by its content as a function of the
  index together with the length; `TypedArray.prototype.set` raises a `RangeError` when the
  source does not fit, which is modelled by `typedSet` returning `none`.
* Sample values are only copied around, so the sample type is a parameter; the processor
  itself produces just two values, `0` (silence) and `NaN` (a read outside the array).
-/

set_option autoImplicit false
set_option linter.unusedSectionVars false
set_option linter.unusedVariables false

/-- Sample values stored in a `Float32Array`: the two values the processor creates itself. -/
class Float32Like (α : Type) where
  /-- The value written by `fill(0)` and by the silence padding loop. -/
  zero : α
  /-- The value obtained when `undefined` (a read outside the array) is stored. -/
  nan : α
  /-- The value `pcm16[i] / 32768` stored by `pcm16ToFloat32`. -/
  ofPcm16 : Int → α

/-- Integer sample tags, used for concrete runs (`NaN` is tagged `-1`). -/
instance : Float32Like Int where
  zero := 0
  nan := -1
  ofPcm16 := fun x => x

namespace PCMProcessor

/-- What the processor makes observable: messages posted on its port, and the
`console.error` line of the overflow-recovery branch of `addAudio`. -/
inductive Event where
  | capacity (buffered capacity requestSamples : Int) (isPlaying : Bool)
  | playbackStarted (buffered : Int)
  | playbackComplete
  | underrun (buffered needed : Int)
  | overflowError (samples available buffered : Int)
  deriving DecidableEq, Repr

/-- Fields of the `PCMProcessor` instance (constructor, lines 56-76). -/
structure State (α : Type) where
  bufferSize : Int
  ringBuffer : Int → α
  readPos : Int
  writePos : Int
  isPlaying : Bool
  minBufferSamples : Int
  targetBufferSamples : Int
  streamEnded : Bool
  playbackCompleteReported : Bool
  frameCount : Int
  reportInterval : Int

/-- Result of a message handler: new state, what was emitted, and whether a `RangeError`
escaped from the handler (the field updates made before the throw persist). -/
structure Result (α : Type) where
  state : State α
  events : List Event
  thrown : Bool

/-- Result of one `process` call: new state, the content of the output channel, what was
emitted, and (ghost) how many leading output samples were copied out of the ring. -/
structure Rendered (α : Type) where
  state : State α
  output : List α
  events : List Event
  copied : Nat

variable {α : Type} [Float32Like α]

/-- Lines 148-154. -/
def getBufferedSamples (s : State α) : Int :=
  if s.writePos ≥ s.readPos then s.writePos - s.readPos
  else s.bufferSize - s.readPos + s.writePos

/-- Lines 143-146. -/
def getAvailableSpace (s : State α) : Int :=
  let used := getBufferedSamples s
  s.bufferSize - used - 128

/-- Lines 156-174: the `capacity` message. -/
def sendCapacityUpdate (s : State α) : Event :=
  let buffered := getBufferedSamples s
  let capacity := getAvailableSpace s
  let requestSamples : Int :=
    if buffered < s.targetBufferSamples then min capacity (s.targetBufferSamples - buffered)
    else 0
  Event.capacity buffered capacity requestSamples s.isPlaying

/-- The state built by the constructor (lines 56-76), for the two values the template
substitutes; `targetBufferSamples` is `minBufferSamples * 2`. -/
def init (bufferSize minBufferSamples : Int) : State α :=
  { bufferSize := bufferSize
    ringBuffer := fun _ => Float32Like.zero
    readPos := 0
    writePos := 0
    isPlaying := false
    minBufferSamples := minBufferSamples
    targetBufferSamples := minBufferSamples * 2
    streamEnded := false
    playbackCompleteReported := false
    frameCount := 0
    reportInterval := 256 }

/-- Relative index of `TypedArray.prototype.slice`: negative counts from the end, and the
result is clamped to `[0, len]`. -/
def relIndex (len : Nat) (k : Int) : Nat :=
  if k < 0 then (len + k).toNat else min k.toNat len

/-- The call `xs.slice(start, stop)`. -/
def slice (xs : List α) (start stop : Int) : List α :=
  let a := relIndex xs.length start
  let b := relIndex xs.length stop
  (xs.drop a).take (b - a)

/-- The call `xs.slice(start)`. -/
def sliceFrom (xs : List α) (start : Int) : List α :=
  xs.drop (relIndex xs.length start)

/-- The call `target.set(src, off)` on an array of length `len`: a `RangeError` (`none`)
when the offset is negative or the source does not fit, otherwise the cells
`off .. off + src.length - 1` are overwritten. -/
def typedSet (len : Int) (target : Int → α) (src : List α) (off : Int) : Option (Int → α) :=
  if 0 ≤ off ∧ off + src.length ≤ len then
    some (fun i =>
      if off ≤ i ∧ i < off + src.length then src.getD (i - off).toNat Float32Like.nan
      else target i)
  else none

/-- The read `this.ringBuffer[i]` stored into a `Float32Array` cell: outside the array the
read gives `undefined`, stored as `NaN`. -/
def ringGet (s : State α) (i : Int) : α :=
  if 0 ≤ i ∧ i < s.bufferSize then s.ringBuffer i else Float32Like.nan

/-- Lines 125-140 of `addAudio`: auto-start and the capacity report, after the write. -/
def finishAdd (s : State α) (log : List Event) : Result α :=
  let buffered := getBufferedSamples s
  if !s.isPlaying && decide (buffered ≥ s.minBufferSamples) then
    let s1 := { s with isPlaying := true }
    { state := s1
      events := log ++ [Event.playbackStarted buffered, sendCapacityUpdate s1]
      thrown := false }
  else
    { state := s, events := log ++ [sendCapacityUpdate s], thrown := false }

/-- Lines 102-108 of `addAudio`: when the push exceeds the available space, log the
overflow and advance the read cursor by the excess (dropping the oldest samples). -/
def recoverOverflow (s : State α) (samples : Int) : State α × List Event :=
  let available := getAvailableSpace s
  if samples > available then
    let overflow := samples - available
    ({ s with readPos := Int.tmod (s.readPos + overflow) s.bufferSize },
      [Event.overflowError samples available (getBufferedSamples s)])
  else (s, [])

/-- Lines 110-123 of `addAudio`: the write at the write cursor, in one or two runs.
`Except.error` is a `RangeError` raised by `set`, with the state at the moment of the throw. -/
def writeAudio (s : State α) (float32Data : List α) : Except (State α) (State α) :=
  let samples : Int := float32Data.length
  if s.writePos + samples ≤ s.bufferSize then
    match typedSet s.bufferSize s.ringBuffer float32Data s.writePos with
    | none => .error s
    | some ring =>
      let s := { s with ringBuffer := ring, writePos := s.writePos + samples }
      let s := if s.writePos ≥ s.bufferSize then { s with writePos := 0 } else s
      .ok s
  else
    let firstPart := s.bufferSize - s.writePos
    let secondPart := samples - firstPart
    match typedSet s.bufferSize s.ringBuffer (slice float32Data 0 firstPart) s.writePos with
    | none => .error s
    | some ring1 =>
      let s := { s with ringBuffer := ring1 }
      match typedSet s.bufferSize s.ringBuffer (sliceFrom float32Data firstPart) 0 with
      | none => .error s
      | some ring2 => .ok { s with ringBuffer := ring2, writePos := secondPart }

/-- Lines 96-141. -/
def addAudio (s : State α) (float32Data : List α) : Result α :=
  let samples : Int := float32Data.length
  let rec0 := recoverOverflow s samples
  match writeAudio rec0.1 float32Data with
  | .error s1 => { state := s1, events := rec0.2, thrown := true }
  | .ok s1 => finishAdd s1 rec0.2

/-- Lines 279-287. -/
def reset (s : State α) : Result α :=
  let s1 := { s with
    readPos := 0
    writePos := 0
    ringBuffer := fun _ => Float32Like.zero
    isPlaying := false
    streamEnded := false
    playbackCompleteReported := false }
  { state := s1, events := [sendCapacityUpdate s1], thrown := false }

/-- Messages the processor accepts on its port (lines 78-90). -/
inductive InMsg (α : Type) where
  | audio (data : List α)
  | reset
  | streamEnded

/-- The `port.onmessage` handler (lines 78-90). -/
def onmessage (s : State α) : InMsg α → Result α
  | .audio data => addAudio s data
  | .reset => reset s
  | .streamEnded => { state := { s with streamEnded := true }, events := [], thrown := false }

/-- The loop `for (i = 0; i < count; i++) out[dst + i] = this.ringBuffer[src + i]`. -/
def copyLoop (s : State α) (out : Int → α) (dst src count : Int) : Int → α :=
  fun j => if dst ≤ j ∧ j < dst + count then ringGet s (src + (j - dst)) else out j

/-- The loop `for (i = start; i < stop; i++) out[i] = 0`. -/
def zeroLoop (out : Int → α) (start stop : Int) : Int → α :=
  fun j => if start ≤ j ∧ j < stop then Float32Like.zero else out j

/-- The content of an output channel of length `n` after the index writes `out`. -/
def channel (n : Nat) (out : Int → α) : List α :=
  (List.range n).map (fun (i : Nat) => out (Int.ofNat i))

/-- The periodic report of lines 183-186, with the incremented frame counter. -/
def periodicReport (s : State α) : State α × List Event :=
  let s1 := { s with frameCount := s.frameCount + 1 }
  (s1, if Int.tmod s1.frameCount s1.reportInterval = 0 then [sendCapacityUpdate s1] else [])

/-- The copy block that `process` contains twice, with `count = buffered` (lines 201-222)
and with `count = numSamples` (lines 252-273): copy `count` samples starting at the read
cursor into the output, in one or two runs, and advance the read cursor. -/
def copyOut (s : State α) (out : Int → α) (count : Int) : State α × (Int → α) :=
  if s.readPos + count ≤ s.bufferSize then
    let out := copyLoop s out 0 s.readPos count
    let s1 := { s with readPos := s.readPos + count }
    let s1 := if s1.readPos ≥ s1.bufferSize then { s1 with readPos := 0 } else s1
    (s1, out)
  else
    let firstPart := s.bufferSize - s.readPos
    let secondPart := count - firstPart
    let out := copyLoop s out 0 s.readPos firstPart
    let out := copyLoop s out firstPart 0 secondPart
    ({ s with readPos := secondPart }, out)

/-- Lines 231-249: the end of the underrun branch, after the copy and the silence padding;
`buffered` is the amount that was buffered when the call started. -/
def underrunTail (s1 : State α) (log : List Event) (buffered numSamples : Int) :
    State α × List Event :=
  if s1.streamEnded && decide (buffered = 0) then
    let log2 := if !s1.playbackCompleteReported then [Event.playbackComplete] else []
    ({ s1 with playbackCompleteReported := true, isPlaying := false, streamEnded := false },
      log ++ log2)
  else
    (s1, log ++ [Event.underrun buffered numSamples, sendCapacityUpdate s1])

/-- Lines 188-276 of `process`, for an output channel of length `n` that the host hands
over zero-filled; `log` is what the periodic report of lines 183-186 has emitted. -/
def render (s : State α) (log : List Event) (n : Nat) : Rendered α :=
  let numSamples : Int := n
  let out0 : Int → α := fun _ => Float32Like.zero
  if !s.isPlaying then
    { state := s, output := channel n (zeroLoop out0 0 numSamples), events := log, copied := 0 }
  else
    let buffered := getBufferedSamples s
    if buffered < numSamples then
      -- lines 196-249: underrun
      let samplesRead : Int := if buffered > 0 then buffered else 0
      let copy := if buffered > 0 then copyOut s out0 buffered else (s, out0)
      let out2 := zeroLoop copy.2 samplesRead numSamples
      let tail := underrunTail copy.1 log buffered numSamples
      { state := tail.1, output := channel n out2, events := tail.2, copied := samplesRead.toNat }
    else
      -- lines 251-273: normal playback
      let copy := copyOut s out0 numSamples
      { state := copy.1, output := channel n copy.2, events := log, copied := n }

/-- Lines 176-277; `numSamples = none` is the early return of line 178 (no output channel),
otherwise it is the length of the output channel. -/
def process (s : State α) (numSamples : Option Nat) : Rendered α :=
  match numSamples with
  | none => { state := s, output := [], events := [], copied := 0 }
  | some n => render (periodicReport s).1 (periodicReport s).2 n

/-- Offset of cell `i` from the cursor `w`, going round the ring of size `B`. -/
def offsetFrom (B w i : Int) : Int := if i ≥ w then i - w else i - w + B

/-- The ring after `d` has been written at the write cursor (specification of the write). -/
def writtenRing (s : State α) (d : List α) : Int → α := fun i =>
  if 0 ≤ i ∧ i < s.bufferSize ∧ offsetFrom s.bufferSize s.writePos i < d.length
  then d.getD (offsetFrom s.bufferSize s.writePos i).toNat Float32Like.nan
  else s.ringBuffer i

/-- A cursor position brought back into `[0, B)` after one advance of at most `B`. -/
def wrapIndex (B i : Int) : Int := if i < B then i else i - B

/-- The cursors are in range and the buffered amount respects the safety margin. -/
def Inv (s : State α) : Prop :=
  0 ≤ s.readPos ∧ s.readPos < s.bufferSize ∧ 0 ≤ s.writePos ∧ s.writePos < s.bufferSize ∧
  0 ≤ getBufferedSamples s ∧ getBufferedSamples s ≤ s.bufferSize - 128

/-- The queue the ring represents: the buffered samples, oldest first. -/
def content (s : State α) : List α :=
  (List.range (getBufferedSamples s).toNat).map
    (fun (k : Nat) => s.ringBuffer (wrapIndex s.bufferSize (s.readPos + Int.ofNat k)))

/-- The two operations of the ring buffer: a push (`addAudio`) and a render (`process`). -/
inductive Op (α : Type) where
  | push (data : List α)
  | render (numSamples : Nat)

/-- One operation applied to a state. -/
def step (s : State α) : Op α → State α
  | .push data => (addAudio s data).state
  | .render n => (process s (some n)).state

/-- A sequence of operations applied in order. -/
def run (s : State α) (ops : List (Op α)) : State α := ops.foldl step s

/-- Every push of the sequence carries at most `getAvailableSpace()` samples at the moment
it is applied. -/
def respects : State α → List (Op α) → Bool
  | _, [] => true
  | s, .push data :: ops =>
    decide ((data.length : Int) ≤ getAvailableSpace s) && respects (step s (.push data)) ops
  | s, .render n :: ops => respects (step s (.render n)) ops

/-- All pushed samples, in push order. -/
def pushed : List (Op α) → List α
  | [] => []
  | .push data :: ops => data ++ pushed ops
  | .render _ :: ops => pushed ops

/-- All samples the render calls copied out of the ring (zero padding excluded), in call
order. -/
def copiedOut : State α → List (Op α) → List α
  | _, [] => []
  | s, .push data :: ops => copiedOut (step s (.push data)) ops
  | s, .render n :: ops =>
    (process s (some n)).output.take (process s (some n)).copied ++
      copiedOut (step s (.render n)) ops

/-- The number of samples a render call of `n` samples takes from the ring. -/
def takeCount (s : State α) (n : Nat) : Int :=
  if s.isPlaying then min (getBufferedSamples s) n else 0

/-- Whether an event is an `underrun` message. -/
def Event.isUnderrun : Event → Bool
  | .underrun _ _ => true
  | _ => false

/-- Whether an event is the `playback-complete` message. -/
def Event.isComplete : Event → Bool
  | .playbackComplete => true
  | _ => false

/-- Decidability of the range invariant, for concrete states. -/
instance instDecidableInv (s : State α) : Decidable (Inv s) := by
  unfold Inv
  infer_instance

/-- A concrete run on a ring of 130 cells that wraps both cursors around the end:
seventy pushes of two samples, each followed by a render of two, then one more push and a
render of a full block. -/
def demoOps : List (Op Int) :=
  (List.replicate 70 [Op.push [1, 2], Op.render 2]).flatten ++ [Op.push [5], Op.render 128]

/-- A concrete playing state with 200 samples buffered: the samples `0 .. 199` pushed on a
fresh ring of 4096 cells with a prebuffer threshold of 100 samples. -/
def underrunState : State Int :=
  (addAudio (init 4096 100) ((List.range 200).map Int.ofNat)).state

/-- The state `underrunState` after the `stream-ended` message. -/
def endedState : State Int := (onmessage underrunState InMsg.streamEnded).state

/-! ### Ring buffer: lemmas -/

theorem slice_getD (d : List α) (k : Int) (h0 : 0 ≤ k) (hk : k ≤ d.length) (j : Nat)
    (hj : (j : Int) < k) (x : α) : (slice d 0 k).getD j x = d.getD j x := by
  have h1 : ¬ k < 0 := by omega
  have h2 : j < min k.toNat d.length := by omega
  have h3 : j < d.length := by omega
  simp [slice, relIndex, h1, List.getD, List.getElem?_take, h2, h3]

theorem sliceFrom_getD (d : List α) (k : Int) (h0 : 0 ≤ k) (hk : k ≤ d.length) (j : Nat)
    (x : α) : (sliceFrom d k).getD j x = d.getD (k.toNat + j) x := by
  have h1 : ¬ k < 0 := by omega
  have h2 : min k.toNat d.length = k.toNat := by omega
  simp [sliceFrom, relIndex, h1, List.getD, h2]

theorem slice_length (d : List α) (k : Int) (h0 : 0 ≤ k) (hk : k ≤ d.length) :
    ((slice d 0 k).length : Int) = k := by
  have : ¬ k < 0 := by omega
  simp [slice, relIndex, this]
  omega

theorem sliceFrom_length (d : List α) (k : Int) (h0 : 0 ≤ k) (hk : k ≤ d.length) :
    ((sliceFrom d k).length : Int) = d.length - k := by
  have : ¬ k < 0 := by omega
  simp [sliceFrom, relIndex, this]
  omega

theorem typedSet_some (len : Int) (t : Int → α) (src : List α) (off : Int) (h : 0 ≤ off)
    (h2 : off + src.length ≤ len) :
    typedSet len t src off = some (fun i =>
      if off ≤ i ∧ i < off + src.length then src.getD (i - off).toNat Float32Like.nan
      else t i) := by
  simp [typedSet, h, h2]

theorem writeAudio_ok (s : State α) (d : List α)
    (h3 : 0 ≤ s.writePos) (h4 : s.writePos < s.bufferSize)
    (hlen : (d.length : Int) ≤ s.bufferSize) :
    writeAudio s d = .ok { s with
        ringBuffer := writtenRing s d
        writePos := wrapIndex s.bufferSize (s.writePos + d.length) } := by
  unfold writeAudio wrapIndex
  by_cases hle : s.writePos + (d.length : Int) ≤ s.bufferSize
  · simp only [hle, if_true]
    rw [typedSet_some _ _ _ _ h3 hle]
    simp only []
    have hring : (fun i => if s.writePos ≤ i ∧ i < s.writePos + (d.length : Int)
        then d.getD (i - s.writePos).toNat Float32Like.nan else s.ringBuffer i)
        = writtenRing s d := by
      funext i
      simp only [writtenRing, offsetFrom]
      by_cases hi : s.writePos ≤ i ∧ i < s.writePos + d.length
      · have c : 0 ≤ i ∧ i < s.bufferSize ∧ (if i ≥ s.writePos then i - s.writePos else i - s.writePos + s.bufferSize) < d.length := by
          refine ⟨by omega, by omega, ?_⟩
          rw [if_pos (by omega)]; omega
        rw [if_pos hi, if_pos c, if_pos (by omega)]
      · have c : ¬ (0 ≤ i ∧ i < s.bufferSize ∧ (if i ≥ s.writePos then i - s.writePos else i - s.writePos + s.bufferSize) < d.length) := by
          intro ⟨c1, c2, c3⟩
          split_ifs at c3 <;> omega
        rw [if_neg hi, if_neg c]
    rw [hring]
    by_cases he : s.writePos + (d.length : Int) < s.bufferSize
    · have : ¬ (s.writePos + (d.length : Int) ≥ s.bufferSize) := by omega
      simp only [he, if_true, this, if_false]
    · have : (s.writePos + (d.length : Int) ≥ s.bufferSize) := by omega
      have e : s.writePos + (d.length : Int) - s.bufferSize = 0 := by omega
      simp only [he, if_false, this, if_true, e]
  · have hl1 := slice_length d (s.bufferSize - s.writePos) (by omega) (by omega)
    have hl2 := sliceFrom_length d (s.bufferSize - s.writePos) (by omega) (by omega)
    simp only [hle, if_false]
    rw [typedSet_some _ _ _ _ h3 (by omega)]
    simp only []
    rw [typedSet_some _ _ _ _ (le_refl 0) (by omega)]
    have he : ¬ (s.writePos + (d.length : Int) < s.bufferSize) := by omega
    simp only [he, if_false]
    have e : (d.length : Int) - (s.bufferSize - s.writePos) = s.writePos + d.length - s.bufferSize := by omega
    rw [e]
    congr 2
    funext i
    simp only [writtenRing, offsetFrom, hl1, hl2]
    by_cases hi : 0 ≤ i ∧ i < 0 + ((d.length : Int) - (s.bufferSize - s.writePos))
    · have c : 0 ≤ i ∧ i < s.bufferSize ∧ (if i ≥ s.writePos then i - s.writePos else i - s.writePos + s.bufferSize) < d.length := by
        refine ⟨by omega, by omega, ?_⟩
        rw [if_neg (by omega)]; omega
      rw [if_pos hi, if_pos c, if_neg (by omega), sliceFrom_getD _ _ (by omega) (by omega)]
      congr 1; omega
    · rw [if_neg hi]
      by_cases hi2 : s.writePos ≤ i ∧ i < s.writePos + (s.bufferSize - s.writePos)
      · have c : 0 ≤ i ∧ i < s.bufferSize ∧ (if i ≥ s.writePos then i - s.writePos else i - s.writePos + s.bufferSize) < d.length := by
          refine ⟨by omega, by omega, ?_⟩
          rw [if_pos (by omega)]; omega
        rw [if_pos hi2, if_pos c, if_pos (by omega), slice_getD _ _ (by omega) (by omega) _ (by omega)]
      · have c : ¬ (0 ≤ i ∧ i < s.bufferSize ∧ (if i ≥ s.writePos then i - s.writePos else i - s.writePos + s.bufferSize) < d.length) := by
          intro ⟨c1, c2, c3⟩
          split_ifs at c3 <;> omega
        rw [if_neg hi2, if_neg c]

theorem channel_length (n : Nat) (out : Int → α) : (channel n out).length = n := by
  simp [channel]

theorem channel_take (n c : Nat) (out : Int → α) (h : c ≤ n) :
    (channel n out).take c = channel c out := by
  simp only [channel, ← List.map_take]
  congr 1
  rw [List.take_range, min_eq_left h]

theorem channel_congr (n : Nat) (f g : Int → α) (h : ∀ i : Nat, i < n → f i = g i) :
    channel n f = channel n g := by
  simp only [channel]
  apply List.map_congr_left
  intro i hi
  exact h i (List.mem_range.mp hi)

theorem copyOut_state (s : State α) (out : Int → α) (count : Int) :
    (copyOut s out count).1 = { s with readPos := wrapIndex s.bufferSize (s.readPos + count) } := by
  unfold copyOut wrapIndex
  by_cases hw : s.readPos + count ≤ s.bufferSize
  · simp only [hw, if_true]
    by_cases he : s.readPos + count < s.bufferSize
    · have : ¬ (s.readPos + count ≥ s.bufferSize) := by omega
      simp only [he, if_true, this, if_false]
    · have : (s.readPos + count ≥ s.bufferSize) := by omega
      simp only [he, if_false, this, if_true]
      congr 1; omega
  · have he : ¬ (s.readPos + count < s.bufferSize) := by omega
    simp only [hw, he, if_false]
    congr 1; omega

theorem copyOut_out (s : State α) (out : Int → α) (count : Int)
    (hr0 : 0 ≤ s.readPos) (hr : s.readPos < s.bufferSize) (hc : count ≤ s.bufferSize) (j : Int) :
    (copyOut s out count).2 j =
      if 0 ≤ j ∧ j < count then s.ringBuffer (wrapIndex s.bufferSize (s.readPos + j)) else out j := by
  unfold copyOut wrapIndex
  by_cases hw : s.readPos + count ≤ s.bufferSize
  · simp only [hw, if_true, copyLoop, ringGet]
    by_cases hj : 0 ≤ j ∧ j < count
    · have c1 : 0 ≤ j ∧ j < 0 + count := by omega
      have c2 : 0 ≤ s.readPos + (j - 0) ∧ s.readPos + (j - 0) < s.bufferSize := by omega
      have c3 : s.readPos + j < s.bufferSize := by omega
      rw [if_pos c1, if_pos c2, if_pos hj, if_pos c3]; simp
    · have c1 : ¬ (0 ≤ j ∧ j < 0 + count) := by omega
      rw [if_neg c1, if_neg hj]
  · simp only [hw, if_false, copyLoop, ringGet]
    by_cases hj : 0 ≤ j ∧ j < count
    · rw [if_pos hj]
      by_cases hj2 : j < s.bufferSize - s.readPos
      · have c0 : ¬ (s.bufferSize - s.readPos ≤ j ∧ j < s.bufferSize - s.readPos + (count - (s.bufferSize - s.readPos))) := by omega
        have c1 : 0 ≤ j ∧ j < 0 + (s.bufferSize - s.readPos) := by omega
        have c2 : 0 ≤ s.readPos + (j - 0) ∧ s.readPos + (j - 0) < s.bufferSize := by omega
        have c3 : s.readPos + j < s.bufferSize := by omega
        rw [if_neg c0, if_pos c1, if_pos c2, if_pos c3]; simp
      · have c0 : (s.bufferSize - s.readPos ≤ j ∧ j < s.bufferSize - s.readPos + (count - (s.bufferSize - s.readPos))) := by omega
        have c2 : 0 ≤ 0 + (j - (s.bufferSize - s.readPos)) ∧ 0 + (j - (s.bufferSize - s.readPos)) < s.bufferSize := by omega
        have c3 : ¬ s.readPos + j < s.bufferSize := by omega
        rw [if_pos c0, if_pos c2, if_neg c3]; congr 1; omega
    · have c0 : ¬ (s.bufferSize - s.readPos ≤ j ∧ j < s.bufferSize - s.readPos + (count - (s.bufferSize - s.readPos))) := by omega
      have c1 : ¬ (0 ≤ j ∧ j < 0 + (s.bufferSize - s.readPos)) := by omega
      rw [if_neg c0, if_neg c1, if_neg hj]

theorem underrunTail_fields (s1 : State α) (log : List Event) (b n : Int) :
    (underrunTail s1 log b n).1.bufferSize = s1.bufferSize ∧
    (underrunTail s1 log b n).1.readPos = s1.readPos ∧
    (underrunTail s1 log b n).1.writePos = s1.writePos ∧
    (underrunTail s1 log b n).1.ringBuffer = s1.ringBuffer := by
  unfold underrunTail
  split_ifs <;> exact ⟨rfl, rfl, rfl, rfl⟩

/-- What the body of a render call does to the cursors, the ring and the output. -/
theorem render_spec (s : State α) (log : List Event) (n : Nat) (h : Inv s) :
    ((render s log n).copied : Int) = takeCount s n ∧
    (render s log n).state.bufferSize = s.bufferSize ∧
    (render s log n).state.writePos = s.writePos ∧
    (render s log n).state.ringBuffer = s.ringBuffer ∧
    (render s log n).state.readPos = wrapIndex s.bufferSize (s.readPos + takeCount s n) ∧
    (render s log n).output = channel n (fun j =>
      if 0 ≤ j ∧ j < takeCount s n then s.ringBuffer (wrapIndex s.bufferSize (s.readPos + j))
      else Float32Like.zero) := by
  obtain ⟨h1, h2, h3, h4, h5, h6⟩ := h
  unfold render takeCount
  cases hp : s.isPlaying
  · simp only [Bool.not_false, if_true, Bool.false_eq_true, if_false]
    refine ⟨by simp, ?_, ?_, ?_, ?_, ?_⟩
    · trivial
    · trivial
    · trivial
    · simp [wrapIndex, h2]
    · apply channel_congr
      intro i hi
      simp only [zeroLoop]
      split_ifs <;> first | rfl | omega
  · simp only [Bool.not_true, Bool.false_eq_true, if_false, if_true]
    by_cases hu : getBufferedSamples s < n
    · simp only [hu, if_true]
      have hmin : min (getBufferedSamples s) (n : Int) = getBufferedSamples s := by omega
      have tf := fun s1 => underrunTail_fields (α := α) s1 log (getBufferedSamples s) n
      simp only [tf, hmin]
      by_cases hpos : getBufferedSamples s > 0
      · simp only [hpos, if_true, copyOut_state]
        refine ⟨by omega, trivial, trivial, trivial, trivial, ?_⟩
        apply channel_congr
        intro i hi
        simp only [zeroLoop]
        rw [copyOut_out _ _ _ h1 h2 (by omega)]
        by_cases hi2 : (i : Int) < getBufferedSamples s
        · rw [if_neg (by omega)]
        · rw [if_pos (by omega), if_neg (by omega)]
      · have hz : getBufferedSamples s = 0 := by omega
        have hgt : ¬ ((0:Int) > 0) := by omega
        simp only [hz, hgt, if_false]
        refine ⟨by simp, ?_, ?_, ?_, ?_, ?_⟩
        · trivial
        · trivial
        · trivial
        · simp [wrapIndex, h2]
        · apply channel_congr
          intro i hi
          simp only [zeroLoop]
          rw [if_pos (by omega), if_neg (by omega)]
    · simp only [hu, if_false, copyOut_state]
      have hmin : min (getBufferedSamples s) (n : Int) = n := by omega
      simp only [hmin]
      refine ⟨trivial, trivial, trivial, trivial, trivial, ?_⟩
      apply channel_congr
      intro i hi
      rw [copyOut_out _ _ _ h1 h2 (by omega)]

theorem takeCount_bounds (s : State α) (n : Nat) (h : Inv s) :
    0 ≤ takeCount s n ∧ takeCount s n ≤ getBufferedSamples s ∧ takeCount s n ≤ n := by
  obtain ⟨h1, h2, h3, h4, h5, h6⟩ := h
  unfold takeCount
  split_ifs <;> omega

theorem buffered_after_take (s s1 : State α) (c : Int) (h : Inv s)
    (hc0 : 0 ≤ c) (hc : c ≤ getBufferedSamples s)
    (hB : s1.bufferSize = s.bufferSize) (hw : s1.writePos = s.writePos)
    (hr : s1.readPos = wrapIndex s.bufferSize (s.readPos + c)) :
    getBufferedSamples s1 = getBufferedSamples s - c ∧ Inv s1 := by
  obtain ⟨h1, h2, h3, h4, h5, h6⟩ := h
  have key : getBufferedSamples s1 = getBufferedSamples s - c ∧ 0 ≤ s1.readPos ∧
      s1.readPos < s.bufferSize := by
    unfold getBufferedSamples at *
    rw [hB, hw, hr]
    unfold wrapIndex
    split_ifs at * <;> omega
  refine ⟨key.1, ?_⟩
  unfold Inv
  rw [key.1, hB, hw]
  exact ⟨key.2.1, key.2.2, h3, h4, by omega, by omega⟩

theorem render_inv (s : State α) (log : List Event) (n : Nat) (h : Inv s) :
    Inv (render s log n).state := by
  obtain ⟨_, e2, e3, _, e5, _⟩ := render_spec s log n h
  obtain ⟨b1, b2, _⟩ := takeCount_bounds s n h
  exact (buffered_after_take s _ _ h b1 b2 e2 e3 e5).2

theorem render_content (s : State α) (log : List Event) (n : Nat) (h : Inv s) :
    content s = (render s log n).output.take (render s log n).copied ++
      content (render s log n).state := by
  obtain ⟨e1, e2, e3, e4, e5, e6⟩ := render_spec s log n h
  obtain ⟨b1, b2, b3⟩ := takeCount_bounds s n h
  obtain ⟨hb, _⟩ := buffered_after_take s _ _ h b1 b2 e2 e3 e5
  obtain ⟨h1, h2, h3, h4, h5, h6⟩ := h
  have hc : (render s log n).copied ≤ n := by omega
  rw [e6, channel_take _ _ _ hc]
  unfold content
  rw [hb, e2, e4, e5]
  have hsplit : (getBufferedSamples s).toNat =
      (render s log n).copied + (getBufferedSamples s - takeCount s n).toNat := by omega
  rw [hsplit, List.range_add, List.map_append, List.map_map]
  congr 1
  · unfold channel
    apply List.map_congr_left
    intro i hi
    have := List.mem_range.mp hi
    simp only [Int.ofNat_eq_coe]
    rw [if_pos (by omega)]
  · apply List.map_congr_left
    intro i hi
    have := List.mem_range.mp hi
    simp only [Function.comp, Int.ofNat_eq_coe]
    congr 1
    unfold wrapIndex
    push_cast
    split_ifs <;> omega

theorem finishAdd_fields (s : State α) (log : List Event) :
    (finishAdd s log).state.bufferSize = s.bufferSize ∧
    (finishAdd s log).state.readPos = s.readPos ∧
    (finishAdd s log).state.writePos = s.writePos ∧
    (finishAdd s log).state.ringBuffer = s.ringBuffer ∧
    (finishAdd s log).thrown = false := by
  unfold finishAdd
  simp only []
  split_ifs <;> exact ⟨rfl, rfl, rfl, rfl, rfl⟩

/-- A push that fits: no recovery, no error, the data lands at the write cursor. -/
theorem addAudio_fits (s : State α) (d : List α) (h : Inv s)
    (hfit : (d.length : Int) ≤ getAvailableSpace s) :
    addAudio s d = finishAdd { s with
        ringBuffer := writtenRing s d
        writePos := wrapIndex s.bufferSize (s.writePos + d.length) } [] := by
  obtain ⟨h1, h2, h3, h4, h5, h6⟩ := h
  have hnot : ¬ ((d.length : Int) > getAvailableSpace s) := by omega
  unfold getAvailableSpace at hfit
  simp only [] at hfit
  unfold addAudio recoverOverflow
  simp only [hnot, if_false]
  rw [writeAudio_ok s d h3 h4 (by omega)]

theorem buffered_after_put (s s1 : State α) (c : Int) (h : Inv s)
    (hc0 : 0 ≤ c) (hc : c ≤ getAvailableSpace s)
    (hB : s1.bufferSize = s.bufferSize) (hr : s1.readPos = s.readPos)
    (hw : s1.writePos = wrapIndex s.bufferSize (s.writePos + c)) :
    getBufferedSamples s1 = getBufferedSamples s + c ∧ Inv s1 := by
  obtain ⟨h1, h2, h3, h4, h5, h6⟩ := h
  unfold getAvailableSpace at hc
  simp only [] at hc
  have key : getBufferedSamples s1 = getBufferedSamples s + c ∧ 0 ≤ s1.writePos ∧
      s1.writePos < s.bufferSize := by
    unfold getBufferedSamples at *
    rw [hB, hw, hr]
    unfold wrapIndex
    split_ifs at * <;> omega
  refine ⟨key.1, ?_⟩
  unfold Inv
  rw [key.1, hB, hr]
  exact ⟨h1, h2, key.2.1, key.2.2, by omega, by omega⟩

theorem addAudio_inv (s : State α) (d : List α) (h : Inv s)
    (hfit : (d.length : Int) ≤ getAvailableSpace s) :
    Inv (addAudio s d).state ∧ (addAudio s d).thrown = false ∧
    (addAudio s d).state.bufferSize = s.bufferSize := by
  rw [addAudio_fits s d h hfit]
  obtain ⟨f1, f2, f3, f4, f5⟩ := finishAdd_fields { s with
        ringBuffer := writtenRing s d
        writePos := wrapIndex s.bufferSize (s.writePos + d.length) } []
  exact ⟨(buffered_after_put s _ _ h (by omega) hfit f1 f2 f3).2, f5, f1⟩

theorem addAudio_content (s : State α) (d : List α) (h : Inv s)
    (hfit : (d.length : Int) ≤ getAvailableSpace s) :
    content (addAudio s d).state = content s ++ d := by
  rw [addAudio_fits s d h hfit]
  obtain ⟨f1, f2, f3, f4, f5⟩ := finishAdd_fields { s with
        ringBuffer := writtenRing s d
        writePos := wrapIndex s.bufferSize (s.writePos + d.length) } []
  obtain ⟨hb, _⟩ := buffered_after_put s _ _ h (by omega) hfit f1 f2 f3
  obtain ⟨h1, h2, h3, h4, h5, h6⟩ := h
  unfold getAvailableSpace at hfit
  simp only [] at hfit
  unfold content
  rw [hb, f1, f2, f4]
  simp only []
  have hsplit : (getBufferedSamples s + (d.length : Int)).toNat =
      (getBufferedSamples s).toNat + d.length := by omega
  rw [hsplit, List.range_add, List.map_append, List.map_map]
  congr 1
  · apply List.map_congr_left
    intro i hi
    have := List.mem_range.mp hi
    simp only [Int.ofNat_eq_coe, writtenRing]
    rw [if_neg]
    intro ⟨c1, c2, c3⟩
    revert c1 c2 c3
    unfold getBufferedSamples at *
    unfold offsetFrom wrapIndex
    split_ifs at * <;> omega
  · apply List.ext_getElem
    · simp
    · intro i hi1 hi2
      simp only [List.getElem_map, List.getElem_range, Function.comp, Int.ofNat_eq_coe, writtenRing]
      have hi : i < d.length := hi2
      have hoff : offsetFrom s.bufferSize s.writePos
          (wrapIndex s.bufferSize (s.readPos + ((getBufferedSamples s).toNat + i : Nat))) = i := by
        unfold getBufferedSamples at *
        unfold offsetFrom wrapIndex
        push_cast
        split_ifs at * <;> omega
      have hrange : 0 ≤ wrapIndex s.bufferSize (s.readPos + ((getBufferedSamples s).toNat + i : Nat)) ∧
          wrapIndex s.bufferSize (s.readPos + ((getBufferedSamples s).toNat + i : Nat)) < s.bufferSize := by
        unfold wrapIndex
        push_cast
        split_ifs <;> omega
      rw [hoff, if_pos ⟨hrange.1, hrange.2, by omega⟩]
      simp [List.getD, hi]

theorem periodicReport_inv (s : State α) (h : Inv s) : Inv (periodicReport s).1 := h

theorem step_inv (s : State α) (op : Op α) (h : Inv s)
    (hresp : respects s [op] = true) : Inv (step s op) := by
  cases op with
  | push d =>
    simp only [respects, Bool.and_true, decide_eq_true_eq] at hresp
    exact (addAudio_inv s d h hresp).1
  | render n => exact render_inv _ _ n (periodicReport_inv s h)

theorem respects_cons (s : State α) (op : Op α) (ops : List (Op α)) :
    respects s (op :: ops) = (respects s [op] && respects (step s op) ops) := by
  cases op <;> simp [respects]

theorem run_inv (s : State α) (ops : List (Op α)) (h : Inv s)
    (hresp : respects s ops = true) (k : Nat) : Inv (run s (ops.take k)) := by
  induction ops generalizing s k with
  | nil => simpa [run] using h
  | cons op ops ih =>
    cases k with
    | zero => simpa [run] using h
    | succ k =>
      rw [respects_cons, Bool.and_eq_true] at hresp
      simp only [List.take_succ_cons, run, List.foldl_cons]
      exact ih (step s op) (step_inv s op h hresp.1) hresp.2 k

theorem start_inv (s0 : State α) (hB : 128 ≤ s0.bufferSize)
    (hstart : (∃ m, s0 = init s0.bufferSize m) ∨ (∃ s, s0 = (reset s).state)) : Inv s0 := by
  have h0 : s0.readPos = 0 ∧ s0.writePos = 0 := by
    rcases hstart with ⟨m, hm⟩ | ⟨s, hs⟩
    · rw [hm]; exact ⟨rfl, rfl⟩
    · rw [hs]; exact ⟨rfl, rfl⟩
  unfold Inv getBufferedSamples
  rw [h0.1, h0.2]
  simp
  omega

theorem start_content (s0 : State α)
    (hstart : (∃ m, s0 = init s0.bufferSize m) ∨ (∃ s, s0 = (reset s).state)) : content s0 = [] := by
  have h0 : s0.readPos = 0 ∧ s0.writePos = 0 := by
    rcases hstart with ⟨m, hm⟩ | ⟨s, hs⟩
    · rw [hm]; exact ⟨rfl, rfl⟩
    · rw [hs]; exact ⟨rfl, rfl⟩
  unfold content getBufferedSamples
  rw [h0.1, h0.2]
  simp

theorem fifo_general (s : State α) (ops : List (Op α)) (h : Inv s)
    (hresp : respects s ops = true) :
    content s ++ pushed ops = copiedOut s ops ++ content (run s ops) := by
  induction ops generalizing s with
  | nil => simp [pushed, copiedOut, run]
  | cons op ops ih =>
    rw [respects_cons, Bool.and_eq_true] at hresp
    have hi := step_inv s op h hresp.1
    have := ih (step s op) hi hresp.2
    cases op with
    | push d =>
      simp only [respects, Bool.and_true, decide_eq_true_eq] at hresp
      simp only [pushed, copiedOut, run, List.foldl_cons] at this ⊢
      rw [← this, ← List.append_assoc]
      congr 1
      exact (addAudio_content s d h hresp.1).symm
    | render n =>
      simp only [pushed, copiedOut, run, List.foldl_cons] at this ⊢
      rw [List.append_assoc, ← this, ← List.append_assoc]
      congr 1
      exact render_content _ _ n (periodicReport_inv s h)

theorem recoverOverflow_fields (s : State α) (k : Int) :
    (recoverOverflow s k).1.writePos = s.writePos ∧
    (recoverOverflow s k).1.bufferSize = s.bufferSize := by
  unfold recoverOverflow
  simp only []
  split_ifs <;> exact ⟨rfl, rfl⟩

/-- A push so long that its second run does not fit the ring: `set` raises. -/
theorem writeAudio_oversized (s : State α) (d : List α)
    (h3 : 0 ≤ s.writePos) (h4 : s.writePos < s.bufferSize)
    (hbig : 2 * s.bufferSize - s.writePos < d.length) :
    ∃ s1, writeAudio s d = .error s1 := by
  have hl1 := slice_length d (s.bufferSize - s.writePos) (by omega) (by omega)
  have hl2 := sliceFrom_length d (s.bufferSize - s.writePos) (by omega) (by omega)
  have hle : ¬ (s.writePos + (d.length : Int) ≤ s.bufferSize) := by omega
  unfold writeAudio
  simp only [hle, if_false]
  rw [typedSet_some _ _ _ _ h3 (by omega)]
  simp only []
  have : typedSet s.bufferSize
      (fun i => if s.writePos ≤ i ∧ i < s.writePos + ↑(slice d 0 (s.bufferSize - s.writePos)).length
        then (slice d 0 (s.bufferSize - s.writePos)).getD (i - s.writePos).toNat Float32Like.nan
        else s.ringBuffer i)
      (sliceFrom d (s.bufferSize - s.writePos)) 0 = none := by
    unfold typedSet
    rw [if_neg (by omega)]
  rw [this]
  exact ⟨_, rfl⟩

/-- A push whose second run fills the ring exactly: the write cursor is left at
`bufferSize`. -/
theorem writeAudio_full_turn (s : State α) (d : List α)
    (h3 : 0 ≤ s.writePos) (h4 : s.writePos < s.bufferSize)
    (hbig : (d.length : Int) = 2 * s.bufferSize - s.writePos) :
    ∃ s1, writeAudio s d = .ok s1 ∧ s1.writePos = s.bufferSize := by
  have hl1 := slice_length d (s.bufferSize - s.writePos) (by omega) (by omega)
  have hl2 := sliceFrom_length d (s.bufferSize - s.writePos) (by omega) (by omega)
  have hle : ¬ (s.writePos + (d.length : Int) ≤ s.bufferSize) := by omega
  unfold writeAudio
  simp only [hle, if_false]
  rw [typedSet_some _ _ _ _ h3 (by omega)]
  simp only []
  rw [typedSet_some _ _ _ _ (le_refl 0) (by omega)]
  exact ⟨_, rfl, by simp only []; omega⟩

theorem addAudio_oversized (s : State α) (d : List α)
    (h3 : 0 ≤ s.writePos) (h4 : s.writePos < s.bufferSize) :
    (2 * s.bufferSize - s.writePos < d.length → (addAudio s d).thrown = true) ∧
    ((d.length : Int) = 2 * s.bufferSize - s.writePos →
      (addAudio s d).thrown = false ∧ (addAudio s d).state.writePos = s.bufferSize) := by
  obtain ⟨f1, f2⟩ := recoverOverflow_fields s d.length
  constructor
  · intro hbig
    obtain ⟨s1, hs1⟩ := writeAudio_oversized (recoverOverflow s d.length).1 d
      (by rw [f1]; exact h3) (by rw [f1, f2]; exact h4) (by rw [f1, f2]; exact hbig)
    unfold addAudio
    simp only [hs1]
  · intro hbig
    obtain ⟨s1, hs1, hw⟩ := writeAudio_full_turn (recoverOverflow s d.length).1 d
      (by rw [f1]; exact h3) (by rw [f1, f2]; exact h4) (by rw [f1, f2]; exact hbig)
    unfold addAudio
    simp only [hs1]
    obtain ⟨g1, g2, g3, g4, g5⟩ := finishAdd_fields s1 (recoverOverflow s d.length).2
    exact ⟨g5, by rw [g3, hw, f2]⟩

theorem periodic_log_filter (s : State α) :
    (periodicReport s).2.filter Event.isUnderrun = [] ∧
    (periodicReport s).2.filter Event.isComplete = [] := by
  unfold periodicReport
  simp only []
  split_ifs <;> simp [sendCapacityUpdate, Event.isUnderrun, Event.isComplete]

/-- Events and flags of a render call in the underrun branch. -/
theorem render_underrun (s : State α) (log : List Event) (n : Nat)
    (hp : s.isPlaying = true) (hu : getBufferedSamples s < n) (h0 : 0 ≤ getBufferedSamples s) :
    ((render s log n).events, (render s log n).state.isPlaying,
      (render s log n).state.streamEnded, (render s log n).state.playbackCompleteReported) =
    if s.streamEnded = true ∧ getBufferedSamples s = 0 then
      (log ++ (if s.playbackCompleteReported then [] else [Event.playbackComplete]),
        false, false, true)
    else
      (log ++ [Event.underrun (getBufferedSamples s) n,
          sendCapacityUpdate (render s log n).state],
        true, s.streamEnded, s.playbackCompleteReported) := by
  unfold render
  simp only [hp, Bool.not_true, Bool.false_eq_true, if_false, hu, if_true]
  have hc : (if getBufferedSamples s > 0
      then copyOut s (fun _ => (Float32Like.zero : α)) (getBufferedSamples s)
      else (s, fun _ => Float32Like.zero)).1 =
      { s with readPos := (if getBufferedSamples s > 0
          then wrapIndex s.bufferSize (s.readPos + getBufferedSamples s) else s.readPos) } := by
    split_ifs
    · rw [copyOut_state]
    · rfl
  rw [hc]
  unfold underrunTail
  by_cases he : s.streamEnded = true ∧ getBufferedSamples s = 0
  · simp only [he, Bool.true_and, decide_True, if_true, and_self]
    cases s.playbackCompleteReported <;> simp
  · rw [if_neg he]
    have : ¬ ((s.streamEnded && decide (getBufferedSamples s = 0)) = true) := by
      simpa using he
    simp only [this, if_false, hp]
    simp


theorem channel_split (n : Nat) (c : Nat) (hc : c ≤ n) (f : Int → α) :
    channel n (fun j => if 0 ≤ j ∧ j < (c : Int) then f j else Float32Like.zero) =
      channel c f ++ List.replicate (n - c) Float32Like.zero := by
  have hn : n = c + (n - c) := by omega
  unfold channel
  conv_lhs => rw [hn, List.range_add, List.map_append, List.map_map]
  congr 1
  · apply List.map_congr_left
    intro i hi
    have := List.mem_range.mp hi
    simp only [Int.ofNat_eq_coe]
    rw [if_pos (by omega)]
  · apply List.ext_getElem
    · simp
    · intro i h1 h2
      simp only [List.getElem_map, List.getElem_range, Function.comp, Int.ofNat_eq_coe,
        List.getElem_replicate]
      rw [if_neg (by omega)]

theorem content_eq_channel (s : State α) :
    content s = channel (getBufferedSamples s).toNat
      (fun j => s.ringBuffer (wrapIndex s.bufferSize (s.readPos + j))) := rfl

/-- A render call that finds the buffer empty with the stream ended. -/
theorem render_complete (s : State α) (log : List Event) (n : Nat) (hn : 0 < n)
    (hp : s.isPlaying = true) (hend : s.streamEnded = true) (hz : getBufferedSamples s = 0) :
    (render s log n).events =
      log ++ (if s.playbackCompleteReported then [] else [Event.playbackComplete]) ∧
    (render s log n).state.isPlaying = false ∧ (render s log n).state.streamEnded = false := by
  have hev := render_underrun s log n hp (by omega) (by omega)
  rw [if_pos ⟨hend, hz⟩] at hev
  simp only [Prod.mk.injEq] at hev
  exact ⟨hev.1, hev.2.1, hev.2.2.1⟩

/-- A push that goes round the end of the ring and whose second run fits the ring. -/
theorem writeAudio_wrap (s : State α) (d : List α)
    (h3 : 0 ≤ s.writePos) (h4 : s.writePos < s.bufferSize)
    (hle : ¬ (s.writePos + (d.length : Int) ≤ s.bufferSize))
    (hlt : (d.length : Int) < 2 * s.bufferSize - s.writePos) :
    ∃ s1, writeAudio s d = .ok s1 ∧ s1.writePos = s.writePos + d.length - s.bufferSize ∧
      s1.bufferSize = s.bufferSize ∧ s1.readPos = s.readPos := by
  have hl1 := slice_length d (s.bufferSize - s.writePos) (by omega) (by omega)
  have hl2 := sliceFrom_length d (s.bufferSize - s.writePos) (by omega) (by omega)
  unfold writeAudio
  simp only [hle, if_false]
  rw [typedSet_some _ _ _ _ h3 (by omega)]
  simp only []
  rw [typedSet_some _ _ _ _ (le_refl 0) (by omega)]
  exact ⟨_, rfl, by simp only []; omega, rfl, rfl⟩

/-- The read cursor after the recovery branch is in range. -/
theorem recoverOverflow_readPos (s : State α) (k : Int)
    (h1 : 0 ≤ s.readPos) (h2 : s.readPos < s.bufferSize) :
    0 ≤ (recoverOverflow s k).1.readPos ∧ (recoverOverflow s k).1.readPos < s.bufferSize := by
  unfold recoverOverflow
  simp only []
  by_cases hk : k > getAvailableSpace s
  · rw [if_pos hk]
    simp only []
    have h0 : 0 ≤ s.readPos + (k - getAvailableSpace s) := by omega
    rw [Int.tmod_eq_emod h0 (by omega)]
    exact ⟨Int.emod_nonneg _ (by omega), Int.emod_lt_of_pos _ (by omega)⟩
  · rw [if_neg hk]
    exact ⟨h1, h2⟩

/-- A push of fewer than `2 * bufferSize - writePos` samples completes with the cursors in
range. -/
theorem addAudio_below_two_turns (s : State α) (d : List α)
    (h1 : 0 ≤ s.readPos) (h2 : s.readPos < s.bufferSize)
    (h3 : 0 ≤ s.writePos) (h4 : s.writePos < s.bufferSize)
    (hlt : (d.length : Int) < 2 * s.bufferSize - s.writePos) :
    (addAudio s d).thrown = false ∧ (addAudio s d).state.bufferSize = s.bufferSize ∧
    0 ≤ (addAudio s d).state.readPos ∧ (addAudio s d).state.readPos < s.bufferSize ∧
    0 ≤ (addAudio s d).state.writePos ∧ (addAudio s d).state.writePos < s.bufferSize := by
  obtain ⟨f1, f2⟩ := recoverOverflow_fields s d.length
  obtain ⟨r1, r2⟩ := recoverOverflow_readPos s d.length h1 h2
  have key : ∃ s1, writeAudio (recoverOverflow s d.length).1 d = .ok s1 ∧
      s1.bufferSize = s.bufferSize ∧ s1.readPos = (recoverOverflow s d.length).1.readPos ∧
      0 ≤ s1.writePos ∧ s1.writePos < s.bufferSize := by
    by_cases hle : s.writePos + (d.length : Int) ≤ s.bufferSize
    · rw [writeAudio_ok _ d (by rw [f1]; exact h3) (by rw [f1, f2]; exact h4)
        (by rw [f2]; omega)]
      refine ⟨_, rfl, f2, rfl, ?_, ?_⟩
      · simp only [f1, f2]
        unfold wrapIndex
        split_ifs <;> omega
      · simp only [f1, f2]
        unfold wrapIndex
        split_ifs <;> omega
    · obtain ⟨s1, e1, e2, e3, e4⟩ := writeAudio_wrap (recoverOverflow s d.length).1 d
        (by rw [f1]; exact h3) (by rw [f1, f2]; exact h4) (by rw [f1, f2]; exact hle)
        (by rw [f1, f2]; exact hlt)
      rw [f1, f2] at e2
      exact ⟨s1, e1, by rw [e3, f2], e4, by omega, by omega⟩
  obtain ⟨s1, e1, e2, e3, e4, e5⟩ := key
  obtain ⟨g1, g2, g3, _, g5⟩ := finishAdd_fields s1 (recoverOverflow s d.length).2
  unfold addAudio
  simp only [e1]
  exact ⟨g5, by rw [g1, e2], by rw [g2, e3]; exact r1, by rw [g2, e3]; exact r2,
    by rw [g3]; exact e4, by rw [g3]; exact e5⟩

/-! ### Ring buffer: the claims -/

/-- C1. Starting from the initial or the reset state of a ring of at least 128 cells, after
every operation of a sequence of pushes and renders in which each push carries at most
`getAvailableSpace()` samples when it is applied, `readPos` and `writePos` lie in
`[0, bufferSize)` and `getBufferedSamples()` lies in `[0, bufferSize - 128]`. -/
theorem ring_cursors_and_level_in_range (s0 : State α) (ops : List (Op α))
    (hB : 128 ≤ s0.bufferSize)
    (hstart : (∃ m, s0 = init s0.bufferSize m) ∨ (∃ s, s0 = (reset s).state))
    (hresp : respects s0 ops = true) (k : Nat) :
    0 ≤ (run s0 (ops.take k)).readPos ∧
    (run s0 (ops.take k)).readPos < (run s0 (ops.take k)).bufferSize ∧
    0 ≤ (run s0 (ops.take k)).writePos ∧
    (run s0 (ops.take k)).writePos < (run s0 (ops.take k)).bufferSize ∧
    0 ≤ getBufferedSamples (run s0 (ops.take k)) ∧
    getBufferedSamples (run s0 (ops.take k)) ≤ (run s0 (ops.take k)).bufferSize - 128 :=
  run_inv s0 ops (start_inv s0 hB hstart) hresp k

/-- Witness of C1: the run `demoOps` on a ring of 130 cells, after all of its 142
operations. -/
theorem ring_cursors_and_level_in_range_witness :
    0 ≤ (run (init 130 2 : State Int) (demoOps.take 142)).readPos ∧
    (run (init 130 2 : State Int) (demoOps.take 142)).readPos <
      (run (init 130 2 : State Int) (demoOps.take 142)).bufferSize ∧
    0 ≤ (run (init 130 2 : State Int) (demoOps.take 142)).writePos ∧
    (run (init 130 2 : State Int) (demoOps.take 142)).writePos <
      (run (init 130 2 : State Int) (demoOps.take 142)).bufferSize ∧
    0 ≤ getBufferedSamples (run (init 130 2 : State Int) (demoOps.take 142)) ∧
    getBufferedSamples (run (init 130 2 : State Int) (demoOps.take 142)) ≤
      (run (init 130 2 : State Int) (demoOps.take 142)).bufferSize - 128 :=
  ring_cursors_and_level_in_range (init 130 2) demoOps (by decide) (Or.inl ⟨2, rfl⟩)
    (by decide!) 142

/-- C2. The ring is a FIFO queue: for a sequence of pushes and renders from the initial or
the reset state in which each push fits the available space, all pushed samples in push
order are the samples the render calls copied out (zero padding excluded) in call order,
followed by the samples still buffered, oldest first; so the copied samples are a prefix of
the pushed ones and nothing is lost, duplicated or reordered, also across wrap-around. -/
theorem ring_is_fifo (s0 : State α) (ops : List (Op α))
    (hB : 128 ≤ s0.bufferSize)
    (hstart : (∃ m, s0 = init s0.bufferSize m) ∨ (∃ s, s0 = (reset s).state))
    (hresp : respects s0 ops = true) :
    pushed ops = copiedOut s0 ops ++ content (run s0 ops) := by
  have := fifo_general s0 ops (start_inv s0 hB hstart) hresp
  rwa [start_content s0 hstart, List.nil_append] at this

/-- Witness of C2: the run `demoOps`, whose cursors wrap around the end of the ring. -/
theorem ring_is_fifo_witness :
    pushed demoOps =
      copiedOut (init 130 2 : State Int) demoOps ++ content (run (init 130 2) demoOps) :=
  ring_is_fifo (init 130 2) demoOps (by decide) (Or.inl ⟨2, rfl⟩) (by decide!)

/-- C3, counterexample. On the ring of a 48 kHz context (2880000 cells), in its initial
state, a push of 5760001 samples makes `set` raise a `RangeError`, and a push of 5760000
samples completes but leaves `writePos` equal to `bufferSize`, outside `[0, bufferSize)`. -/
theorem oversized_push_breaks_ring :
    (addAudio (init 2880000 14400 : State Int) (List.replicate 5760001 0)).thrown = true ∧
    (addAudio (init 2880000 14400 : State Int) (List.replicate 5760000 0)).thrown = false ∧
    (addAudio (init 2880000 14400 : State Int) (List.replicate 5760000 0)).state.writePos =
      (init 2880000 14400 : State Int).bufferSize := by
  have h := addAudio_oversized (init 2880000 14400 : State Int)
  refine ⟨(h (List.replicate 5760001 0) (by decide) (by decide)).1 ?_,
    (h (List.replicate 5760000 0) (by decide) (by decide)).2 ?_⟩
  · rw [List.length_replicate]; decide
  · rw [List.length_replicate]; decide

/-- C3, amended. In every state whose cursors lie in `[0, bufferSize)`, a push of fewer
than `2 * bufferSize - writePos` samples (so every push of at most `bufferSize` samples, and
pushes beyond the available space or the whole ring up to that bound) completes without an
error, leaves `bufferSize` unchanged and leaves `readPos` and `writePos` in
`[0, bufferSize)`; a push of exactly `2 * bufferSize - writePos` samples completes with
`writePos = bufferSize`, and a longer push raises a `RangeError`. -/
theorem push_completes_below_two_turns (s : State α) (d : List α)
    (h1 : 0 ≤ s.readPos) (h2 : s.readPos < s.bufferSize)
    (h3 : 0 ≤ s.writePos) (h4 : s.writePos < s.bufferSize) :
    ((d.length : Int) < 2 * s.bufferSize - s.writePos →
      (addAudio s d).thrown = false ∧ (addAudio s d).state.bufferSize = s.bufferSize ∧
      0 ≤ (addAudio s d).state.readPos ∧
      (addAudio s d).state.readPos < (addAudio s d).state.bufferSize ∧
      0 ≤ (addAudio s d).state.writePos ∧
      (addAudio s d).state.writePos < (addAudio s d).state.bufferSize) ∧
    ((d.length : Int) ≤ s.bufferSize → (d.length : Int) < 2 * s.bufferSize - s.writePos) ∧
    ((d.length : Int) = 2 * s.bufferSize - s.writePos →
      (addAudio s d).thrown = false ∧ (addAudio s d).state.writePos = s.bufferSize) ∧
    (2 * s.bufferSize - s.writePos < (d.length : Int) → (addAudio s d).thrown = true) := by
  obtain ⟨o1, o2⟩ := addAudio_oversized s d h3 h4
  refine ⟨?_, fun h => by omega, o2, o1⟩
  intro hlt
  obtain ⟨a1, a2, a3, a4, a5, a6⟩ := addAudio_below_two_turns s d h1 h2 h3 h4 hlt
  exact ⟨a1, a2, a3, by rw [a2]; exact a4, a5, by rw [a2]; exact a6⟩

/-- Witness of C3: a push of 200 samples into an empty ring of 130 cells, more than the
whole ring holds. -/
theorem push_completes_below_two_turns_witness :
    (0 ≤ (init 130 2 : State Int).readPos ∧
      (init 130 2 : State Int).readPos < (init 130 2 : State Int).bufferSize ∧
      0 ≤ (init 130 2 : State Int).writePos ∧
      (init 130 2 : State Int).writePos < (init 130 2 : State Int).bufferSize) ∧
    ((((List.replicate 200 0 : List Int).length : Int) <
        2 * (init 130 2 : State Int).bufferSize - (init 130 2 : State Int).writePos →
      (addAudio (init 130 2 : State Int) (List.replicate 200 0)).thrown = false ∧
      (addAudio (init 130 2 : State Int) (List.replicate 200 0)).state.bufferSize =
        (init 130 2 : State Int).bufferSize ∧
      0 ≤ (addAudio (init 130 2 : State Int) (List.replicate 200 0)).state.readPos ∧
      (addAudio (init 130 2 : State Int) (List.replicate 200 0)).state.readPos <
        (addAudio (init 130 2 : State Int) (List.replicate 200 0)).state.bufferSize ∧
      0 ≤ (addAudio (init 130 2 : State Int) (List.replicate 200 0)).state.writePos ∧
      (addAudio (init 130 2 : State Int) (List.replicate 200 0)).state.writePos <
        (addAudio (init 130 2 : State Int) (List.replicate 200 0)).state.bufferSize) ∧
    (((List.replicate 200 0 : List Int).length : Int) ≤ (init 130 2 : State Int).bufferSize →
      ((List.replicate 200 0 : List Int).length : Int) <
        2 * (init 130 2 : State Int).bufferSize - (init 130 2 : State Int).writePos) ∧
    (((List.replicate 200 0 : List Int).length : Int) =
        2 * (init 130 2 : State Int).bufferSize - (init 130 2 : State Int).writePos →
      (addAudio (init 130 2 : State Int) (List.replicate 200 0)).thrown = false ∧
      (addAudio (init 130 2 : State Int) (List.replicate 200 0)).state.writePos =
        (init 130 2 : State Int).bufferSize) ∧
    (2 * (init 130 2 : State Int).bufferSize - (init 130 2 : State Int).writePos <
        ((List.replicate 200 0 : List Int).length : Int) →
      (addAudio (init 130 2 : State Int) (List.replicate 200 0)).thrown = true)) :=
  ⟨by decide, push_completes_below_two_turns (init 130 2) (List.replicate 200 0)
    (by decide) (by decide) (by decide) (by decide)⟩

/-- C4. A render request of `n` samples made while playing, with `b < n` samples buffered
and the stream not ended: the output block is the `b` oldest buffered samples followed by
`n - b` zeros, exactly one underrun event is emitted and it reports `b` and `n`, the buffer
is empty afterwards and playback stays in the playing state. -/
theorem underrun_block (s : State α) (n : Nat)
    (hinv : Inv s) (hp : s.isPlaying = true) (hend : s.streamEnded = false)
    (hu : getBufferedSamples s < n) :
    (process s (some n)).output =
      content s ++ List.replicate (n - (getBufferedSamples s).toNat) Float32Like.zero ∧
    (process s (some n)).events.filter Event.isUnderrun =
      [Event.underrun (getBufferedSamples s) n] ∧
    getBufferedSamples (process s (some n)).state = 0 ∧
    (process s (some n)).state.isPlaying = true := by
  have hinv1 : Inv (periodicReport s).1 := hinv
  obtain ⟨e1, e2, e3, e4, e5, e6⟩ := render_spec _ (periodicReport s).2 n hinv1
  obtain ⟨b1, b2, b3⟩ := takeCount_bounds _ n hinv1
  obtain ⟨h1, h2, h3, h4, h5, h6⟩ := hinv
  have hb : getBufferedSamples (periodicReport s).1 = getBufferedSamples s := rfl
  have htc : takeCount (periodicReport s).1 n = getBufferedSamples s := by
    unfold takeCount
    rw [hb, show (periodicReport s).1.isPlaying = s.isPlaying from rfl, hp, if_pos rfl]
    omega
  have hev := render_underrun (periodicReport s).1 (periodicReport s).2 n hp (by rw [hb]; exact hu)
    (by rw [hb]; exact h5)
  rw [show (periodicReport s).1.streamEnded = s.streamEnded from rfl, hend] at hev
  simp only [Bool.false_eq_true, false_and, if_false, Prod.mk.injEq] at hev
  obtain ⟨ev1, ev2, _, _⟩ := hev
  show (render _ _ n).output = _ ∧ (render _ _ n).events.filter _ = _ ∧
    getBufferedSamples (render _ _ n).state = 0 ∧ (render _ _ n).state.isPlaying = true
  refine ⟨?_, ?_, ?_, ev2⟩
  · rw [e6, htc, content_eq_channel]
    have := channel_split n (getBufferedSamples s).toNat (by omega)
      (fun j => s.ringBuffer (wrapIndex s.bufferSize (s.readPos + j)))
    rw [← this]
    apply channel_congr
    intro i hi
    have hcast : (((getBufferedSamples s).toNat : Nat) : Int) = getBufferedSamples s := by omega
    rw [hcast]
    rfl
  · rw [ev1, hb, List.filter_append, (periodic_log_filter s).1]
    simp [Event.isUnderrun, sendCapacityUpdate]
  · have := (buffered_after_take _ _ _ hinv1 b1 b2 e2 e3 e5).1
    rw [this, htc, hb]; omega


/-- Witness of C4: 200 samples buffered and a render request of 1024 samples. -/
theorem underrun_block_witness :
    (process underrunState (some 1024)).output =
      content underrunState ++
        List.replicate (1024 - (getBufferedSamples underrunState).toNat) Float32Like.zero ∧
    (process underrunState (some 1024)).events.filter Event.isUnderrun =
      [Event.underrun (getBufferedSamples underrunState) (1024 : Nat)] ∧
    getBufferedSamples (process underrunState (some 1024)).state = 0 ∧
    (process underrunState (some 1024)).state.isPlaying = true :=
  underrun_block underrunState 1024 (by decide!) (by decide!) (by decide!) (by decide!)

/-- C5 (counterexample). With 200 samples buffered and the stream ended, the render call of
1024 samples that drains the buffer emits an underrun and a capacity report, no
playback-complete, and playback stays in the playing state. -/
theorem draining_call_reports_underrun :
    (process endedState (some 1024)).copied = 200 ∧
    getBufferedSamples (process endedState (some 1024)).state = 0 ∧
    (process endedState (some 1024)).events =
      [Event.underrun 200 1024, Event.capacity 0 3968 200 true] ∧
    (process endedState (some 1024)).state.isPlaying = true := by
  decide!

/-- C5 (amended). A render call made while playing after the stream-ended message, with
`b < n` samples buffered. If `b = 0`, the call emits playback-complete (once: not when it was
already reported since the last reset), emits no underrun and stops playback. If `0 < b`, the
call copies the `b` remaining samples, leaving zero buffered, emits one underrun and no
playback-complete and stays in the playing state; the next render call is the one that emits
playback-complete and stops playback. -/
theorem stream_end_completion (s : State α) (n : Nat)
    (hinv : Inv s) (hp : s.isPlaying = true) (hend : s.streamEnded = true)
    (hu : getBufferedSamples s < n) :
    (getBufferedSamples s = 0 →
      (process s (some n)).events.filter Event.isComplete =
        (if s.playbackCompleteReported then [] else [Event.playbackComplete]) ∧
      (process s (some n)).events.filter Event.isUnderrun = [] ∧
      (process s (some n)).state.isPlaying = false) ∧
    (0 < getBufferedSamples s →
      (process s (some n)).output.take (process s (some n)).copied = content s ∧
      getBufferedSamples (process s (some n)).state = 0 ∧
      (process s (some n)).events.filter Event.isUnderrun =
        [Event.underrun (getBufferedSamples s) n] ∧
      (process s (some n)).events.filter Event.isComplete = [] ∧
      (process s (some n)).state.isPlaying = true ∧
      ∀ m : Nat, 0 < m →
        (process (process s (some n)).state (some m)).events.filter Event.isComplete =
          (if s.playbackCompleteReported then [] else [Event.playbackComplete]) ∧
        (process (process s (some n)).state (some m)).events.filter Event.isUnderrun = [] ∧
        (process (process s (some n)).state (some m)).state.isPlaying = false) := by
  have hinv1 : Inv (periodicReport s).1 := hinv
  have hb : getBufferedSamples (periodicReport s).1 = getBufferedSamples s := rfl
  have hn : 0 < n := by
    obtain ⟨h1, h2, h3, h4, h5, h6⟩ := hinv
    omega
  have hproc : ∀ (t : State α) (k : Nat),
      process t (some k) = render (periodicReport t).1 (periodicReport t).2 k := fun _ _ => rfl
  have hr : (periodicReport s).1.playbackCompleteReported = s.playbackCompleteReported := rfl
  simp only [hproc]
  constructor
  · intro hz
    obtain ⟨c1, c2, c3⟩ := render_complete (periodicReport s).1 (periodicReport s).2 n hn hp hend
      (by rw [hb]; exact hz)
    rw [hr] at c1
    refine ⟨?_, ?_, c2⟩
    · rw [c1, List.filter_append, (periodic_log_filter s).2]
      cases s.playbackCompleteReported <;> simp [Event.isComplete]
    · rw [c1, List.filter_append, (periodic_log_filter s).1]
      cases s.playbackCompleteReported <;> simp [Event.isUnderrun]
  · intro hpos
    obtain ⟨e1, e2, e3, e4, e5, e6⟩ := render_spec _ (periodicReport s).2 n hinv1
    obtain ⟨b1, b2, b3⟩ := takeCount_bounds _ n hinv1
    have htc : takeCount (periodicReport s).1 n = getBufferedSamples s := by
      unfold takeCount
      rw [hb, show (periodicReport s).1.isPlaying = s.isPlaying from rfl, hp, if_pos rfl]
      omega
    have hev := render_underrun (periodicReport s).1 (periodicReport s).2 n hp
      (by rw [hb]; exact hu) (by rw [hb]; omega)
    rw [if_neg (by rw [hb]; omega)] at hev
    simp only [Prod.mk.injEq] at hev
    obtain ⟨ev1, ev2, ev3, ev4⟩ := hev
    have hafter := buffered_after_take _ _ _ hinv1 b1 b2 e2 e3 e5
    have hzero : getBufferedSamples (render (periodicReport s).1 (periodicReport s).2 n).state = 0 := by
      rw [hafter.1, htc, hb]; omega
    have hcont := render_content (periodicReport s).1 (periodicReport s).2 n hinv1
    have hnil : content (render (periodicReport s).1 (periodicReport s).2 n).state = [] := by
      unfold content; rw [hzero]; rfl
    rw [hnil, List.append_nil] at hcont
    refine ⟨hcont.symm, hzero, ?_, ?_, ev2, ?_⟩
    · rw [ev1, hb, List.filter_append, (periodic_log_filter s).1]
      simp [Event.isUnderrun, sendCapacityUpdate]
    · rw [ev1, hb, List.filter_append, (periodic_log_filter s).2]
      simp [Event.isComplete, sendCapacityUpdate]
    · intro m hm
      obtain ⟨c1, c2, c3⟩ := render_complete
        (periodicReport (render (periodicReport s).1 (periodicReport s).2 n).state).1
        (periodicReport (render (periodicReport s).1 (periodicReport s).2 n).state).2 m hm
        ev2 (by rw [show (periodicReport _).1.streamEnded = (render (periodicReport s).1 (periodicReport s).2 n).state.streamEnded from rfl, ev3]; exact hend) hzero
      have hrep : (periodicReport (render (periodicReport s).1 (periodicReport s).2 n).state).1.playbackCompleteReported = s.playbackCompleteReported := ev4
      rw [hrep] at c1
      refine ⟨?_, ?_, c2⟩
      · rw [c1, List.filter_append, (periodic_log_filter _).2]
        cases s.playbackCompleteReported <;> simp [Event.isComplete]
      · rw [c1, List.filter_append, (periodic_log_filter _).1]
        cases s.playbackCompleteReported <;> simp [Event.isUnderrun]

/-- Witness of C5 (amended): the state `endedState`, 200 samples buffered. -/
theorem stream_end_completion_witness :
    (getBufferedSamples endedState = 0 →
      (process endedState (some 1024)).events.filter Event.isComplete =
        (if endedState.playbackCompleteReported then [] else [Event.playbackComplete]) ∧
      (process endedState (some 1024)).events.filter Event.isUnderrun = [] ∧
      (process endedState (some 1024)).state.isPlaying = false) ∧
    (0 < getBufferedSamples endedState →
      (process endedState (some 1024)).output.take (process endedState (some 1024)).copied =
        content endedState ∧
      getBufferedSamples (process endedState (some 1024)).state = 0 ∧
      (process endedState (some 1024)).events.filter Event.isUnderrun =
        [Event.underrun (getBufferedSamples endedState) (1024 : Nat)] ∧
      (process endedState (some 1024)).events.filter Event.isComplete = [] ∧
      (process endedState (some 1024)).state.isPlaying = true ∧
      ∀ m : Nat, 0 < m →
        (process (process endedState (some 1024)).state (some m)).events.filter
            Event.isComplete =
          (if endedState.playbackCompleteReported then [] else [Event.playbackComplete]) ∧
        (process (process endedState (some 1024)).state (some m)).events.filter
            Event.isUnderrun = [] ∧
        (process (process endedState (some 1024)).state (some m)).state.isPlaying = false) :=
  stream_end_completion endedState 1024 (by decide!) (by decide!) (by decide!) (by decide!)

end PCMProcessor

/-! ## The producer: `PCMPlayerWorklet` (main thread) -/

namespace PCMPlayerWorklet

open PCMProcessor (InMsg Event)

/-- What `playAudio` accepts: an `Int16Array` or a `Float32Array`. -/
inductive AudioData (α : Type) where
  | int16 (xs : List Int)
  | float32 (xs : List α)

/-- Events the player emits to its listeners (time stamps, which are host clock readings,
are left out). -/
inductive Emitted where
  | audioStarted (samples : Nat)
  | firstPlayback (bufferedSamples : Int)
  | audioEnded
  deriving DecidableEq, Repr

/-- Fields of the `PCMPlayerWorklet` instance (constructor, lines 8-38). The worklet node
exists exactly when `isInitialized` holds: both are set in the same turn of `initialize`.
`initPendingQueue = none` is the unset queue. -/
structure State (α : Type) where
  pendingChunks : List (List α)
  availableCapacity : Int
  isWorkletReady : Bool
  isInitialized : Bool
  hasReceivedInitialCapacity : Bool
  pendingStreamEnd : Bool
  initPendingQueue : Option (List (AudioData α))
  chunksPlayed : Nat
  underruns : Nat
  bufferLevel : Int

/-- What a method call leaves behind: the new state, the messages posted to the worklet
port in order, and the events emitted to listeners. -/
structure Outcome (α : Type) where
  state : State α
  posted : List (InMsg α)
  emitted : List Emitted

variable {α : Type} [Float32Like α]

/-- The state after the constructor (lines 8-38). -/
def init : State α :=
  { pendingChunks := []
    availableCapacity := 0
    isWorkletReady := false
    isInitialized := false
    hasReceivedInitialCapacity := false
    pendingStreamEnd := false
    initPendingQueue := none
    chunksPlayed := 0
    underruns := 0
    bufferLevel := 0 }

/-- Lines 473-479. -/
def pcm16ToFloat32 (pcm16 : List Int) : List α := pcm16.map Float32Like.ofPcm16

/-- Lines 432-435 of `playAudio`: `data instanceof Int16Array ? pcm16ToFloat32(data) : data`. -/
def toFloat32 : AudioData α → List α
  | .int16 xs => pcm16ToFloat32 xs
  | .float32 xs => xs

/-- Lines 403-407 of `processPendingChunks`: the deferred `stream-ended` message. -/
def flushStreamEnd (p : State α) (posted : List (InMsg α)) : Outcome α :=
  if p.pendingChunks.length = 0 ∧ p.pendingStreamEnd = true then
    { state := { p with pendingStreamEnd := false }
      posted := posted ++ [InMsg.streamEnded], emitted := [] }
  else { state := p, posted := posted, emitted := [] }

/-- Lines 364-408. -/
def processPendingChunks (p : State α) : Outcome α :=
  if !p.isWorkletReady || p.pendingChunks.length = 0 then
    { state := p, posted := [], emitted := [] }
  else if p.availableCapacity ≤ 0 then
    { state := p, posted := [], emitted := [] }
  else
    match p.pendingChunks with
    | [] => { state := p, posted := [], emitted := [] }
    | chunk :: rest =>
      if (chunk.length : Int) ≤ p.availableCapacity then
        flushStreamEnd { p with pendingChunks := rest, availableCapacity := 0 }
          [InMsg.audio chunk]
      else if p.availableCapacity > 4096 then
        let partialChunk := PCMProcessor.slice chunk 0 p.availableCapacity
        flushStreamEnd
          { p with
            pendingChunks := PCMProcessor.sliceFrom chunk p.availableCapacity :: rest
            availableCapacity := 0 }
          [InMsg.audio partialChunk]
      else flushStreamEnd p []

/-- Lines 349-356 of `handleCapacityUpdate`: the first capacity ever received. -/
def firstCapacity (p : State α) : Outcome α :=
  if !p.hasReceivedInitialCapacity then
    let p := { p with hasReceivedInitialCapacity := true }
    if p.pendingChunks.length > 0 then processPendingChunks p
    else { state := p, posted := [], emitted := [] }
  else { state := p, posted := [], emitted := [] }

/-- Lines 342-362; the arguments are the payload of a `capacity` message. -/
def handleCapacityUpdate (p : State α) (buffered capacity requestSamples : Int) : Outcome α :=
  let first := firstCapacity { p with availableCapacity := capacity, bufferLevel := buffered }
  if requestSamples > 0 ∧ first.state.pendingChunks.length > 0 then
    let second := processPendingChunks first.state
    { state := second.state, posted := first.posted ++ second.posted, emitted := [] }
  else first

/-- Lines 428-458 of `playAudio`, for an initialized player; `running` tells whether
`audioContext.state` is `'running'`. -/
def playAudioReady (p : State α) (data : AudioData α) (running : Bool) : Outcome α :=
  if !running then { state := p, posted := [], emitted := [] }
  else
    let float32Array : List α := toFloat32 data
    let p := { p with pendingChunks := p.pendingChunks ++ [float32Array] }
    let sent : Outcome α :=
      if p.hasReceivedInitialCapacity && decide (p.availableCapacity > 0) then
        processPendingChunks p
      else { state := p, posted := [], emitted := [] }
    { state := { sent.state with chunksPlayed := sent.state.chunksPlayed + 1 }
      posted := sent.posted
      emitted := [Emitted.audioStarted float32Array.length] }

/-- Lines 410-459. -/
def playAudio (p : State α) (data : AudioData α) (running : Bool) : Outcome α :=
  if !p.isInitialized then
    { state := { p with initPendingQueue := some (p.initPendingQueue.getD [] ++ [data]) }
      posted := [], emitted := [] }
  else playAudioReady p data running

/-- The loop of lines 419-421: the queued data replayed through `playAudio`. -/
def replayQueue (p : State α) (running : Bool) : List (AudioData α) → Outcome α
  | [] => { state := p, posted := [], emitted := [] }
  | data :: queue =>
    let one := playAudio p data running
    let more := replayQueue one.state running queue
    { state := more.state, posted := one.posted ++ more.posted
      emitted := one.emitted ++ more.emitted }

/-- The end of `initialize` (lines 334-335) followed, in the same turn, by the callback
registered on `initPromise` (lines 415-422) when data was queued meanwhile. -/
def initialized (p : State α) (running : Bool) : Outcome α :=
  let p := { p with isInitialized := true, isWorkletReady := true }
  match p.initPendingQueue with
  | none => { state := p, posted := [], emitted := [] }
  | some queue => replayQueue { p with initPendingQueue := none } running queue

/-- Lines 461-471. -/
def notifyStreamEnded (p : State α) : Outcome α :=
  if p.pendingChunks.length > 0 then
    { state := { p with pendingStreamEnd := true }, posted := [], emitted := [] }
  else if p.isInitialized then { state := p, posted := [InMsg.streamEnded], emitted := [] }
  else { state := p, posted := [], emitted := [] }

/-- Lines 481-500 (the gain ramp is left out). -/
def reset (p : State α) : Outcome α :=
  { state := { p with pendingChunks := [], pendingStreamEnd := false, availableCapacity := 0 }
    posted := if p.isInitialized then [InMsg.reset] else []
    emitted := [] }

/-- The handler of messages from the worklet (lines 305-332). -/
def onWorkletMessage (p : State α) : Event → Outcome α
  | .capacity buffered capacity requestSamples _ =>
    handleCapacityUpdate p buffered capacity requestSamples
  | .underrun _ _ => processPendingChunks { p with underruns := p.underruns + 1 }
  | .playbackStarted buffered =>
    { state := p, posted := [], emitted := [Emitted.firstPlayback buffered] }
  | .playbackComplete => { state := p, posted := [], emitted := [Emitted.audioEnded] }
  | .overflowError _ _ _ => { state := p, posted := [], emitted := [] }

/-- What can happen to the player: its initialization completes, one of its methods is
called, or a message of the worklet is delivered. -/
inductive Input (α : Type) where
  | initialized (running : Bool)
  | playAudio (data : AudioData α) (running : Bool)
  | notifyStreamEnded
  | reset
  | message (e : Event)

/-- One input handled. -/
def handle (p : State α) : Input α → Outcome α
  | .initialized running => initialized p running
  | .playAudio data running => playAudio p data running
  | .notifyStreamEnded => notifyStreamEnded p
  | .reset => reset p
  | .message e => onWorkletMessage p e

/-- The lengths of the audio messages among posted messages. -/
def audioLengths : List (InMsg α) → List Nat
  | [] => []
  | .audio data :: rest => data.length :: audioLengths rest
  | _ :: rest => audioLengths rest

/-- Ghost bookkeeping along a run of the player: the capacity of the most recent capacity
update (if any), the number of audio messages posted since it (or since the start), and
whether so far every posted audio message was no longer than the capacity advertised last
and left `availableCapacity` at `0`. -/
structure Monitor (α : Type) where
  state : State α
  advertised : Option Int
  postsSince : Nat
  ok : Bool

/-- The capacity a `capacity` message advertises. -/
def advertisedBy : Input α → Option Int
  | .message (.capacity _ capacity _ _) => some capacity
  | _ => none

/-- The monitor after one more input. -/
def Monitor.next (m : Monitor α) (i : Input α) : Monitor α :=
  let out := handle m.state i
  let advertised := (advertisedBy i).orElse (fun _ => m.advertised)
  let lens := audioLengths out.posted
  { state := out.state
    advertised := advertised
    postsSince := (if (advertisedBy i).isSome then 0 else m.postsSince) + lens.length
    ok := m.ok &&
      (lens.all fun len =>
        (match advertised with
          | some c => decide ((len : Int) ≤ c)
          | none => false) &&
        decide (out.state.availableCapacity = 0)) }

/-- The monitor after a sequence of inputs, from the freshly constructed player. -/
def monitor (inputs : List (Input α)) : Monitor α :=
  inputs.foldl Monitor.next { state := init, advertised := none, postsSince := 0, ok := true }

/-! ### Producer: lemmas and claims -/

/-- With capacity `c` in effect, a method call either posts no audio message and leaves
the capacity at `c` or at `0`, or posts exactly one audio message, of at most `c > 0`
samples, and leaves the capacity at `0`. -/
def Sends (c : Int) (posted : List (InMsg α)) (after : State α) : Prop :=
  (audioLengths posted = [] ∧ (after.availableCapacity = c ∨ after.availableCapacity = 0)) ∨
  (∃ len : Nat, audioLengths posted = [len] ∧ (len : Int) ≤ c ∧ 0 < c ∧
    after.availableCapacity = 0)

theorem audioLengths_append (xs ys : List (InMsg α)) :
    audioLengths (xs ++ ys) = audioLengths xs ++ audioLengths ys := by
  induction xs with
  | nil => rfl
  | cons x xs ih => cases x <;> simp [audioLengths, ih]

theorem Sends.comp {c : Int} {p1 p2 : List (InMsg α)} {s1 s2 : State α}
    (h1 : Sends c p1 s1) (h2 : Sends s1.availableCapacity p2 s2) : Sends c (p1 ++ p2) s2 := by
  unfold Sends at *
  rw [audioLengths_append]
  rcases h1 with ⟨a1, b1⟩ | ⟨len, a1, b1, c1, d1⟩
  · rcases h2 with ⟨a2, b2⟩ | ⟨len, a2, b2, c2, d2⟩
    · left
      refine ⟨by simp [a1, a2], ?_⟩
      rcases b1 with b1 | b1 <;> rcases b2 with b2 | b2 <;> omega
    · right
      refine ⟨len, by simp [a1, a2], ?_, ?_, d2⟩
      · rcases b1 with b1 | b1 <;> omega
      · rcases b1 with b1 | b1 <;> omega
  · rcases h2 with ⟨a2, b2⟩ | ⟨len2, a2, b2, c2, d2⟩
    · right
      refine ⟨len, by simp [a1, a2], b1, c1, ?_⟩
      rcases b2 with b2 | b2 <;> omega
    · omega

theorem flushStreamEnd_sends (p : State α) (posted : List (InMsg α)) :
    audioLengths (flushStreamEnd p posted).posted = audioLengths posted ∧
    (flushStreamEnd p posted).state.availableCapacity = p.availableCapacity := by
  unfold flushStreamEnd
  split_ifs
  · simp [audioLengths_append, audioLengths]
  · simp

theorem processPendingChunks_sends (p : State α) :
    Sends p.availableCapacity (processPendingChunks p).posted (processPendingChunks p).state := by
  unfold processPendingChunks
  by_cases h1 : (!p.isWorkletReady || decide (p.pendingChunks.length = 0)) = true
  · rw [if_pos h1]; left; simp [audioLengths]
  · rw [if_neg h1]
    by_cases h2 : p.availableCapacity ≤ 0
    · rw [if_pos h2]; left; simp [audioLengths]
    · rw [if_neg h2]
      cases hpc : p.pendingChunks with
      | nil => left; simp [audioLengths]
      | cons chunk rest =>
        simp only []
        by_cases h3 : (chunk.length : Int) ≤ p.availableCapacity
        · rw [if_pos h3]
          right
          obtain ⟨f1, f2⟩ := flushStreamEnd_sends
            { p with pendingChunks := rest, availableCapacity := 0 } [InMsg.audio chunk]
          exact ⟨chunk.length, by rw [f1]; rfl, h3, by omega, f2⟩
        · rw [if_neg h3]
          by_cases h4 : p.availableCapacity > 4096
          · rw [if_pos h4]
            right
            obtain ⟨f1, f2⟩ := flushStreamEnd_sends
              { p with pendingChunks := PCMProcessor.sliceFrom chunk p.availableCapacity :: rest,
                       availableCapacity := 0 }
              [InMsg.audio (PCMProcessor.slice chunk 0 p.availableCapacity)]
            have hl := PCMProcessor.slice_length chunk p.availableCapacity (by omega) (by omega)
            exact ⟨_, by rw [f1]; rfl, by omega, by omega, f2⟩
          · rw [if_neg h4]
            left
            obtain ⟨f1, f2⟩ := flushStreamEnd_sends p []
            exact ⟨by rw [f1]; rfl, Or.inl f2⟩

theorem Sends.none (c : Int) (s : State α) (h : s.availableCapacity = c ∨ s.availableCapacity = 0) :
    Sends c ([] : List (InMsg α)) s := Or.inl ⟨rfl, h⟩

theorem firstCapacity_sends (p : State α) :
    Sends p.availableCapacity (firstCapacity p).posted (firstCapacity p).state := by
  unfold firstCapacity
  simp only []
  split_ifs
  · exact processPendingChunks_sends { p with hasReceivedInitialCapacity := true }
  · exact Sends.none _ _ (Or.inl rfl)
  · exact Sends.none _ _ (Or.inl rfl)

theorem handleCapacityUpdate_sends (p : State α) (buffered capacity requestSamples : Int) :
    Sends capacity (handleCapacityUpdate p buffered capacity requestSamples).posted
      (handleCapacityUpdate p buffered capacity requestSamples).state := by
  unfold handleCapacityUpdate
  simp only []
  have h1 := firstCapacity_sends { p with availableCapacity := capacity, bufferLevel := buffered }
  split_ifs with h
  · exact Sends.comp h1 (processPendingChunks_sends _)
  · exact h1

theorem playAudioReady_sends (p : State α) (data : AudioData α) (running : Bool) :
    Sends p.availableCapacity (playAudioReady p data running).posted
      (playAudioReady p data running).state := by
  unfold playAudioReady
  cases running
  · exact Sends.none _ _ (Or.inl rfl)
  · simp only [Bool.not_true, Bool.false_eq_true, if_false]
    split_ifs
    · exact processPendingChunks_sends
        { p with pendingChunks := p.pendingChunks ++ [toFloat32 data] }
    · exact Sends.none _ _ (Or.inl rfl)

theorem playAudio_sends (p : State α) (data : AudioData α) (running : Bool) :
    Sends p.availableCapacity (playAudio p data running).posted
      (playAudio p data running).state := by
  unfold playAudio
  split_ifs
  · exact Sends.none _ _ (Or.inl rfl)
  · exact playAudioReady_sends p data running

theorem replayQueue_sends (p : State α) (running : Bool) (queue : List (AudioData α)) :
    Sends p.availableCapacity (replayQueue p running queue).posted
      (replayQueue p running queue).state := by
  induction queue generalizing p with
  | nil => exact Sends.none _ _ (Or.inl rfl)
  | cons data queue ih =>
    exact Sends.comp (playAudio_sends p data running) (ih _)

theorem handle_sends (p : State α) (i : Input α) :
    Sends ((advertisedBy i).getD p.availableCapacity) (handle p i).posted (handle p i).state := by
  cases i with
  | initialized running =>
    show Sends p.availableCapacity (initialized p running).posted (initialized p running).state
    unfold initialized
    simp only []
    cases p.initPendingQueue with
    | none => exact Sends.none _ _ (Or.inl rfl)
    | some queue =>
      exact replayQueue_sends
        { pendingChunks := p.pendingChunks, availableCapacity := p.availableCapacity,
          isWorkletReady := true, isInitialized := true,
          hasReceivedInitialCapacity := p.hasReceivedInitialCapacity,
          pendingStreamEnd := p.pendingStreamEnd, initPendingQueue := none,
          chunksPlayed := p.chunksPlayed, underruns := p.underruns,
          bufferLevel := p.bufferLevel } running queue
  | playAudio data running => exact playAudio_sends p data running
  | notifyStreamEnded =>
    show Sends p.availableCapacity (notifyStreamEnded p).posted (notifyStreamEnded p).state
    unfold notifyStreamEnded
    split_ifs
    · exact Sends.none _ _ (Or.inl rfl)
    · exact Or.inl ⟨rfl, Or.inl rfl⟩
    · exact Sends.none _ _ (Or.inl rfl)
  | reset =>
    show Sends p.availableCapacity (reset p).posted (reset p).state
    unfold reset
    refine Or.inl ⟨?_, Or.inr rfl⟩
    simp only []
    split_ifs <;> rfl
  | message e =>
    cases e with
    | capacity buffered capacity requestSamples isPlaying =>
      exact handleCapacityUpdate_sends p buffered capacity requestSamples
    | underrun b n => exact processPendingChunks_sends { p with underruns := p.underruns + 1 }
    | playbackStarted b => exact Sends.none _ _ (Or.inl rfl)
    | playbackComplete => exact Sends.none _ _ (Or.inl rfl)
    | overflowError a b c => exact Sends.none _ _ (Or.inl rfl)

/-- The invariant of the monitored run. -/
def Disciplined (m : Monitor α) : Prop :=
  m.ok = true ∧ m.postsSince ≤ 1 ∧ (m.advertised = none → m.postsSince = 0) ∧
  (m.state.availableCapacity = 0 ∨
    (m.advertised = some m.state.availableCapacity ∧ m.postsSince = 0))

theorem Disciplined.next (m : Monitor α) (i : Input α) (h : Disciplined m) :
    Disciplined (m.next i) := by
  obtain ⟨h1, h2, h3, h4⟩ := h
  have hs := handle_sends m.state i
  unfold Disciplined Monitor.next
  simp only []
  cases hadv : advertisedBy i with
  | none =>
    rw [hadv] at hs
    simp only [Option.getD_none, Option.isSome_none, Option.orElse_none, Bool.false_eq_true, if_false] at hs ⊢
    rcases hs with ⟨a, b⟩ | ⟨len, a, b, c, d⟩
    · rw [a]
      refine ⟨by simpa using h1, by simpa using h2, by simpa using h3, ?_⟩
      rcases b with b | b
      · rw [b]; simpa using h4
      · exact Or.inl b
    · rw [a]
      have h5 : m.advertised = some m.state.availableCapacity ∧ m.postsSince = 0 := by
        rcases h4 with h4 | h4
        · omega
        · exact h4
      rw [h5.1, h5.2]
      refine ⟨?_, by simp, by simp, Or.inl d⟩
      simp [h1, b, d]
  | some cap =>
    rw [hadv] at hs
    simp only [Option.getD_some, Option.isSome_some, Option.orElse, if_true] at hs ⊢
    rcases hs with ⟨a, b⟩ | ⟨len, a, b, c, d⟩
    · rw [a]
      refine ⟨by simpa using h1, by simp, by simp, ?_⟩
      rcases b with b | b
      · exact Or.inr ⟨by rw [b], by simp⟩
      · exact Or.inl b
    · rw [a]
      refine ⟨?_, by simp, by simp, Or.inl d⟩
      simp [h1, b, d]

theorem monitor_disciplined (inputs : List (Input α)) : Disciplined (monitor inputs) := by
  unfold monitor
  have h0 : Disciplined ({ state := init, advertised := none, postsSince := 0, ok := true } : Monitor α) :=
    ⟨rfl, by simp, fun _ => rfl, Or.inl rfl⟩
  generalize ({ state := init, advertised := none, postsSince := 0, ok := true } : Monitor α) = m0 at h0
  induction inputs generalizing m0 with
  | nil => exact h0
  | cons i inputs ih => exact ih _ (Disciplined.next m0 i h0)

/-- A capacity update that asks for samples releases the head of the queue when it fits. -/
theorem capacity_releases_head (p : State α) (chunk : List α) (rest : List (List α))
    (buffered capacity request : Int)
    (hready : p.isWorkletReady = true) (hp : p.pendingChunks = chunk :: rest)
    (hfit : (chunk.length : Int) ≤ capacity) (hpos : 0 < capacity) (hreq : 0 < request)
    (hpse : p.pendingStreamEnd = false) :
    (handleCapacityUpdate p buffered capacity request).posted = [InMsg.audio chunk] ∧
    (handleCapacityUpdate p buffered capacity request).state =
      { p with pendingChunks := rest, availableCapacity := 0, bufferLevel := buffered,
               hasReceivedInitialCapacity := true } := by
  have hppc : ∀ q : State α, q.isWorkletReady = true → q.pendingChunks = chunk :: rest →
      q.availableCapacity = capacity → q.pendingStreamEnd = false →
      processPendingChunks q =
        { state := { q with pendingChunks := rest, availableCapacity := 0 },
          posted := [InMsg.audio chunk], emitted := [] } := by
    intro q h1 h2 h3 h4
    unfold processPendingChunks
    have c1 : ¬ ((!q.isWorkletReady || decide (q.pendingChunks.length = 0)) = true) := by
      simp [h1, h2]
    have c2 : ¬ (q.availableCapacity ≤ 0) := by omega
    rw [if_neg c1, if_neg c2, h2]
    simp only []
    rw [if_pos (by omega)]
    unfold flushStreamEnd
    rw [if_neg (by simp [h4])]
  have hidle : ∀ q : State α, q.availableCapacity = 0 →
      processPendingChunks q = { state := q, posted := [], emitted := [] } := by
    intro q h1
    unfold processPendingChunks
    by_cases c1 : (!q.isWorkletReady || decide (q.pendingChunks.length = 0)) = true
    · rw [if_pos c1]
    · rw [if_neg c1, if_pos (by omega)]
  obtain ⟨pc, ac, wr, ii, hr, pse, ipq, cp, ur, bl⟩ := p
  simp only at hp hready hpse
  subst hp hready hpse
  unfold handleCapacityUpdate firstCapacity
  simp only []
  cases hr
  · simp only [Bool.not_false, if_true, List.length_cons, gt_iff_lt, Nat.zero_lt_succ]
    rw [hppc _ rfl rfl rfl rfl]
    simp only []
    split_ifs
    · rw [hidle _ rfl]
      simp
    · simp
  · simp only [Bool.not_true, Bool.false_eq_true, if_false, List.length_cons, gt_iff_lt,
      Nat.zero_lt_succ, and_true, hreq, if_true]
    rw [hppc _ rfl rfl rfl rfl]
    simp

/-- C6. Producer discipline, along every sequence of `playAudio`, `notifyStreamEnded` and
`reset` calls, completions of `initialize` and deliveries of worklet messages (capacity
updates, underrun notifications and the others), from the freshly constructed player: every
audio message posted so far was no longer than the capacity advertised by the most recent
capacity update and left `availableCapacity` at `0`; at most one audio message has been
posted since the most recent capacity update, and none before the first one. -/
theorem producer_posts_one_chunk_per_update (inputs : List (Input α)) :
    (monitor inputs).ok = true ∧ (monitor inputs).postsSince ≤ 1 ∧
    ((monitor inputs).advertised = none → (monitor inputs).postsSince = 0) :=
  ⟨(monitor_disciplined inputs).1, (monitor_disciplined inputs).2.1,
    (monitor_disciplined inputs).2.2.1⟩

end PCMPlayerWorklet

/-! ## Producer and ring buffer exchanging messages asynchronously -/

namespace Pipeline

open PCMProcessor (InMsg Event)

/-- The two contexts and the two message channels between them. Each handler runs to
completion before the next one starts, and each port delivers its messages in order, so a
channel is a queue; `workletLog` (ghost) collects everything the processor emitted,
including the `console.error` of the overflow-recovery branch. -/
structure System (α : Type) where
  player : PCMPlayerWorklet.State α
  worklet : PCMProcessor.State α
  toWorklet : List (InMsg α)
  toPlayer : List Event
  workletLog : List Event

/-- What can happen next: a method of the player is called (or its initialization
completes), the oldest message of a channel is delivered, or the audio device asks for a
block of `n` samples. -/
inductive Action (α : Type) where
  | initialized (running : Bool)
  | playAudio (data : PCMPlayerWorklet.AudioData α) (running : Bool)
  | notifyStreamEnded
  | reset
  | deliverToPlayer
  | deliverToWorklet
  | render (n : Nat)

variable {α : Type} [Float32Like α]

/-- Whether an event of the processor is a message on its port (the overflow line goes to
the console). -/
def isPortMessage : Event → Bool
  | .overflowError _ _ _ => false
  | _ => true

/-- The system once the processor is constructed: its constructor has posted the initial
capacity (line 93), which waits until the player has installed its handler. -/
def start (bufferSize minBufferSamples : Int) : System α :=
  { player := PCMPlayerWorklet.init
    worklet := PCMProcessor.init bufferSize minBufferSamples
    toWorklet := []
    toPlayer :=
      [PCMProcessor.sendCapacityUpdate
        (PCMProcessor.init bufferSize minBufferSamples : PCMProcessor.State α)]
    workletLog := [] }

/-- The system after the player handled an input. -/
def afterPlayer (s : System α) (out : PCMPlayerWorklet.Outcome α) : System α :=
  { s with player := out.state, toWorklet := s.toWorklet ++ out.posted }

/-- The system after the processor emitted `events` and moved to `w`. -/
def afterWorklet (s : System α) (w : PCMProcessor.State α) (events : List Event) : System α :=
  { s with
    worklet := w
    toPlayer := s.toPlayer ++ events.filter isPortMessage
    workletLog := s.workletLog ++ events }

/-- One action. A delivery on an empty channel does nothing, and messages for the player
wait until `initialize` has installed the handler (line 305). -/
def step (s : System α) : Action α → System α
  | .initialized running => afterPlayer s (PCMPlayerWorklet.initialized s.player running)
  | .playAudio data running => afterPlayer s (PCMPlayerWorklet.playAudio s.player data running)
  | .notifyStreamEnded => afterPlayer s (PCMPlayerWorklet.notifyStreamEnded s.player)
  | .reset => afterPlayer s (PCMPlayerWorklet.reset s.player)
  | .deliverToPlayer =>
    match s.toPlayer with
    | [] => s
    | e :: rest =>
      if s.player.isInitialized then
        afterPlayer { s with toPlayer := rest } (PCMPlayerWorklet.onWorkletMessage s.player e)
      else s
  | .deliverToWorklet =>
    match s.toWorklet with
    | [] => s
    | msg :: rest =>
      let r := PCMProcessor.onmessage s.worklet msg
      afterWorklet { s with toWorklet := rest } r.state r.events
  | .render n =>
    let r := PCMProcessor.process s.worklet (some n)
    afterWorklet s r.state r.events

/-- A sequence of actions. -/
def run (s : System α) (actions : List (Action α)) : System α := actions.foldl step s

/-- The interleaving in which a capacity update that is already on its way when a chunk is
posted is handled after the post: the player is reset before it has handled the initial
capacity, two chunks `a` and `b` are queued, and the two capacity updates in flight (the
initial one and the one that answers the reset) each release one chunk. -/
def staleUpdateRace (a b : List α) : List (Action α) :=
  [ .initialized true, .reset, .deliverToWorklet,
    .playAudio (.float32 a) true, .playAudio (.float32 b) true,
    .deliverToPlayer, .deliverToPlayer,
    .deliverToWorklet, .deliverToWorklet ]

/-! ### Asynchronous system: lemmas and claims -/

theorem addAudio_overflow_logged (s : PCMProcessor.State α) (d : List α)
    (h : (d.length : Int) > PCMProcessor.getAvailableSpace s) :
    Event.overflowError d.length (PCMProcessor.getAvailableSpace s)
      (PCMProcessor.getBufferedSamples s) ∈ (PCMProcessor.addAudio s d).events := by
  unfold PCMProcessor.addAudio
  have hrec : (PCMProcessor.recoverOverflow s d.length).2 =
      [Event.overflowError d.length (PCMProcessor.getAvailableSpace s)
        (PCMProcessor.getBufferedSamples s)] := by
    unfold PCMProcessor.recoverOverflow
    simp only [h, if_true]
  simp only []
  cases PCMProcessor.writeAudio (PCMProcessor.recoverOverflow s d.length).1 d with
  | error s1 => simp [hrec]
  | ok s1 =>
    simp only [hrec]
    unfold PCMProcessor.finishAdd
    simp only []
    split_ifs <;> simp


/-- The player of the race after its first five actions: initialized, reset, two chunks
queued and no capacity received yet. -/
def racePlayer (a b : List α) : PCMPlayerWorklet.State α :=
  { pendingChunks := [a, b]
    availableCapacity := 0
    isWorkletReady := true
    isInitialized := true
    hasReceivedInitialCapacity := false
    pendingStreamEnd := false
    initPendingQueue := none
    chunksPlayed := 2
    underruns := 0
    bufferLevel := 0 }

theorem run_append (s : System α) (xs ys : List (Action α)) :
    run s (xs ++ ys) = run (run s xs) ys := by
  simp [run, List.foldl_append]

theorem race_after5 (B m : Int) (a b : List α) :
    run (start B m : System α) ((staleUpdateRace a b).take 5) =
      { player := racePlayer a b
        worklet := (PCMProcessor.reset (PCMProcessor.init B m)).state
        toWorklet := []
        toPlayer := [PCMProcessor.sendCapacityUpdate (PCMProcessor.init B m : PCMProcessor.State α),
          PCMProcessor.sendCapacityUpdate (PCMProcessor.reset (PCMProcessor.init B m : PCMProcessor.State α)).state]
        workletLog := [PCMProcessor.sendCapacityUpdate (PCMProcessor.reset (PCMProcessor.init B m : PCMProcessor.State α)).state] } := by
  rfl

theorem initial_capacity (B m : Int) (hB : 128 < B) (hm : 0 < m) :
    ∃ request : Int, 0 < request ∧
      PCMProcessor.sendCapacityUpdate (PCMProcessor.init B m : PCMProcessor.State α) =
        Event.capacity 0 (B - 128) request false ∧
      PCMProcessor.sendCapacityUpdate
          (PCMProcessor.reset (PCMProcessor.init B m : PCMProcessor.State α)).state =
        Event.capacity 0 (B - 128) request false := by
  refine ⟨min (B - 128) (m * 2), by omega, ?_, ?_⟩
  · simp [PCMProcessor.sendCapacityUpdate, PCMProcessor.init, PCMProcessor.getBufferedSamples,
      PCMProcessor.getAvailableSpace, hm]
  · simp [PCMProcessor.sendCapacityUpdate, PCMProcessor.init, PCMProcessor.getBufferedSamples,
      PCMProcessor.getAvailableSpace, PCMProcessor.reset, hm]

theorem race_after7 (B m : Int) (a b : List α) (hm : 0 < m)
    (ha : (a.length : Int) ≤ B - 128) (hb : (b.length : Int) ≤ B - 128)
    (hab : B - 128 < a.length + b.length) :
    (run (start B m : System α) ((staleUpdateRace a b).take 7)).toWorklet =
        [InMsg.audio a, InMsg.audio b] ∧
    (run (start B m : System α) ((staleUpdateRace a b).take 7)).worklet =
        (PCMProcessor.reset (PCMProcessor.init B m)).state := by
  have hB : 128 < B := by omega
  obtain ⟨request, hreq, h0, hr⟩ := initial_capacity (α := α) B m hB hm
  have h5 := race_after5 B m a b
  have hsplit : (staleUpdateRace a b).take 7 =
      (staleUpdateRace a b).take 5 ++ [Action.deliverToPlayer, Action.deliverToPlayer] := rfl
  rw [hsplit, run_append, h5, h0, hr]
  obtain ⟨c1, c2⟩ := PCMPlayerWorklet.capacity_releases_head (racePlayer a b) a [b] 0 (B - 128)
    request rfl rfl ha (by omega) hreq rfl
  obtain ⟨d1, d2⟩ := PCMPlayerWorklet.capacity_releases_head
    ({ (racePlayer a b) with
        pendingChunks := [b]
        availableCapacity := 0
        bufferLevel := 0
        hasReceivedInitialCapacity := true }) b [] 0 (B - 128)
    request rfl rfl hb (by omega) hreq rfl
  simp only [run, List.foldl, step, racePlayer, if_true, afterPlayer,
    PCMPlayerWorklet.onWorkletMessage] at c1 c2 d1 d2 ⊢
  rw [c2, c1, d1]
  simp


theorem step_deliverToWorklet (s : System α) (msg : InMsg α) (rest : List (InMsg α))
    (h : s.toWorklet = msg :: rest) :
    (step s Action.deliverToWorklet).worklet = (PCMProcessor.onmessage s.worklet msg).state ∧
    (step s Action.deliverToWorklet).toWorklet = rest ∧
    (step s Action.deliverToWorklet).workletLog =
      s.workletLog ++ (PCMProcessor.onmessage s.worklet msg).events := by
  unfold step
  simp only [h, afterWorklet]
  simp

/-- The race, for any ring size and any two chunks that each fit the empty ring but not
both: the second chunk arrives with less space available than it needs. -/
theorem stale_update_overflows (B m : Int) (a b : List α) (hm : 0 < m)
    (ha : (a.length : Int) ≤ B - 128) (hb : (b.length : Int) ≤ B - 128)
    (hab : B - 128 < a.length + b.length) :
    Event.overflowError b.length (B - 128 - a.length) a.length ∈
      (run (start B m : System α) (staleUpdateRace a b)).workletLog := by
  obtain ⟨h7q, h7w⟩ := race_after7 B m a b hm ha hb hab
  have hsplit : staleUpdateRace a b =
      (staleUpdateRace a b).take 7 ++ [Action.deliverToWorklet, Action.deliverToWorklet] := rfl
  rw [hsplit, run_append]
  generalize run (start B m : System α) ((staleUpdateRace a b).take 7) = s7 at h7q h7w
  obtain ⟨e1, e2, e3⟩ := step_deliverToWorklet s7 _ _ h7q
  obtain ⟨f1, f2, f3⟩ := step_deliverToWorklet (step s7 Action.deliverToWorklet) _ _ e2
  simp only [run, List.foldl]
  rw [f3, e1, h7w]
  apply List.mem_append_right
  show _ ∈ (PCMProcessor.addAudio _ b).events
  have hinv0 : PCMProcessor.Inv (PCMProcessor.reset (PCMProcessor.init B m : PCMProcessor.State α)).state :=
    PCMProcessor.start_inv _ (by show 128 ≤ B; omega) (Or.inr ⟨_, rfl⟩)
  have hb0 : PCMProcessor.getBufferedSamples
      (PCMProcessor.reset (PCMProcessor.init B m : PCMProcessor.State α)).state = 0 := by
    simp [PCMProcessor.getBufferedSamples, PCMProcessor.reset]
  have hav0 : PCMProcessor.getAvailableSpace
      (PCMProcessor.reset (PCMProcessor.init B m : PCMProcessor.State α)).state = B - 128 := by
    unfold PCMProcessor.getAvailableSpace
    rw [hb0]
    show B - 0 - 128 = B - 128
    omega
  have hfit : (a.length : Int) ≤ PCMProcessor.getAvailableSpace
      (PCMProcessor.reset (PCMProcessor.init B m : PCMProcessor.State α)).state := by
    rw [hav0]; exact ha
  have hfits := PCMProcessor.addAudio_fits _ a hinv0 hfit
  obtain ⟨g1, g2, g3, g4, g5⟩ := PCMProcessor.finishAdd_fields
    { (PCMProcessor.reset (PCMProcessor.init B m : PCMProcessor.State α)).state with
      ringBuffer := PCMProcessor.writtenRing
        (PCMProcessor.reset (PCMProcessor.init B m : PCMProcessor.State α)).state a
      writePos := PCMProcessor.wrapIndex
        (PCMProcessor.reset (PCMProcessor.init B m : PCMProcessor.State α)).state.bufferSize
        ((PCMProcessor.reset (PCMProcessor.init B m : PCMProcessor.State α)).state.writePos + a.length) } []
  have hput := PCMProcessor.buffered_after_put _ _ _ hinv0 (by omega) hfit g1 g2 g3
  rw [← hfits] at hput g1
  have hb1 : PCMProcessor.getBufferedSamples (PCMProcessor.addAudio
      (PCMProcessor.reset (PCMProcessor.init B m : PCMProcessor.State α)).state a).state = a.length := by
    rw [hput.1, hb0]; omega
  have hav1 : PCMProcessor.getAvailableSpace (PCMProcessor.addAudio
      (PCMProcessor.reset (PCMProcessor.init B m : PCMProcessor.State α)).state a).state
      = B - 128 - a.length := by
    unfold PCMProcessor.getAvailableSpace
    rw [hb1, g1]
    show B - a.length - 128 = _
    omega
  have := addAudio_overflow_logged (PCMProcessor.addAudio
      (PCMProcessor.reset (PCMProcessor.init B m : PCMProcessor.State α)).state a).state b
      (by rw [hav1]; omega)
  rw [hav1, hb1] at this
  exact this

/-- C7 (the code on the failing interleaving). Ring of a 48 kHz context (2880000 cells,
prebuffer 14400). The player is reset before it has handled the initial capacity message;
chunks of 2000000 samples each are queued by two `playAudio` calls; the initial capacity
update and the update that answers the reset each release one chunk, although each was
computed before the first chunk arrived. The producer posted one chunk per capacity update,
each within the advertised capacity 2879872, and the second chunk reaches `addAudio` with
only 879872 cells available: the overflow-recovery branch is taken. -/
theorem stale_capacity_update_overflows_ring :
    Event.overflowError 2000000 879872 2000000 ∈
      (run (start 2880000 14400 : System Int)
        (staleUpdateRace (List.replicate 2000000 0) (List.replicate 2000000 0))).workletLog := by
  have h := stale_update_overflows (α := Int) 2880000 14400 (List.replicate 2000000 0)
    (List.replicate 2000000 0) (by decide) (by rw [List.length_replicate]; decide)
    (by rw [List.length_replicate]; decide) (by rw [List.length_replicate]; decide)
  rw [List.length_replicate] at h
  exact h

end Pipeline

/-! ## The ring buffer: capacity reports, idle renders, overflow recovery -/

namespace PCMProcessor

variable {α : Type} [Float32Like α]

/-- Lines 44-51 of `PCMPlayerWorklet.initialize`: the two values substituted into the
processor, `(bufferSizeSamples, minBufferSamples)`, from `audioContext.sampleRate` and the
option `minBufferBeforePlaybackMs` (`none` when the option is absent; `0` is falsy). -/
def bufferParameters (sampleRate : Int) (minBufferBeforePlaybackMs : Option Int) : Int × Int :=
  let minBufferMs : Int :=
    match minBufferBeforePlaybackMs with
    | some v => if v = 0 then 300 else v
    | none => 300
  let minBufferSamples := minBufferMs * sampleRate / 1000
  let bufferSizeSamples := sampleRate * 60
  (bufferSizeSamples, minBufferSamples)

/-- The processor as `initialize` builds it. -/
def configured (sampleRate : Int) (minBufferBeforePlaybackMs : Option Int) : State α :=
  init (bufferParameters sampleRate minBufferBeforePlaybackMs).1
    (bufferParameters sampleRate minBufferBeforePlaybackMs).2

/-- The gap between the target level and the buffered amount, or zero. -/
def targetGap (s : State α) : Int := max 0 (s.targetBufferSamples - getBufferedSamples s)

/-- The outputs and events of a sequence of render calls, with the final state. -/
def renders (s : State α) : List Nat → State α × List (List α) × List Event
  | [] => (s, [], [])
  | n :: ns =>
    let r := process s (some n)
    let rest := renders r.state ns
    (rest.1, r.output :: rest.2.1, r.events ++ rest.2.2)

/-- A short push (50 samples, below the prebuffer threshold of 100) on a fresh ring, then
the `stream-ended` message: playback never starts. -/
def starvedState : State Int :=
  (onmessage (addAudio (init 4096 100) ((List.range 50).map Int.ofNat)).state
    InMsg.streamEnded).state

/-- A ring of 130 cells filled up to the safety margin: two samples buffered, no space
advertised. -/
def fullState : State Int := (addAudio (init 130 2) [1, 2]).state

/-! ### Lemmas -/

theorem channel_zero (n : Nat) :
    channel n (zeroLoop (fun _ => (Float32Like.zero : α)) 0 (n : Int)) =
      List.replicate n Float32Like.zero := by
  apply List.ext_getElem
  · simp [channel]
  · intro i h1 h2
    simp [channel, zeroLoop]

theorem process_idle (s : State α) (n : Nat) (hp : s.isPlaying = false) :
    (process s (some n)).output = List.replicate n Float32Like.zero ∧
    (process s (some n)).state = { s with frameCount := s.frameCount + 1 } ∧
    (process s (some n)).events.filter Event.isUnderrun = [] ∧
    (process s (some n)).events.filter Event.isComplete = [] := by
  have hp1 : (periodicReport s).1.isPlaying = false := hp
  unfold process
  simp only []
  unfold render
  simp only [hp1, Bool.not_false, if_true]
  exact ⟨channel_zero n, rfl, (periodic_log_filter s).1, (periodic_log_filter s).2⟩

theorem renders_idle (s : State α) (ns : List Nat) (hp : s.isPlaying = false) :
    (renders s ns).2.1 = ns.map (fun n => List.replicate n Float32Like.zero) ∧
    (renders s ns).1 = { s with frameCount := s.frameCount + ns.length } ∧
    (renders s ns).2.2.filter Event.isUnderrun = [] ∧
    (renders s ns).2.2.filter Event.isComplete = [] := by
  induction ns generalizing s with
  | nil => simp [renders]
  | cons n ns ih =>
    obtain ⟨a1, a2, a3, a4⟩ := process_idle s n hp
    have hp2 : (process s (some n)).state.isPlaying = false := by rw [a2]; exact hp
    obtain ⟨b1, b2, b3, b4⟩ := ih (process s (some n)).state hp2
    simp only [renders, List.map_cons, List.filter_append, a1, a3, a4, b1, b2, b3, b4,
      List.append_nil, List.length_cons]
    refine ⟨trivial, ?_, trivial, trivial⟩
    rw [a2]
    simp only [Nat.cast_add, Nat.cast_one]
    congr 1
    omega

theorem tmod_wrap (B x : Int) (h0 : 0 ≤ x) (hB : 0 < B) (h2 : x < 2 * B) :
    Int.tmod x B = wrapIndex B x := by
  rw [Int.tmod_eq_emod h0 (by omega)]
  unfold wrapIndex
  by_cases h : x < B
  · rw [if_pos h, Int.emod_eq_of_lt h0 h]
  · rw [if_neg h]
    have : x % B = (x - B) % B := by
      rw [Int.sub_emod, Int.emod_self, sub_zero, Int.emod_emod]
    rw [this, Int.emod_eq_of_lt (by omega) (by omega)]

theorem buffered_after_overflow (s s1 : State α) (c : Int) (h : Inv s)
    (hover : s.bufferSize - getBufferedSamples s - 128 < c) (hlen : c ≤ s.bufferSize)
    (hB : s1.bufferSize = s.bufferSize)
    (hr : s1.readPos =
      wrapIndex s.bufferSize (s.readPos + (c - (s.bufferSize - getBufferedSamples s - 128))))
    (hw : s1.writePos = wrapIndex s.bufferSize (s.writePos + c)) :
    getBufferedSamples s1 = s.bufferSize - 128 := by
  obtain ⟨h1, h2, h3, h4, h5, h6⟩ := h
  unfold getBufferedSamples at *
  rw [hB, hw, hr]
  unfold wrapIndex
  split_ifs at * <;> omega

/-- A push that does not fit but is no longer than the ring. -/
theorem addAudio_overflow (s : State α) (d : List α) (h : Inv s)
    (hover : s.bufferSize - getBufferedSamples s - 128 < (d.length : Int))
    (hlen : (d.length : Int) ≤ s.bufferSize) :
    addAudio s d = finishAdd { s with
        readPos := wrapIndex s.bufferSize
          (s.readPos + ((d.length : Int) - (s.bufferSize - getBufferedSamples s - 128)))
        ringBuffer := writtenRing s d
        writePos := wrapIndex s.bufferSize (s.writePos + d.length) }
      [Event.overflowError d.length (getAvailableSpace s) (getBufferedSamples s)] := by
  obtain ⟨h1, h2, h3, h4, h5, h6⟩ := h
  have hA : getAvailableSpace s = s.bufferSize - getBufferedSamples s - 128 := rfl
  have hgt : (d.length : Int) > getAvailableSpace s := by rw [hA]; exact hover
  unfold addAudio recoverOverflow
  simp only [hgt, if_true]
  rw [writeAudio_ok { s with
    readPos := (s.readPos + ((d.length : Int) - getAvailableSpace s)).tmod s.bufferSize } d h3 h4
    hlen]
  simp only []
  rw [hA, tmod_wrap _ _ (by omega) (by omega) (by omega)]
  rfl

/-- Cell `k` of the new queue after an overflowing push: an old sample that survived, or a
pushed sample. -/
theorem overflow_cell (s : State α) (d : List α) (h : Inv s)
    (hover : s.bufferSize - getBufferedSamples s - 128 < (d.length : Int))
    (hlen : (d.length : Int) ≤ s.bufferSize) (i : Nat) (hi : (i : Int) < s.bufferSize - 128) :
    writtenRing s d (wrapIndex s.bufferSize (wrapIndex s.bufferSize
        (s.readPos + ((d.length : Int) - (s.bufferSize - getBufferedSamples s - 128))) + i)) =
      if (d.length : Int) - (s.bufferSize - getBufferedSamples s - 128) + i <
          getBufferedSamples s then
        s.ringBuffer (wrapIndex s.bufferSize
          (s.readPos + ((d.length : Int) - (s.bufferSize - getBufferedSamples s - 128) + i)))
      else
        d.getD ((d.length : Int) - (s.bufferSize - getBufferedSamples s - 128) + i -
          getBufferedSamples s).toNat Float32Like.nan := by
  obtain ⟨h1, h2, h3, h4, h5, h6⟩ := h
  unfold writtenRing
  by_cases hold : (d.length : Int) - (s.bufferSize - getBufferedSamples s - 128) + i <
      getBufferedSamples s
  · rw [if_pos hold, if_neg]
    · congr 1
      unfold wrapIndex
      split_ifs <;> omega
    · intro ⟨c1, c2, c3⟩
      revert c1 c2 c3
      unfold getBufferedSamples at *
      unfold offsetFrom wrapIndex
      split_ifs at * <;> omega
  · rw [if_neg hold]
    have hoff : offsetFrom s.bufferSize s.writePos
        (wrapIndex s.bufferSize (wrapIndex s.bufferSize (s.readPos + ((d.length : Int) -
          (s.bufferSize - getBufferedSamples s - 128))) + (i : Int))) =
        (d.length : Int) - (s.bufferSize - getBufferedSamples s - 128) + i -
          getBufferedSamples s := by
      unfold getBufferedSamples at *
      unfold offsetFrom wrapIndex
      split_ifs at * <;> omega
    have hrange : 0 ≤ wrapIndex s.bufferSize (wrapIndex s.bufferSize (s.readPos +
          ((d.length : Int) - (s.bufferSize - getBufferedSamples s - 128))) + (i : Int)) ∧
        wrapIndex s.bufferSize (wrapIndex s.bufferSize (s.readPos + ((d.length : Int) -
          (s.bufferSize - getBufferedSamples s - 128))) + (i : Int)) < s.bufferSize := by
      unfold wrapIndex
      split_ifs <;> omega
    rw [hoff, if_pos ⟨hrange.1, hrange.2, by omega⟩]

/-! ### The claims -/

/-- C24 (counterexample). With a 24 kHz context and the option `minBufferBeforePlaybackMs`
set to 40000, the first capacity report requests 1439872 samples (the advertised capacity),
while the gap between the target level and the buffered amount is 1920000. -/
theorem request_exceeds_capacity :
    sendCapacityUpdate (configured 24000 (some 40000) : State Int) =
      Event.capacity 0 1439872 1439872 false ∧
    targetGap (configured 24000 (some 40000) : State Int) = 1920000 := by
  decide

/-- C24 (amended). Whenever the target level is at most `bufferSize - 128`, as it is in the
default configuration, the capacity report of every state carries `getBufferedSamples()`,
`bufferSize - buffered - 128` and, as suggested request,
`max(0, targetBufferSamples - buffered)`. -/
theorem capacity_report (s : State α) (h : s.targetBufferSamples ≤ s.bufferSize - 128) :
    sendCapacityUpdate s =
      Event.capacity (getBufferedSamples s) (s.bufferSize - getBufferedSamples s - 128)
        (max 0 (s.targetBufferSamples - getBufferedSamples s)) s.isPlaying := by
  unfold sendCapacityUpdate getAvailableSpace
  simp only []
  congr 1
  split_ifs <;> omega

theorem capacity_report_witness :
    sendCapacityUpdate (configured 24000 none : State Int) =
      Event.capacity (getBufferedSamples (configured 24000 none : State Int))
        ((configured 24000 none : State Int).bufferSize -
          getBufferedSamples (configured 24000 none : State Int) - 128)
        (max 0 ((configured 24000 none : State Int).targetBufferSamples -
          getBufferedSamples (configured 24000 none : State Int)))
        (configured 24000 none : State Int).isPlaying :=
  capacity_report _ (by decide)

/-- C29. While the ring buffer is not playing, every render call of a sequence outputs
zeros only, leaves `readPos`, `writePos`, the ring, the buffered samples and the
`streamEnded` flag as they were, does not start playback, and emits neither `underrun` nor
`playback-complete`. -/
theorem idle_render_is_silent (s : State α) (ns : List Nat) (hp : s.isPlaying = false) :
    (renders s ns).2.1 = ns.map (fun n => List.replicate n Float32Like.zero) ∧
    (renders s ns).1.readPos = s.readPos ∧
    (renders s ns).1.writePos = s.writePos ∧
    (renders s ns).1.ringBuffer = s.ringBuffer ∧
    content (renders s ns).1 = content s ∧
    (renders s ns).1.streamEnded = s.streamEnded ∧
    (renders s ns).1.isPlaying = false ∧
    (renders s ns).2.2.filter Event.isUnderrun = [] ∧
    (renders s ns).2.2.filter Event.isComplete = [] := by
  obtain ⟨b1, b2, b3, b4⟩ := renders_idle s ns hp
  rw [b2]
  exact ⟨b1, rfl, rfl, rfl, rfl, rfl, hp, b3, b4⟩

theorem idle_render_is_silent_witness :
    starvedState.streamEnded = true ∧ getBufferedSamples starvedState = 50 ∧
    (renders starvedState [128, 128, 128]).2.1 =
      [128, 128, 128].map (fun n => List.replicate n Float32Like.zero) ∧
    (renders starvedState [128, 128, 128]).1.readPos = starvedState.readPos ∧
    (renders starvedState [128, 128, 128]).1.writePos = starvedState.writePos ∧
    (renders starvedState [128, 128, 128]).1.ringBuffer = starvedState.ringBuffer ∧
    content (renders starvedState [128, 128, 128]).1 = content starvedState ∧
    (renders starvedState [128, 128, 128]).1.streamEnded = starvedState.streamEnded ∧
    (renders starvedState [128, 128, 128]).1.isPlaying = false ∧
    (renders starvedState [128, 128, 128]).2.2.filter Event.isUnderrun = [] ∧
    (renders starvedState [128, 128, 128]).2.2.filter Event.isComplete = [] :=
  ⟨by decide!, by decide!, idle_render_is_silent starvedState [128, 128, 128] (by decide!)⟩

/-- C30. For a state with cursors in range and a push of `s` samples with
`available < s ≤ bufferSize`: `addAudio` completes, the buffered amount becomes
`bufferSize - 128`, the advertised space `0`, and the buffered content is the last
`bufferSize - 128` samples of the previously buffered samples followed by the pushed ones. -/
theorem overflow_drops_oldest (s : State α) (d : List α) (h : Inv s)
    (hover : getAvailableSpace s < (d.length : Int)) (hlen : (d.length : Int) ≤ s.bufferSize) :
    (addAudio s d).thrown = false ∧
    getBufferedSamples (addAudio s d).state = s.bufferSize - 128 ∧
    getAvailableSpace (addAudio s d).state = 0 ∧
    content (addAudio s d).state =
      (content s ++ d).drop ((content s ++ d).length - (s.bufferSize - 128).toNat) := by
  have hover2 : s.bufferSize - getBufferedSamples s - 128 < (d.length : Int) := hover
  rw [addAudio_overflow s d h hover2 hlen]
  obtain ⟨f1, f2, f3, f4, f5⟩ := finishAdd_fields { s with
        readPos := wrapIndex s.bufferSize
          (s.readPos + ((d.length : Int) - (s.bufferSize - getBufferedSamples s - 128)))
        ringBuffer := writtenRing s d
        writePos := wrapIndex s.bufferSize (s.writePos + d.length) }
      [Event.overflowError d.length (getAvailableSpace s) (getBufferedSamples s)]
  have hb := buffered_after_overflow s _ _ h hover2 hlen f1 f2 f3
  have hcell := overflow_cell s d h hover2 hlen
  obtain ⟨h1, h2, h3, h4, h5, h6⟩ := h
  refine ⟨f5, hb, ?_, ?_⟩
  · have hav : ∀ t : State α, getAvailableSpace t = t.bufferSize - getBufferedSamples t - 128 :=
      fun _ => rfl
    refine (hav _).trans ?_
    rw [hb, f1]
    simp only []
    omega
  · unfold content
    rw [hb, f1, f2, f4]
    simp only []
    apply List.ext_getElem?
    intro i
    rw [List.getElem?_drop, List.getElem?_append, List.getElem?_map, List.getElem?_map]
    simp only [List.length_append, List.length_map, List.length_range]
    by_cases hi : i < (s.bufferSize - 128).toNat
    · rw [List.getElem?_range hi]
      simp only [Option.map_some', Int.ofNat_eq_coe]
      rw [hcell i (by omega)]
      by_cases hold : (getBufferedSamples s).toNat + d.length - (s.bufferSize - 128).toNat + i <
          (getBufferedSamples s).toNat
      · rw [if_pos hold, List.getElem?_range hold, if_pos (by omega)]
        simp only [Option.map_some', Int.ofNat_eq_coe]
        congr 3
        omega
      · rw [if_neg hold, if_neg (by omega)]
        have hlt : (getBufferedSamples s).toNat + d.length - (s.bufferSize - 128).toNat + i -
              (getBufferedSamples s).toNat < d.length := by omega
        have he : ((d.length : Int) - (s.bufferSize - getBufferedSamples s - 128) + i -
            getBufferedSamples s).toNat = (getBufferedSamples s).toNat + d.length -
              (s.bufferSize - 128).toNat + i - (getBufferedSamples s).toNat := by omega
        rw [he]
        simp [List.getD, hlt]
    · have hge : (s.bufferSize - 128).toNat ≤ i := by omega
      rw [List.getElem?_eq_none (by simpa using hge)]
      simp only [Option.map_none']
      have hnot : ¬ ((getBufferedSamples s).toNat + d.length - (s.bufferSize - 128).toNat + i <
          (getBufferedSamples s).toNat) := by omega
      rw [if_neg hnot]
      symm
      apply List.getElem?_eq_none
      omega

theorem overflow_drops_oldest_witness :
    (addAudio fullState [7, 8, 9]).thrown = false ∧
    getBufferedSamples (addAudio fullState [7, 8, 9]).state = fullState.bufferSize - 128 ∧
    getAvailableSpace (addAudio fullState [7, 8, 9]).state = 0 ∧
    content (addAudio fullState [7, 8, 9]).state =
      (content fullState ++ [7, 8, 9]).drop
        ((content fullState ++ [7, 8, 9]).length - (fullState.bufferSize - 128).toNat) :=
  overflow_drops_oldest fullState [7, 8, 9] (by decide!) (by decide!) (by decide!)

end PCMProcessor

/-! ## The producer: conservation of samples -/

namespace PCMPlayerWorklet

open PCMProcessor (InMsg Event)

variable {α : Type} [Float32Like α]

/-- The samples of the audio messages among posted messages, concatenated. -/
def postedAudio : List (InMsg α) → List α
  | [] => []
  | .audio data :: rest => data ++ postedAudio rest
  | _ :: rest => postedAudio rest

/-- The samples one input appends to the queue `pendingChunks`: a `playAudio` call on an
initialized player with a running context appends its data; the end of the initialization
replays the calls that were queued meanwhile. -/
def enqueuedBy (p : State α) : Input α → List α
  | .playAudio data running => if p.isInitialized && running then toFloat32 data else []
  | .initialized running =>
    if running then ((p.initPendingQueue.getD []).map toFloat32).flatten else []
  | _ => []

/-- Ghost bookkeeping along a run of the player: all messages posted and all samples
enqueued so far. -/
structure Ledger (α : Type) where
  state : State α
  posted : List (InMsg α)
  enqueued : List α

/-- The ledger after one more input. -/
def Ledger.next (l : Ledger α) (i : Input α) : Ledger α :=
  { state := (handle l.state i).state
    posted := l.posted ++ (handle l.state i).posted
    enqueued := l.enqueued ++ enqueuedBy l.state i }

/-- The ledger after a sequence of inputs, from the freshly constructed player. -/
def ledger (inputs : List (Input α)) : Ledger α :=
  inputs.foldl Ledger.next { state := init, posted := [], enqueued := [] }

/-- Whether an input is a call of `reset`. -/
def Input.isReset : Input α → Bool
  | .reset => true
  | _ => false

/-- One method call keeps the samples: what it posts, followed by what it leaves queued, is
what was queued followed by `extra`; and it leaves the initialization flag alone. -/
def Keeps (before : State α) (extra : List α) (out : Outcome α) : Prop :=
  postedAudio out.posted ++ out.state.pendingChunks.flatten =
    before.pendingChunks.flatten ++ extra ∧
  out.state.isInitialized = before.isInitialized

/-- A run that splits a chunk: 6000 samples are played into a ready player, the worklet
advertises 5000 free cells, later 2000. -/
def splitInputs : List (Input Int) :=
  [Input.initialized true,
    Input.playAudio (AudioData.float32 (List.replicate 6000 1)) true,
    Input.message (Event.capacity 0 5000 5000 false),
    Input.message (Event.capacity 5000 2000 2000 true)]

/-! ### Lemmas -/

theorem postedAudio_append (xs ys : List (InMsg α)) :
    postedAudio (xs ++ ys) = postedAudio xs ++ postedAudio ys := by
  induction xs with
  | nil => rfl
  | cons x xs ih => cases x <;> simp [postedAudio, ih]

theorem flushStreamEnd_keeps (p : State α) (posted : List (InMsg α)) :
    postedAudio (flushStreamEnd p posted).posted = postedAudio posted ∧
    (flushStreamEnd p posted).state.pendingChunks = p.pendingChunks ∧
    (flushStreamEnd p posted).state.isInitialized = p.isInitialized := by
  unfold flushStreamEnd
  split_ifs
  · simp [postedAudio_append, postedAudio]
  · simp

theorem slice_split (chunk : List α) (c : Int) (h0 : 0 ≤ c) (hc : c ≤ chunk.length) :
    PCMProcessor.slice chunk 0 c ++ PCMProcessor.sliceFrom chunk c = chunk ∧
    PCMProcessor.slice chunk 0 c = chunk.take c.toNat ∧
    PCMProcessor.sliceFrom chunk c = chunk.drop c.toNat := by
  have h1 : ¬ c < 0 := by omega
  have h2 : min c.toNat chunk.length = c.toNat := by omega
  simp [PCMProcessor.slice, PCMProcessor.sliceFrom, PCMProcessor.relIndex, h1, h2]

theorem keeps_same (p : State α) : Keeps p [] { state := p, posted := [], emitted := [] } := by
  simp [Keeps, postedAudio]

theorem processPendingChunks_keeps (p : State α) : Keeps p [] (processPendingChunks p) := by
  unfold processPendingChunks
  by_cases h1 : (!p.isWorkletReady || decide (p.pendingChunks.length = 0)) = true
  · rw [if_pos h1]; exact keeps_same p
  · rw [if_neg h1]
    by_cases h2 : p.availableCapacity ≤ 0
    · rw [if_pos h2]; exact keeps_same p
    · rw [if_neg h2]
      unfold Keeps
      cases hpc : p.pendingChunks with
      | nil => simp [postedAudio, hpc]
      | cons chunk rest =>
        simp only []
        by_cases h3 : (chunk.length : Int) ≤ p.availableCapacity
        · rw [if_pos h3]
          obtain ⟨a, b, c⟩ := flushStreamEnd_keeps
            { p with pendingChunks := rest, availableCapacity := 0 } [InMsg.audio chunk]
          rw [a, b, c]
          simp [postedAudio]
        · rw [if_neg h3]
          by_cases h4 : p.availableCapacity > 4096
          · rw [if_pos h4]
            obtain ⟨a, b, c⟩ := flushStreamEnd_keeps
              { p with
                pendingChunks := PCMProcessor.sliceFrom chunk p.availableCapacity :: rest
                availableCapacity := 0 }
              [InMsg.audio (PCMProcessor.slice chunk 0 p.availableCapacity)]
            rw [a, b, c]
            have := (slice_split chunk p.availableCapacity (by omega) (by omega)).1
            simp only [postedAudio, List.flatten_cons, List.append_nil]
            rw [← List.append_assoc, this]
            exact ⟨rfl, trivial⟩
          · rw [if_neg h4]
            obtain ⟨a, b, c⟩ := flushStreamEnd_keeps p ([] : List (InMsg α))
            rw [a, b, c, hpc]
            simp [postedAudio]

theorem keeps_comp {p : State α} {e1 e2 : List α} {o1 o2 : Outcome α}
    (h1 : Keeps p e1 o1) (h2 : Keeps o1.state e2 o2) :
    Keeps p (e1 ++ e2) { state := o2.state, posted := o1.posted ++ o2.posted, emitted := [] } := by
  unfold Keeps at *
  obtain ⟨a1, b1⟩ := h1
  obtain ⟨a2, b2⟩ := h2
  refine ⟨?_, b2.trans b1⟩
  simp only [postedAudio_append]
  rw [List.append_assoc, a2, ← List.append_assoc, a1, List.append_assoc]

theorem firstCapacity_keeps (p : State α) : Keeps p [] (firstCapacity p) := by
  unfold firstCapacity
  simp only []
  split_ifs
  · exact processPendingChunks_keeps { p with hasReceivedInitialCapacity := true }
  · exact keeps_same { p with hasReceivedInitialCapacity := true }
  · exact keeps_same p

theorem handleCapacityUpdate_keeps (p : State α) (buffered capacity requestSamples : Int) :
    Keeps p [] (handleCapacityUpdate p buffered capacity requestSamples) := by
  unfold handleCapacityUpdate
  simp only []
  have h1 : Keeps p [] (firstCapacity { p with availableCapacity := capacity, bufferLevel := buffered }) :=
    firstCapacity_keeps { p with availableCapacity := capacity, bufferLevel := buffered }
  split_ifs with h
  · exact keeps_comp h1 (processPendingChunks_keeps _)
  · exact h1

theorem playAudioReady_keeps (p : State α) (data : AudioData α) (running : Bool) :
    Keeps p (if running then toFloat32 data else []) (playAudioReady p data running) := by
  unfold playAudioReady
  cases running
  · exact keeps_same p
  · simp only [Bool.not_true, Bool.false_eq_true, if_false, if_true]
    unfold Keeps
    simp only []
    split_ifs
    · obtain ⟨a, b⟩ := processPendingChunks_keeps
        { p with pendingChunks := p.pendingChunks ++ [toFloat32 data] }
      rw [a]
      exact ⟨by simp, b⟩
    · simp [postedAudio]

theorem replayQueue_keeps (p : State α) (running : Bool) (queue : List (AudioData α))
    (hinit : p.isInitialized = true) :
    Keeps p (if running then (queue.map toFloat32).flatten else [])
      (replayQueue p running queue) := by
  induction queue generalizing p with
  | nil => simpa [replayQueue] using keeps_same p
  | cons data queue ih =>
    have h1 : Keeps p (if running then toFloat32 data else []) (playAudio p data running) := by
      unfold playAudio
      simp only [hinit, Bool.not_true, Bool.false_eq_true, if_false]
      exact playAudioReady_keeps p data running
    have h2 := ih (playAudio p data running).state (h1.2.trans hinit)
    have h3 := keeps_comp h1 h2
    unfold Keeps at *
    simp only [replayQueue]
    cases running <;> simpa using h3

theorem handle_keeps (p : State α) (i : Input α) (hi : i.isReset = false) :
    postedAudio (handle p i).posted ++ (handle p i).state.pendingChunks.flatten =
      p.pendingChunks.flatten ++ enqueuedBy p i := by
  cases i with
  | initialized running =>
    simp only [handle, initialized, enqueuedBy]
    cases hq : p.initPendingQueue with
    | none => cases running <;> simp [postedAudio]
    | some queue =>
      simp only [Option.getD_some]
      exact (replayQueue_keeps
        { p with isInitialized := true, isWorkletReady := true, initPendingQueue := none }
        running queue rfl).1
  | playAudio data running =>
    simp only [handle, playAudio, enqueuedBy]
    cases hinit : p.isInitialized
    · simp [postedAudio]
    · simp only [Bool.not_true, Bool.false_eq_true, if_false, Bool.true_and]
      have := (playAudioReady_keeps p data running).1
      cases running <;> simpa using this
  | notifyStreamEnded =>
    simp only [handle, notifyStreamEnded, enqueuedBy]
    split_ifs <;> simp [postedAudio]
  | reset => simp [Input.isReset] at hi
  | message e =>
    cases e with
    | capacity b c r pl => simpa [handle, onWorkletMessage, enqueuedBy] using
        (handleCapacityUpdate_keeps p b c r).1
    | underrun b n => simpa [handle, onWorkletMessage, enqueuedBy] using
        (processPendingChunks_keeps { p with underruns := p.underruns + 1 }).1
    | playbackStarted b => simp [handle, onWorkletMessage, enqueuedBy, postedAudio]
    | playbackComplete => simp [handle, onWorkletMessage, enqueuedBy, postedAudio]
    | overflowError a b c => simp [handle, onWorkletMessage, enqueuedBy, postedAudio]

theorem ledger_keeps (l : Ledger α) (inputs : List (Input α))
    (hl : postedAudio l.posted ++ l.state.pendingChunks.flatten = l.enqueued)
    (h : ∀ i ∈ inputs, i.isReset = false) :
    postedAudio (inputs.foldl Ledger.next l).posted ++
      (inputs.foldl Ledger.next l).state.pendingChunks.flatten =
      (inputs.foldl Ledger.next l).enqueued := by
  induction inputs generalizing l with
  | nil => exact hl
  | cons i inputs ih =>
    simp only [List.foldl_cons]
    apply ih
    · simp only [Ledger.next, postedAudio_append]
      rw [List.append_assoc, handle_keeps l.state i (h i (List.mem_cons_self _ _)),
        ← List.append_assoc, hl]
    · intro j hj
      exact h j (List.mem_cons_of_mem _ hj)

/-- How `processPendingChunks` treats a head chunk that does not fit. -/
theorem processPendingChunks_unfit (p : State α) (chunk : List α) (rest : List (List α))
    (hready : p.isWorkletReady = true) (hq : p.pendingChunks = chunk :: rest)
    (hbig : p.availableCapacity < chunk.length) :
    if p.availableCapacity > 4096 then
      (processPendingChunks p).posted = [InMsg.audio (chunk.take p.availableCapacity.toNat)] ∧
      ((chunk.take p.availableCapacity.toNat).length : Int) = p.availableCapacity ∧
      (processPendingChunks p).state.pendingChunks =
        chunk.drop p.availableCapacity.toNat :: rest
    else
      (processPendingChunks p).posted = [] ∧
      (processPendingChunks p).state.pendingChunks = chunk :: rest := by
  have h1 : ¬ ((!p.isWorkletReady || decide (p.pendingChunks.length = 0)) = true) := by
    simp [hready, hq]
  have h3 : ¬ ((chunk.length : Int) ≤ p.availableCapacity) := by omega
  unfold processPendingChunks
  rw [if_neg h1]
  by_cases h2 : p.availableCapacity ≤ 0
  · rw [if_pos h2, if_neg (by omega)]
    exact ⟨rfl, hq⟩
  · rw [if_neg h2, hq]
    simp only []
    rw [if_neg h3]
    by_cases h4 : p.availableCapacity > 4096
    · rw [if_pos h4, if_pos h4]
      obtain ⟨_, s2, s3⟩ := slice_split chunk p.availableCapacity (by omega) (by omega)
      rw [s2, s3]
      unfold flushStreamEnd
      simp only [List.length_cons]
      rw [if_neg (by omega)]
      refine ⟨rfl, ?_, rfl⟩
      rw [List.length_take]
      omega
    · rw [if_neg h4, if_neg h4]
      unfold flushStreamEnd
      rw [if_neg (by rw [hq]; simp)]
      exact ⟨rfl, hq⟩

/-! ### The claim -/

/-- C28. For every sequence of inputs of the player without a `reset` call, the samples of
all audio messages posted so far followed by the samples of the queue `pendingChunks` are
the samples enqueued so far; and a head chunk longer than `availableCapacity` is split into
a posted prefix of exactly `availableCapacity` samples and a requeued remainder when
`availableCapacity > 4096`, and otherwise stays untouched at the head of the queue with
nothing posted. -/
theorem truncated_push_loses_nothing (inputs : List (Input α))
    (h : ∀ i ∈ inputs, i.isReset = false) :
    postedAudio (ledger inputs).posted ++ (ledger inputs).state.pendingChunks.flatten =
      (ledger inputs).enqueued ∧
    ∀ (p : State α) (chunk : List α) (rest : List (List α)),
      p.isWorkletReady = true → p.pendingChunks = chunk :: rest →
      p.availableCapacity < chunk.length →
      if p.availableCapacity > 4096 then
        (processPendingChunks p).posted =
          [InMsg.audio (chunk.take p.availableCapacity.toNat)] ∧
        ((chunk.take p.availableCapacity.toNat).length : Int) = p.availableCapacity ∧
        (processPendingChunks p).state.pendingChunks =
          chunk.drop p.availableCapacity.toNat :: rest
      else
        (processPendingChunks p).posted = [] ∧
        (processPendingChunks p).state.pendingChunks = chunk :: rest :=
  ⟨ledger_keeps _ inputs rfl h, processPendingChunks_unfit⟩

theorem truncated_push_loses_nothing_witness :
    postedAudio (ledger splitInputs).posted ++ (ledger splitInputs).state.pendingChunks.flatten =
      (ledger splitInputs).enqueued ∧
    ∀ (p : State Int) (chunk : List Int) (rest : List (List Int)),
      p.isWorkletReady = true → p.pendingChunks = chunk :: rest →
      p.availableCapacity < chunk.length →
      if p.availableCapacity > 4096 then
        (processPendingChunks p).posted =
          [InMsg.audio (chunk.take p.availableCapacity.toNat)] ∧
        ((chunk.take p.availableCapacity.toNat).length : Int) = p.availableCapacity ∧
        (processPendingChunks p).state.pendingChunks =
          chunk.drop p.availableCapacity.toNat :: rest
      else
        (processPendingChunks p).posted = [] ∧
        (processPendingChunks p).state.pendingChunks = chunk :: rest :=
  truncated_push_loses_nothing splitInputs (by decide)

end PCMPlayerWorklet

/-! ## The generation loop of the inference worker -/

namespace InferenceWorker

/-- Line 19. -/
def SAMPLE_RATE : Nat := 24000

/-- Line 21. -/
def MAX_FRAMES : Nat := 500

/-- Line 24. -/
def CHUNK_GAP_SEC : ℚ := 0.25

/-- Line 853. -/
def FIRST_CHUNK_FRAMES : Nat := 3

/-- Line 854. -/
def NORMAL_CHUNK_FRAMES : Nat := 12

/-- Line 913. -/
def FRAMES_AFTER_EOS : Nat := 3

/-- The payload of an `audio_chunk` message: the vocoder output for a batch of latent
frames (represented by the frames handed to the vocoder), or a silent array. -/
inductive Audio (L : Type) where
  | decoded (frames : List L)
  | zeros (samples : Nat)
  deriving DecidableEq, Repr

/-- The flags of the `metrics` object of an `audio_chunk` message; an absent flag is
`false`. The durations, which are clock readings, are left out. -/
structure Metrics where
  isFirst : Bool
  isLast : Bool
  chunkStart : Bool
  isSilence : Bool
  deriving DecidableEq, Repr

/-- Messages the worker posts during a generation. Of a status message the `state` is
kept; the status message of the `stop` handler (`status: 'Stopped'`, line 413) is kept apart
from the others as `stopped`. -/
inductive Msg (L : Type) where
  | status (state : String)
  | stopped
  | generationStarted
  | audioChunk (data : Audio L) (metrics : Metrics)
  | streamEnded
  | error
  deriving DecidableEq, Repr

/-- The places where a run awaits, so that the worker can handle a message meanwhile and
the awaited call can throw: the voice conditioning before the chunk loop (line 848), the
conditioning calls of a chunk between the cancellation check of the chunk loop and the step
loop (lines 867-897), and the calls of a step between its cancellation check and the post of
its segment (the yield of line 922 and the model calls of lines 932-1016). -/
inductive Await where
  | setup
  | conditioning (chunkIdx : Nat)
  | step (chunkIdx step : Nat)
  deriving DecidableEq, Repr

/-- What the environment decides during a run: the end-of-speech score and the latent
frame the models return at each step of each chunk, the await during which a `stop` message
is handled (if any), and the await whose call throws (if any). No `generate` message is
handled during the run. -/
structure Env (L : Type) where
  eosLogit : Nat → Nat → ℚ
  latent : Nat → Nat → L
  stopAt : Option Await
  failAt : Option Await

/-- The variables of the worker and of `runGenerationPipeline` that the loops read;
`thrown` records an exception on its way out. The counters that only feed the final
statistics (`allGeneratedLatents`, `totalDecodedFrames`, the timers) are left out. -/
structure Loop (L : Type) where
  isGenerating : Bool
  isFirstAudioChunk : Bool
  chunkLatents : List L
  chunkDecodedFrames : Nat
  eosStep : Option Nat
  isFirstAudioChunkOfTextChunk : Bool
  chunkEnded : Bool
  thrown : Bool

variable {L : Type}

/-- The `stop` branch of `self.onmessage` (lines 411-414), when a `stop` message is handled
during this await: the new state and what is posted. -/
def deliver (env : Env L) (a : Await) (st : Loop L) : Loop L × List (Msg L) :=
  if env.stopAt = some a then ({ st with isGenerating := false }, [Msg.stopped])
  else (st, [])

/-- Lines 994-1004: the number of frames to decode after a step. -/
def decodeSize (shouldStop isFirstAudioChunk : Bool) (pending : Nat) : Nat :=
  if shouldStop then pending
  else if isFirstAudioChunk && decide (pending ≥ FIRST_CHUNK_FRAMES) then FIRST_CHUNK_FRAMES
  else if pending ≥ NORMAL_CHUNK_FRAMES then NORMAL_CHUNK_FRAMES
  else 0

/-- Lines 1006-1050: decode `size` frames and post the segment. -/
def decodeAndPost (st : Loop L) (size : Nat) (shouldStop : Bool) (chunkIdx nChunks : Nat) :
    Loop L × List (Msg L) :=
  let frames := (st.chunkLatents.drop st.chunkDecodedFrames).take size
  let isLastChunk := shouldStop && decide (chunkIdx = nChunks - 1)
  ({ st with
      chunkDecodedFrames := st.chunkDecodedFrames + size
      isFirstAudioChunk := false
      isFirstAudioChunkOfTextChunk := false },
    [Msg.audioChunk (Audio.decoded frames)
      { isFirst := st.isFirstAudioChunk, isLast := isLastChunk
        chunkStart := st.isFirstAudioChunkOfTextChunk, isSilence := false }])

/-- Lines 934-943: the end-of-speech bookkeeping of one step; the new `eosStep` and
`shouldStop`. -/
def eosUpdate (eosLogit : ℚ) (eosStep : Option Nat) (step : Nat) : Option Nat × Bool :=
  let isEos := decide (eosLogit > -4.0)
  let eosStep := if isEos && eosStep.isNone then some step else eosStep
  let shouldStop :=
    match eosStep with
    | some e => decide (step ≥ e + FRAMES_AFTER_EOS)
    | none => false
  (eosStep, shouldStop)

/-- Lines 919-1051: the body of the step loop after the cancellation check, for a step
whose model calls succeed; the new state, what is posted, and `shouldStop`. The body does
not read `isGenerating`: a step that has passed its cancellation check runs to its end. -/
def stepBody (env : Env L) (chunkIdx nChunks step : Nat) (st : Loop L) :
    Loop L × List (Msg L) × Bool :=
  let eos := eosUpdate (env.eosLogit chunkIdx step) st.eosStep step
  let st := { st with
    eosStep := eos.1
    chunkLatents := st.chunkLatents ++ [env.latent chunkIdx step] }
  let pending := st.chunkLatents.length - st.chunkDecodedFrames
  let size := decodeSize eos.2 st.isFirstAudioChunk pending
  if size > 0 then
    ((decodeAndPost st size eos.2 chunkIdx nChunks).1,
      (decodeAndPost st size eos.2 chunkIdx nChunks).2, eos.2)
  else (st, [], eos.2)

/-- Lines 917-1058: the loop `for (let step = 0; step < MAX_FRAMES; step++)`, with
`remaining = MAX_FRAMES - step`. The cancellation check of line 918 comes first; a `stop`
message handled during the awaits of the step takes effect at the next check. -/
def arLoop (env : Env L) (chunkIdx nChunks : Nat) : Nat → Nat → Loop L → Loop L × List (Msg L)
  | 0, _, st => (st, [])
  | remaining + 1, step, st =>
    if !st.isGenerating then (st, [])
    else
      let d := deliver env (Await.step chunkIdx step) st
      if env.failAt = some (Await.step chunkIdx step) then ({ d.1 with thrown := true }, d.2)
      else
        let next := stepBody env chunkIdx nChunks step d.1
        if next.2.2 then ({ next.1 with chunkEnded := true }, d.2 ++ next.2.1)
        else
          let rest := arLoop env chunkIdx nChunks remaining (step + 1) next.1
          (rest.1, d.2 ++ next.2.1 ++ rest.2)

/-- Lines 1061-1062: the length of the silence between chunks. -/
def gapSamples : Nat := max 1 (Int.toNat ⌊CHUNK_GAP_SEC * (SAMPLE_RATE : ℚ)⌋)

/-- The silence segment. -/
def gapMsg : Msg L :=
  Msg.audioChunk (Audio.zeros gapSamples)
    { isFirst := false, isLast := false, chunkStart := false, isSilence := true }

/-- Lines 1060-1075: the silence segment after a chunk that is not the last one. -/
def chunkGap (chunkIdx nChunks : Nat) (st : Loop L) : List (Msg L) :=
  if st.chunkEnded && st.isGenerating && decide (chunkIdx < nChunks - 1) then [gapMsg] else []

/-- The variables declared at the start of an iteration of the chunk loop. -/
def chunkInit (st : Loop L) : Loop L :=
  { st with
    isFirstAudioChunkOfTextChunk := true
    chunkLatents := []
    chunkDecodedFrames := 0
    eosStep := none
    chunkEnded := false }

/-- Lines 864-1075: one iteration of the loop over the text chunks, after its cancellation
check: the conditioning calls, the step loop, and the silence segment. -/
def chunkBody (env : Env L) (chunkIdx nChunks : Nat) (st : Loop L) : Loop L × List (Msg L) :=
  let d := deliver env (Await.conditioning chunkIdx) (chunkInit st)
  if env.failAt = some (Await.conditioning chunkIdx) then ({ d.1 with thrown := true }, d.2)
  else
    let r := arLoop env chunkIdx nChunks MAX_FRAMES 0 d.1
    if r.1.thrown then (r.1, d.2 ++ r.2)
    else (r.1, d.2 ++ r.2 ++ chunkGap chunkIdx nChunks r.1)

/-- Lines 863-1076: the loop `for (let chunkIdx = 0; chunkIdx < chunks.length; chunkIdx++)`,
with `remaining = chunks.length - chunkIdx`. -/
def chunkLoop (env : Env L) (nChunks : Nat) : Nat → Nat → Loop L → Loop L × List (Msg L)
  | 0, _, st => (st, [])
  | remaining + 1, chunkIdx, st =>
    if !st.isGenerating then (st, [])
    else
      let r := chunkBody env chunkIdx nChunks st
      if r.1.thrown then r
      else
        let rest := chunkLoop env nChunks remaining (chunkIdx + 1) r.1
        (rest.1, r.2 ++ rest.2)

/-- Lines 824-1092: the voice conditioning, the chunk loop, and the final status. -/
def runGenerationPipeline (env : Env L) (nChunks : Nat) (st : Loop L) : Loop L × List (Msg L) :=
  let d := deliver env Await.setup { st with isFirstAudioChunk := true }
  if env.failAt = some Await.setup then ({ d.1 with thrown := true }, d.2)
  else
    let r := chunkLoop env nChunks nChunks 0 d.1
    if r.1.thrown then (r.1, d.2 ++ r.2) else (r.1, d.2 ++ r.2 ++ [Msg.status "idle"])

/-- The state of a worker that is ready and idle. -/
def idle : Loop L :=
  { isGenerating := false, isFirstAudioChunk := true
    chunkLatents := [], chunkDecodedFrames := 0, eosStep := none
    isFirstAudioChunkOfTextChunk := true, chunkEnded := false, thrown := false }

/-- The `try` block of `startGeneration` (lines 778-803). -/
def tryGeneration (env : Env L) (nChunks : Nat) (hasVoice : Bool) (st : Loop L) :
    Loop L × List (Msg L) :=
  if nChunks = 0 then ({ st with thrown := true }, [])
  else if !hasVoice then ({ st with thrown := true }, [])
  else runGenerationPipeline env nChunks st

/-- Lines 772-814; `nChunks` is the number of chunks `splitIntoBestSentences` returns and
`hasVoice` tells whether a voice embedding is available. -/
def startGeneration (env : Env L) (nChunks : Nat) (hasVoice : Bool) (st : Loop L) :
    Loop L × List (Msg L) :=
  let r := tryGeneration env nChunks hasVoice { st with isGenerating := true, thrown := false }
  let caught := if r.1.thrown then [Msg.error] else []
  let ended := if r.1.isGenerating then [Msg.streamEnded, Msg.status "idle"] else []
  ({ r.1 with thrown := false, isGenerating := false },
    [Msg.status "running", Msg.generationStarted] ++ r.2 ++ caught ++ ended)

/-- Whether a message is `stream_ended`. -/
def Msg.isStreamEnded : Msg L → Bool
  | .streamEnded => true
  | _ => false

/-- Whether a message is a silence segment. -/
def Msg.isSilence : Msg L → Bool
  | .audioChunk _ m => m.isSilence
  | _ => false

/-- Whether a message is an `audio_chunk`. -/
def Msg.isAudio : Msg L → Bool
  | .audioChunk _ _ => true
  | _ => false

/-- Whether a message is a segment flagged `isLast`. -/
def Msg.isLast : Msg L → Bool
  | .audioChunk _ m => m.isLast
  | _ => false

/-- The frames handed to the vocoder, batch by batch, as the posted segments show them. -/
def batches : List (Msg L) → List (List L)
  | [] => []
  | .audioChunk (.decoded frames) _ :: rest => frames :: batches rest
  | _ :: rest => batches rest

/-- An environment whose score exceeds the threshold from step `e` of every chunk on. -/
def eosFrom (e : Nat) : Env Nat :=
  { eosLogit := fun _ k => if k < e then -10 else 0
    latent := fun c k => 1000 * c + k
    stopAt := none
    failAt := none }

/-- An environment whose score never exceeds the threshold. -/
def neverEos : Env Nat :=
  { eosLogit := fun _ _ => -10
    latent := fun c k => 1000 * c + k
    stopAt := none
    failAt := none }

/-- The environment `eosFrom 5` with a `stop` message handled during step 4 of the first
chunk (at its yield). -/
def stopped : Env Nat := { eosFrom 5 with stopAt := some (Await.step 0 4) }

/-- The environment `eosFrom 5` with a `stop` message handled during step 8 of the first
chunk, the step that ends the chunk. -/
def stoppedLate : Env Nat := { eosFrom 5 with stopAt := some (Await.step 0 8) }

/-- The state at the cancellation check of step `k` of a chunk: `k` frames generated,
fewer than 12 of them pending, and before the first flush of the utterance nothing decoded
and fewer than 3 frames generated. -/
def Ready (k : Nat) (st : Loop L) : Prop :=
  st.chunkLatents.length = k ∧ st.chunkDecodedFrames ≤ k ∧ k - st.chunkDecodedFrames < 12 ∧
  (st.isFirstAudioChunk = true → st.chunkDecodedFrames = 0 ∧ k < 3)

/-- The segment a flush posts. -/
def flushMsg (env : Env L) (c n k : Nat) (st : Loop L) (size : Nat) (stop : Bool) : Msg L :=
  Msg.audioChunk
    (Audio.decoded (((st.chunkLatents ++ [env.latent c k]).drop st.chunkDecodedFrames).take size))
    { isFirst := st.isFirstAudioChunk, isLast := stop && decide (c = n - 1)
      chunkStart := st.isFirstAudioChunkOfTextChunk, isSilence := false }

/-- Every message of the list is a decoded (not silent) audio segment. -/
def AllDecoded (out : List (Msg L)) : Prop :=
  ∀ m ∈ out, m.isAudio = true ∧ m.isSilence = false

/-- The steps the loop executes, mirroring `arLoop`: each executed step with the state in
which its body runs. -/
def visited (env : Env L) (chunkIdx nChunks : Nat) : Nat → Nat → Loop L → List (Nat × Loop L)
  | 0, _, _ => []
  | remaining + 1, step, st =>
    if !st.isGenerating then []
    else
      let d := deliver env (Await.step chunkIdx step) st
      if env.failAt = some (Await.step chunkIdx step) then []
      else
        (step, d.1) ::
          (if (stepBody env chunkIdx nChunks step d.1).2.2 then []
           else visited env chunkIdx nChunks remaining (step + 1)
             (stepBody env chunkIdx nChunks step d.1).1)

/-- The silence segment the loop appends after chunk `c` of `n`. -/
def gapAfter (c n : Nat) : List (Msg L) := if c + 1 < n then [gapMsg] else []

/-- A worker that has just set `isGenerating`. -/
def generating : Loop Nat := { (idle : Loop Nat) with isGenerating := true }

/-- How the flag `isGenerating` follows the `stop` handler along a piece of a run that posts
`out`, from the value `before` to the value `after`: cleared if the handler ran (it posted
its status), unchanged otherwise. -/
def Tracks (before after : Bool) (out : List (Msg L)) : Prop :=
  (Msg.stopped ∈ out → after = false) ∧ (Msg.stopped ∉ out → after = before)

/-! ### Lemmas -/

theorem deliver_none (env : Env L) (a : Await) (st : Loop L) (h : env.stopAt = none) :
    deliver env a st = (st, []) := by
  simp [deliver, h]

theorem deliver_fields (env : Env L) (a : Await) (st : Loop L) :
    (deliver env a st).2.filter Msg.isStreamEnded = [] ∧
    (deliver env a st).2.filter Msg.isAudio = [] ∧
    (deliver env a st).1.chunkLatents = st.chunkLatents ∧
    (deliver env a st).1.thrown = st.thrown ∧
    ((deliver env a st).1.isGenerating = true → st.isGenerating = true) ∧
    (deliver env a st).1.chunkDecodedFrames = st.chunkDecodedFrames := by
  unfold deliver
  split_ifs <;> simp [Msg.isStreamEnded, Msg.isAudio]

theorem stepBody_fields (env : Env L) (c n k : Nat) (st : Loop L) :
    (stepBody env c n k st).1.isGenerating = st.isGenerating ∧
    (stepBody env c n k st).1.thrown = st.thrown ∧
    (stepBody env c n k st).1.chunkEnded = st.chunkEnded ∧
    (stepBody env c n k st).1.chunkLatents = st.chunkLatents ++ [env.latent c k] ∧
    (stepBody env c n k st).1.eosStep = (eosUpdate (env.eosLogit c k) st.eosStep k).1 ∧
    (stepBody env c n k st).2.2 = (eosUpdate (env.eosLogit c k) st.eosStep k).2 ∧
    (stepBody env c n k st).2.1.filter Msg.isStreamEnded = [] := by
  unfold stepBody
  simp only []
  split_ifs <;> simp [decodeAndPost, Msg.isStreamEnded]

/-- The step loop of a run that is neither cancelled nor failing. -/
theorem arLoop_succ (env : Env L) (c n remaining k : Nat) (st : Loop L)
    (hs : env.stopAt = none) (hf : env.failAt = none) (hg : st.isGenerating = true) :
    arLoop env c n (remaining + 1) k st =
      if (stepBody env c n k st).2.2 then
        ({ (stepBody env c n k st).1 with chunkEnded := true }, (stepBody env c n k st).2.1)
      else
        ((arLoop env c n remaining (k + 1) (stepBody env c n k st).1).1,
          (stepBody env c n k st).2.1 ++
            (arLoop env c n remaining (k + 1) (stepBody env c n k st).1).2) := by
  rw [arLoop]
  simp only [deliver_none env _ st hs, hg, hf, Bool.not_true, Bool.false_eq_true, if_false,
    List.nil_append]
  simp

/-- The step loop posts no `stream_ended`, and leaves the flag `isGenerating` alone unless a
`stop` message arrives. -/
theorem arLoop_frame (env : Env L) (c n remaining k : Nat) (st : Loop L) :
    (arLoop env c n remaining k st).2.filter Msg.isStreamEnded = [] ∧
    (env.stopAt = none → (arLoop env c n remaining k st).1.isGenerating = st.isGenerating) ∧
    ((arLoop env c n remaining k st).1.isGenerating = true → st.isGenerating = true) := by
  induction remaining generalizing k st with
  | zero => simp [arLoop]
  | succ r ih =>
    obtain ⟨d1, _, _, _, d3, _⟩ := deliver_fields env (Await.step c k) st
    have d2 : env.stopAt = none →
        (deliver env (Await.step c k) st).1.isGenerating = st.isGenerating := by
      intro h; rw [deliver_none env _ st h]
    obtain ⟨s1, _, _, _, _, _, s7⟩ := stepBody_fields env c n k (deliver env (Await.step c k) st).1
    obtain ⟨i1, i2, i3⟩ := ih (k + 1) (stepBody env c n k (deliver env (Await.step c k) st).1).1
    rw [arLoop]
    simp only []
    by_cases hg : (!st.isGenerating) = true
    · rw [if_pos hg]
      exact ⟨rfl, fun _ => rfl, fun h => h⟩
    · rw [if_neg hg]
      by_cases hfail : env.failAt = some (Await.step c k)
      · rw [if_pos hfail]; exact ⟨d1, d2, d3⟩
      · rw [if_neg hfail]
        by_cases hstop : (stepBody env c n k (deliver env (Await.step c k) st).1).2.2 = true
        · rw [if_pos hstop]
          refine ⟨by simp [List.filter_append, d1, s7], ?_, ?_⟩
          · intro h; simp only []; rw [s1]; exact d2 h
          · intro h; simp only [] at h; rw [s1] at h; exact d3 h
        · rw [if_neg hstop]
          refine ⟨by simp [List.filter_append, d1, s7, i1], ?_, ?_⟩
          · intro h; simp only []; rw [i2 h, s1]; exact d2 h
          · intro h; simp only [] at h; have := i3 h; rw [s1] at this; exact d3 this

theorem chunkBody_frame (env : Env L) (c n : Nat) (st : Loop L) :
    (chunkBody env c n st).2.filter Msg.isStreamEnded = [] ∧
    (env.stopAt = none → (chunkBody env c n st).1.isGenerating = st.isGenerating) ∧
    ((chunkBody env c n st).1.isGenerating = true → st.isGenerating = true) := by
  obtain ⟨d1, _, _, _, d3, _⟩ := deliver_fields env (Await.conditioning c) (chunkInit st)
  have d2 : env.stopAt = none →
      (deliver env (Await.conditioning c) (chunkInit st)).1.isGenerating = st.isGenerating := by
    intro h; rw [deliver_none env _ _ h]; rfl
  have d3 : (deliver env (Await.conditioning c) (chunkInit st)).1.isGenerating = true →
      st.isGenerating = true := d3
  obtain ⟨a1, a2, a3⟩ := arLoop_frame env c n MAX_FRAMES 0
    (deliver env (Await.conditioning c) (chunkInit st)).1
  have hgap : (chunkGap c n (arLoop env c n MAX_FRAMES 0
      (deliver env (Await.conditioning c) (chunkInit st)).1).1 :
      List (Msg L)).filter Msg.isStreamEnded = [] := by
    unfold chunkGap; split_ifs <;> simp [gapMsg, Msg.isStreamEnded]
  unfold chunkBody
  simp only []
  split_ifs
  · exact ⟨d1, d2, d3⟩
  · exact ⟨by simp [List.filter_append, d1, a1], fun h => by rw [a2 h, d2 h],
      fun h => d3 (a3 h)⟩
  · exact ⟨by simp [List.filter_append, d1, a1, hgap], fun h => by rw [a2 h, d2 h],
      fun h => d3 (a3 h)⟩

theorem chunkLoop_frame (env : Env L) (n remaining c : Nat) (st : Loop L) :
    (chunkLoop env n remaining c st).2.filter Msg.isStreamEnded = [] ∧
    (env.stopAt = none → (chunkLoop env n remaining c st).1.isGenerating = st.isGenerating) ∧
    ((chunkLoop env n remaining c st).1.isGenerating = true → st.isGenerating = true) := by
  induction remaining generalizing c st with
  | zero => simp [chunkLoop]
  | succ r ih =>
    obtain ⟨b1, b2, b3⟩ := chunkBody_frame env c n st
    obtain ⟨i1, i2, i3⟩ := ih (c + 1) (chunkBody env c n st).1
    rw [chunkLoop]
    by_cases hg : (!st.isGenerating) = true
    · rw [if_pos hg]; simp
    · rw [if_neg hg]
      simp only []
      by_cases ht : (chunkBody env c n st).1.thrown = true
      · rw [if_pos ht]; exact ⟨b1, b2, b3⟩
      · rw [if_neg ht]
        refine ⟨by simp [List.filter_append, b1, i1], ?_, ?_⟩
        · intro h; simp only []; rw [i2 h, b2 h]
        · intro h; simp only [] at h; exact b3 (i3 h)

theorem tryGeneration_frame (env : Env L) (n : Nat) (v : Bool) (st : Loop L) :
    (tryGeneration env n v st).2.filter Msg.isStreamEnded = [] ∧
    (env.stopAt = none → (tryGeneration env n v st).1.isGenerating = st.isGenerating) := by
  obtain ⟨d1, _, _, _, _, _⟩ := deliver_fields env Await.setup { st with isFirstAudioChunk := true }
  have d2 : env.stopAt = none →
      (deliver env Await.setup { st with isFirstAudioChunk := true }).1.isGenerating =
        st.isGenerating := by
    intro h; rw [deliver_none env _ _ h]
  obtain ⟨a1, a2, _⟩ := chunkLoop_frame env n n 0
    (deliver env Await.setup { st with isFirstAudioChunk := true }).1
  unfold tryGeneration runGenerationPipeline
  simp only []
  split_ifs
  · simp
  · simp
  · exact ⟨d1, d2⟩
  · exact ⟨by simp [List.filter_append, d1, a1], fun h => by rw [a2 h, d2 h]⟩
  · exact ⟨by simp [List.filter_append, d1, a1, Msg.isStreamEnded], fun h => by rw [a2 h, d2 h]⟩

/-- The number of `stream_ended` messages a generation posts. -/
theorem streamEnded_count (env : Env L) (n : Nat) (v : Bool) (st : Loop L) :
    (startGeneration env n v st).2.filter Msg.isStreamEnded =
      if (tryGeneration env n v { st with isGenerating := true, thrown := false }).1.isGenerating then
        [Msg.streamEnded] else [] := by
  obtain ⟨a1, _⟩ := tryGeneration_frame env n v { st with isGenerating := true, thrown := false }
  unfold startGeneration
  simp only [List.filter_append, a1]
  split_ifs <;> simp [Msg.isStreamEnded]

/-- The step loop generates at most `remaining` frames. -/
theorem arLoop_bound (env : Env L) (c n remaining k : Nat) (st : Loop L) :
    (arLoop env c n remaining k st).1.chunkLatents.length ≤
      st.chunkLatents.length + remaining := by
  induction remaining generalizing k st with
  | zero => simp [arLoop]
  | succ r ih =>
    obtain ⟨_, _, d3, _⟩ := deliver_fields env (Await.step c k) st
    obtain ⟨_, _, _, s4, _⟩ := stepBody_fields env c n k (deliver env (Await.step c k) st).1
    have i1 := ih (k + 1) (stepBody env c n k (deliver env (Await.step c k) st).1).1
    rw [s4, List.length_append, d3] at i1
    rw [arLoop]
    simp only []
    split_ifs
    · simp only []; omega
    · simp only []; rw [d3]; omega
    · simp only []; rw [s4, List.length_append, d3]; simp
    · simp only [List.length_singleton] at i1; simp only []; omega

/-- While the score stays at or below the threshold and no end of speech was seen, a step
does not stop. -/
theorem eosUpdate_quiet (x : ℚ) (k : Nat) (h : x ≤ -4) : eosUpdate x none k = (none, false) := by
  have : ¬ (x > -4.0) := by norm_num; exact h
  simp [eosUpdate, this]

theorem eosUpdate_first (x : ℚ) (k : Nat) (h : x > -4) :
    eosUpdate x none k = (some k, false) := by
  have : x > -4.0 := by norm_num; exact h
  simp [eosUpdate, this, FRAMES_AFTER_EOS]

theorem eosUpdate_after (x : ℚ) (e k : Nat) :
    eosUpdate x (some e) k = (some e, decide (k ≥ e + 3)) := by
  simp [eosUpdate, FRAMES_AFTER_EOS]

/-- The frames a chunk generates when the score first exceeds the threshold at step `e`:
the loop runs from step `k` to step `e + 3`. -/
theorem arLoop_grace (env : Env L) (c n e : Nat)
    (hs : env.stopAt = none) (hf : env.failAt = none)
    (hquiet : ∀ k, k < e → env.eosLogit c k ≤ -4) (hfirst : env.eosLogit c e > -4)
    (remaining k : Nat) (st : Loop L) (hg : st.isGenerating = true)
    (hk : k ≤ e + 3) (hrem : e + 3 < k + remaining)
    (heos : st.eosStep = if k ≤ e then none else some e) :
    (arLoop env c n remaining k st).1.chunkLatents =
      st.chunkLatents ++ (List.range' k (e + 4 - k)).map (env.latent c) ∧
    (arLoop env c n remaining k st).1.chunkEnded = true ∧
    (arLoop env c n remaining k st).1.eosStep = some e ∧
    (arLoop env c n remaining k st).1.isGenerating = true ∧
    (arLoop env c n remaining k st).1.thrown = st.thrown := by
  induction remaining generalizing k st with
  | zero => omega
  | succ r ih =>
    obtain ⟨s1, s2, s3, s4, s5, s6, _⟩ := stepBody_fields env c n k st
    rw [arLoop_succ env c n r k st hs hf hg]
    have hupd : eosUpdate (env.eosLogit c k) st.eosStep k =
        (if k < e then none else some e, decide (k = e + 3)) := by
      rw [heos]
      by_cases h1 : k < e
      · rw [if_pos (by omega), if_pos h1, eosUpdate_quiet _ _ (hquiet k h1)]
        simp; omega
      · by_cases h2 : k = e
        · subst h2
          rw [if_pos (le_refl _), if_neg h1, eosUpdate_first _ _ hfirst]
          simp
        · rw [if_neg (by omega), if_neg h1, eosUpdate_after]
          simp; omega
    rw [hupd] at s5 s6
    by_cases hlast : k = e + 3
    · have hstop : (stepBody env c n k st).2.2 = true := by rw [s6]; simp [hlast]
      rw [if_pos hstop]
      simp only []
      have hr : e + 4 - k = 1 := by omega
      rw [s4, s5, s1, s2, hr, if_neg (by omega)]
      simp [hg]
    · have hstop : ¬ ((stepBody env c n k st).2.2 = true) := by rw [s6]; simp [hlast]
      rw [if_neg hstop]
      simp only []
      have := ih (k + 1) (stepBody env c n k st).1 (by rw [s1]; exact hg) (by omega) (by omega)
        (by rw [s5]; by_cases h1 : k < e
            · rw [if_pos h1, if_pos (by omega)]
            · rw [if_neg h1, if_neg (by omega)])
      obtain ⟨a1, a2, a3, a4, a5⟩ := this
      refine ⟨?_, a2, a3, a4, by rw [a5, s2]⟩
      rw [a1, s4]
      have hr : e + 4 - k = (e + 4 - (k + 1)) + 1 := by omega
      rw [hr, List.range'_succ, List.map_cons, List.append_assoc]
      rfl

/-- Without an end of speech the loop runs to the cap. -/
theorem arLoop_cap (env : Env L) (c n : Nat)
    (hs : env.stopAt = none) (hf : env.failAt = none)
    (hquiet : ∀ k, env.eosLogit c k ≤ -4)
    (remaining k : Nat) (st : Loop L) (hg : st.isGenerating = true) (heos : st.eosStep = none) :
    (arLoop env c n remaining k st).1.chunkLatents.length = st.chunkLatents.length + remaining ∧
    (arLoop env c n remaining k st).1.chunkEnded = st.chunkEnded := by
  induction remaining generalizing k st with
  | zero => simp [arLoop]
  | succ r ih =>
    obtain ⟨s1, s2, s3, s4, s5, s6, _⟩ := stepBody_fields env c n k st
    rw [arLoop_succ env c n r k st hs hf hg]
    rw [heos, eosUpdate_quiet _ _ (hquiet k)] at s5 s6
    have hstop : ¬ ((stepBody env c n k st).2.2 = true) := by rw [s6]; simp
    rw [if_neg hstop]
    simp only []
    obtain ⟨a1, a2⟩ := ih (k + 1) (stepBody env c n k st).1 (by rw [s1]; exact hg) s5
    rw [a1, a2, s3, s4]
    simp
    omega

theorem stepBody_decode (env : Env L) (c n k : Nat) (st : Loop L) :
    (stepBody env c n k st).1.chunkDecodedFrames = st.chunkDecodedFrames +
      decodeSize (eosUpdate (env.eosLogit c k) st.eosStep k).2 st.isFirstAudioChunk
        (st.chunkLatents.length + 1 - st.chunkDecodedFrames) ∧
    (stepBody env c n k st).1.isFirstAudioChunk =
      (if decodeSize (eosUpdate (env.eosLogit c k) st.eosStep k).2 st.isFirstAudioChunk
        (st.chunkLatents.length + 1 - st.chunkDecodedFrames) > 0 then false
       else st.isFirstAudioChunk) ∧
    (stepBody env c n k st).2.1 =
      (if decodeSize (eosUpdate (env.eosLogit c k) st.eosStep k).2 st.isFirstAudioChunk
        (st.chunkLatents.length + 1 - st.chunkDecodedFrames) > 0 then
        [flushMsg env c n k st
          (decodeSize (eosUpdate (env.eosLogit c k) st.eosStep k).2 st.isFirstAudioChunk
            (st.chunkLatents.length + 1 - st.chunkDecodedFrames))
          (eosUpdate (env.eosLogit c k) st.eosStep k).2]
       else []) := by
  unfold stepBody
  simp only [List.length_append, List.length_singleton]
  split_ifs with h
  · simp [decodeAndPost, flushMsg]
  · have h0 : decodeSize (eosUpdate (env.eosLogit c k) st.eosStep k).2 st.isFirstAudioChunk
        (st.chunkLatents.length + 1 - st.chunkDecodedFrames) = 0 := by omega
    simp [h0]

theorem eosUpdate_stop (x : ℚ) (es : Option Nat) (k : Nat) (h : (eosUpdate x es k).2 = true) :
    3 ≤ k := by
  unfold eosUpdate at h
  simp only [FRAMES_AFTER_EOS] at h
  split at h
  · simp at h; omega
  · simp at h

theorem decodeSize_stop (first : Bool) (p : Nat) : decodeSize true first p = p := by
  simp [decodeSize]

theorem decodeSize_go (first : Bool) (p : Nat) :
    decodeSize false first p =
      if first = true ∧ 3 ≤ p then 3 else if 12 ≤ p then 12 else 0 := by
  simp [decodeSize, FIRST_CHUNK_FRAMES, NORMAL_CHUNK_FRAMES]

theorem chunkInit_ready (st : Loop L) : Ready 0 (chunkInit st) := by
  simp [Ready, chunkInit]

/-- One step from a `Ready` state. -/
theorem stepBody_ready (env : Env L) (c n k : Nat) (st : Loop L) (h : Ready k st) :
    ((stepBody env c n k st).2.2 = false →
      Ready (k + 1) (stepBody env c n k st).1 ∧
      (batches (stepBody env c n k st).2.1 = [] ∧
        (stepBody env c n k st).1.isFirstAudioChunk = st.isFirstAudioChunk ∨
       ∃ b, batches (stepBody env c n k st).2.1 = [b] ∧
        b.length = (if st.isFirstAudioChunk then 3 else 12) ∧
        (stepBody env c n k st).1.isFirstAudioChunk = false)) ∧
    ((stepBody env c n k st).2.2 = true →
      st.isFirstAudioChunk = false ∧
      batches (stepBody env c n k st).2.1 =
        [(st.chunkLatents ++ [env.latent c k]).drop st.chunkDecodedFrames] ∧
      1 ≤ ((st.chunkLatents ++ [env.latent c k]).drop st.chunkDecodedFrames).length ∧
      (stepBody env c n k st).1.chunkDecodedFrames =
        (stepBody env c n k st).1.chunkLatents.length ∧
      (stepBody env c n k st).1.isFirstAudioChunk = false) := by
  obtain ⟨h1, h2, h3, h4⟩ := h
  obtain ⟨s1, s2, s3, s4, s5, s6, _⟩ := stepBody_fields env c n k st
  obtain ⟨d1, d2, d3⟩ := stepBody_decode env c n k st
  rw [← s6] at d1 d2 d3
  constructor
  · intro hstop
    rw [hstop, decodeSize_go, h1] at d1 d2 d3
    cases hfirst : st.isFirstAudioChunk
    · simp only [hfirst, Bool.false_eq_true, false_and, if_false] at d1 d2 d3
      by_cases hp : 12 ≤ k + 1 - st.chunkDecodedFrames
      · rw [if_pos hp] at d1 d2 d3
        simp only [Nat.lt_irrefl, gt_iff_lt, Nat.ofNat_pos, if_true] at d2 d3
        refine ⟨⟨by rw [s4]; simp [h1], by omega, by omega, by rw [d2]; simp⟩, Or.inr ?_⟩
        refine ⟨_, by rw [d3]; rfl, ?_, d2⟩
        simp [List.length_take, List.length_drop, h1]
        omega
      · rw [if_neg hp] at d1 d2 d3
        simp only [gt_iff_lt, Nat.lt_irrefl, if_false] at d2 d3
        refine ⟨⟨by rw [s4]; simp [h1], by omega, by omega, by rw [d2]; simp⟩, Or.inl ?_⟩
        exact ⟨by rw [d3]; rfl, d2⟩
    · obtain ⟨h5, h6⟩ := h4 hfirst
      simp only [hfirst, true_and, if_true] at d1 d2 d3
      by_cases hp : 3 ≤ k + 1 - st.chunkDecodedFrames
      · rw [if_pos hp] at d1 d2 d3
        simp only [gt_iff_lt, Nat.ofNat_pos, if_true] at d2 d3
        refine ⟨⟨by rw [s4]; simp [h1], by omega, by omega, by rw [d2]; simp⟩, Or.inr ?_⟩
        refine ⟨_, by rw [d3]; rfl, ?_, d2⟩
        simp [List.length_take, List.length_drop, h1]
        omega
      · have hp2 : ¬ 12 ≤ k + 1 - st.chunkDecodedFrames := by omega
        rw [if_neg hp, if_neg hp2] at d1 d2 d3
        simp only [gt_iff_lt, Nat.lt_irrefl, if_false] at d2 d3
        refine ⟨⟨by rw [s4]; simp [h1], by omega, by omega, ?_⟩, Or.inl ?_⟩
        · intro _; omega
        · exact ⟨by rw [d3]; rfl, by rw [d2]⟩
  · intro hstop
    have hk : 3 ≤ k := eosUpdate_stop _ _ _ (by rw [← s6]; exact hstop)
    rw [hstop, decodeSize_stop, h1] at d1 d2 d3
    have hpos : k + 1 - st.chunkDecodedFrames > 0 := by omega
    rw [if_pos hpos] at d2 d3
    have hnf : st.isFirstAudioChunk = false := by
      cases hfirst : st.isFirstAudioChunk
      · rfl
      · have := (h4 hfirst).2; omega
    refine ⟨hnf, ?_, ?_, ?_, d2⟩
    · rw [d3]
      simp only [batches, flushMsg]
      rw [List.take_of_length_le]
      simp [List.length_drop, h1]
    · simp [List.length_drop, h1]; omega
    · rw [d1, s4]; simp [h1]; omega

theorem batches_append (xs ys : List (Msg L)) : batches (xs ++ ys) = batches xs ++ batches ys := by
  induction xs with
  | nil => rfl
  | cons x xs ih =>
    cases x with
    | audioChunk d m => cases d <;> simp [batches, ih]
    | _ => simp [batches, ih]

theorem allDecoded_append {xs ys : List (Msg L)} (hx : AllDecoded xs) (hy : AllDecoded ys) :
    AllDecoded (xs ++ ys) := by
  intro m hm
  rcases List.mem_append.mp hm with h | h
  · exact hx m h
  · exact hy m h

theorem decodeSize_le (stop first : Bool) (p : Nat) : decodeSize stop first p ≤ p := by
  unfold decodeSize
  simp only [FIRST_CHUNK_FRAMES, NORMAL_CHUNK_FRAMES]
  split_ifs with h1 h2 h3
  · exact le_refl _
  · simp at h2; omega
  · omega
  · omega

/-- What one step hands to the vocoder continues the decoded prefix of the chunk. -/
theorem stepBody_batches (env : Env L) (c n k : Nat) (st : Loop L)
    (h : st.chunkDecodedFrames ≤ st.chunkLatents.length) :
    st.chunkLatents.take st.chunkDecodedFrames ++ (batches (stepBody env c n k st).2.1).flatten =
      (stepBody env c n k st).1.chunkLatents.take (stepBody env c n k st).1.chunkDecodedFrames ∧
    AllDecoded (stepBody env c n k st).2.1 ∧
    (stepBody env c n k st).1.chunkDecodedFrames ≤ (stepBody env c n k st).1.chunkLatents.length ∧
    ((stepBody env c n k st).2.1.filter Msg.isLast ≠ [] → (stepBody env c n k st).2.2 = true) := by
  obtain ⟨s1, s2, s3, s4, s5, s6, _⟩ := stepBody_fields env c n k st
  obtain ⟨d1, d2, d3⟩ := stepBody_decode env c n k st
  have hle := decodeSize_le (eosUpdate (env.eosLogit c k) st.eosStep k).2 st.isFirstAudioChunk
    (st.chunkLatents.length + 1 - st.chunkDecodedFrames)
  have htake : st.chunkLatents.take st.chunkDecodedFrames =
      (st.chunkLatents ++ [env.latent c k]).take st.chunkDecodedFrames := by
    rw [List.take_append_of_le_length h]
  rw [d1, d3, s4, s6]
  refine ⟨?_, ?_, by simp; omega, ?_⟩
  · split_ifs with hpos
    · simp only [batches, flushMsg, List.flatten_cons, List.flatten_nil, List.append_nil]
      rw [htake, List.take_add]
    · have h0 : decodeSize (eosUpdate (env.eosLogit c k) st.eosStep k).2 st.isFirstAudioChunk
        (st.chunkLatents.length + 1 - st.chunkDecodedFrames) = 0 := by omega
      rw [h0]
      simp [batches, htake]
  · split_ifs with hpos
    · intro m hm
      simp only [List.mem_singleton] at hm
      subst hm
      exact ⟨rfl, rfl⟩
    · intro m hm; simp at hm
  · split_ifs with hpos
    · simp only [flushMsg, List.filter, Msg.isLast]
      cases hstop : (eosUpdate (env.eosLogit c k) st.eosStep k).2 <;> simp
    · simp

/-- The step loop of a run that is neither cancelled nor failing, from a `Ready` state. -/
theorem arLoop_ready (env : Env L) (c n : Nat) (hs : env.stopAt = none) (hf : env.failAt = none)
    (remaining k : Nat) (st : Loop L) (hg : st.isGenerating = true) (hr : Ready k st)
    (hend : st.chunkEnded = false) :
    AllDecoded (arLoop env c n remaining k st).2 ∧
    st.chunkLatents.take st.chunkDecodedFrames ++
        (batches (arLoop env c n remaining k st).2).flatten =
      (arLoop env c n remaining k st).1.chunkLatents.take
        (arLoop env c n remaining k st).1.chunkDecodedFrames ∧
    ((arLoop env c n remaining k st).1.chunkEnded = true →
      (arLoop env c n remaining k st).1.chunkDecodedFrames =
        (arLoop env c n remaining k st).1.chunkLatents.length ∧
      (arLoop env c n remaining k st).2 ≠ [] ∧
      (arLoop env c n remaining k st).1.isFirstAudioChunk = false) ∧
    ((arLoop env c n remaining k st).1.chunkEnded = false →
      (arLoop env c n remaining k st).2.filter Msg.isLast = []) ∧
    (st.isFirstAudioChunk = true →
      ∀ b, (batches (arLoop env c n remaining k st).2).head? = some b → b.length = 3) ∧
    (batches (arLoop env c n remaining k st).2 = [] ∧
        (arLoop env c n remaining k st).1.isFirstAudioChunk = st.isFirstAudioChunk ∨
      batches (arLoop env c n remaining k st).2 ≠ [] ∧
        (arLoop env c n remaining k st).1.isFirstAudioChunk = false) := by
  induction remaining generalizing k st with
  | zero =>
    simp only [arLoop, batches, List.flatten_nil, List.append_nil, List.head?_nil]
    refine ⟨by intro m hm; simp at hm, trivial, ?_, ?_, ?_, Or.inl ⟨trivial, trivial⟩⟩
    · intro h; rw [hend] at h; exact absurd h (by simp)
    · intro _; rfl
    · intro _ b hb; simp at hb
  | succ r ih =>
    obtain ⟨s1, s2, s3, s4, s5, s6, _⟩ := stepBody_fields env c n k st
    obtain ⟨g1, g2⟩ := stepBody_ready env c n k st hr
    obtain ⟨b1, b2, b3, b4⟩ := stepBody_batches env c n k st (by rw [hr.1]; exact hr.2.1)
    rw [arLoop_succ env c n r k st hs hf hg]
    by_cases hstop : (stepBody env c n k st).2.2 = true
    · rw [if_pos hstop]
      obtain ⟨q1, q2, q3, q4, q5⟩ := g2 hstop
      simp only []
      refine ⟨b2, b1, ?_, ?_, ?_, Or.inr ⟨by rw [q2]; simp, q5⟩⟩
      · intro _
        refine ⟨q4, ?_, q5⟩
        intro hnil
        rw [hnil] at q2
        simp [batches] at q2
      · intro h; simp at h
      · intro hfirst; rw [q1] at hfirst; exact absurd hfirst (by simp)
    · rw [if_neg hstop]
      have hstop2 : (stepBody env c n k st).2.2 = false := by simpa using hstop
      obtain ⟨p1, p2⟩ := g1 hstop2
      obtain ⟨i1, i2, i3, i4, i5, i6⟩ := ih (k + 1) (stepBody env c n k st).1
        (by rw [s1]; exact hg) p1 (by rw [s3]; exact hend)
      simp only []
      refine ⟨allDecoded_append b2 i1, ?_, ?_, ?_, ?_, ?_⟩
      · rw [batches_append, List.flatten_append, ← List.append_assoc, b1, i2]
      · intro h
        obtain ⟨a1, a2, a3⟩ := i3 h
        refine ⟨a1, ?_, a3⟩
        intro hnil
        exact a2 (List.append_eq_nil.mp hnil).2
      · intro h
        rw [List.filter_append, i4 h, List.append_nil]
        by_contra hne
        have := b4 hne
        rw [hstop2] at this
        exact absurd this (by simp)
      · intro hfirst b hb
        rw [batches_append] at hb
        rcases p2 with ⟨e1, e2⟩ | ⟨b0, e1, e2, e3⟩
        · rw [e1, List.nil_append] at hb
          exact i5 (by rw [e2]; exact hfirst) b hb
        · rw [e1] at hb
          simp only [List.singleton_append, List.head?_cons, Option.some.injEq] at hb
          rw [← hb, e2, hfirst]
          rfl
      · rw [batches_append]
        rcases p2 with ⟨e1, e2⟩ | ⟨b0, e1, e2, e3⟩
        · rw [e1, List.nil_append, ← e2]
          exact i6
        · right
          refine ⟨by rw [e1]; simp, ?_⟩
          rcases i6 with ⟨_, e4⟩ | ⟨_, e4⟩
          · rw [e4, e3]
          · exact e4

theorem gapSamples_eq : gapSamples = 6000 := by
  unfold gapSamples CHUNK_GAP_SEC SAMPLE_RATE
  norm_num
  rfl

theorem deliver_ready (env : Env L) (a : Await) (k : Nat) (st : Loop L) (h : Ready k st) :
    Ready k (deliver env a st).1 := by
  unfold deliver
  split_ifs
  · exact h
  · exact h

theorem visited_ready (env : Env L) (c n remaining k : Nat) (st : Loop L) (h : Ready k st) :
    ∀ p ∈ visited env c n remaining k st, Ready p.1 p.2 := by
  induction remaining generalizing k st with
  | zero => intro p hp; simp [visited] at hp
  | succ r ih =>
    have hd := deliver_ready env (Await.step c k) k st h
    intro p hp
    rw [visited] at hp
    simp only [] at hp
    by_cases h1 : (!st.isGenerating) = true
    · rw [if_pos h1] at hp; simp at hp
    · rw [if_neg h1] at hp
      by_cases h2 : env.failAt = some (Await.step c k)
      · rw [if_pos h2] at hp; simp at hp
      · rw [if_neg h2] at hp
        rcases List.mem_cons.mp hp with hp | hp
        · subst hp; exact hd
        · by_cases h3 : (stepBody env c n k (deliver env (Await.step c k) st).1).2.2 = true
          · rw [if_pos h3] at hp; simp at hp
          · rw [if_neg h3] at hp
            have hgo : (stepBody env c n k (deliver env (Await.step c k) st).1).2.2 = false := by
              simpa using h3
            exact ih (k + 1) _ ((stepBody_ready env c n k _ hd).1 hgo).1 p hp

/-- Without an end of speech, the number of decoded frames stays a multiple of 12, or 3
more than one. -/
theorem arLoop_cap_decoded (env : Env L) (c n : Nat)
    (hs : env.stopAt = none) (hf : env.failAt = none) (hquiet : ∀ k, env.eosLogit c k ≤ -4)
    (remaining k : Nat) (st : Loop L) (hg : st.isGenerating = true) (hr : Ready k st)
    (heos : st.eosStep = none)
    (hmod : st.chunkDecodedFrames % 12 = 0 ∨ st.chunkDecodedFrames % 12 = 3) :
    (arLoop env c n remaining k st).1.chunkDecodedFrames % 12 = 0 ∨
    (arLoop env c n remaining k st).1.chunkDecodedFrames % 12 = 3 := by
  induction remaining generalizing k st with
  | zero => simpa [arLoop] using hmod
  | succ r ih =>
    obtain ⟨s1, s2, s3, s4, s5, s6, _⟩ := stepBody_fields env c n k st
    obtain ⟨d1, d2, d3⟩ := stepBody_decode env c n k st
    rw [arLoop_succ env c n r k st hs hf hg]
    rw [heos, eosUpdate_quiet _ _ (hquiet k)] at s5 s6
    rw [heos, eosUpdate_quiet _ _ (hquiet k)] at d1
    simp only [] at s5 s6 d1
    have hstop : ¬ ((stepBody env c n k st).2.2 = true) := by rw [s6]; simp
    rw [if_neg hstop]
    simp only []
    apply ih (k + 1) _ (by rw [s1]; exact hg)
      ((stepBody_ready env c n k st hr).1 (by simpa using hstop)).1 s5
    rw [d1, decodeSize_go]
    obtain ⟨h1, h2, h3, h4⟩ := hr
    split_ifs with c1 c2
    · have := (h4 c1.1).1; omega
    · omega
    · omega

theorem arLoop_thrown (env : Env L) (c n : Nat) (hf : env.failAt = none)
    (remaining k : Nat) (st : Loop L) :
    (arLoop env c n remaining k st).1.thrown = st.thrown := by
  induction remaining generalizing k st with
  | zero => simp [arLoop]
  | succ r ih =>
    obtain ⟨_, _, _, d4, _⟩ := deliver_fields env (Await.step c k) st
    obtain ⟨_, s2, _⟩ := stepBody_fields env c n k (deliver env (Await.step c k) st).1
    rw [arLoop]
    simp only [hf]
    split_ifs
    · rfl
    · simp at *
    · simp only []; rw [s2, d4]
    · simp only []; rw [ih, s2, d4]

theorem chunkBody_eq (env : Env L) (c n : Nat) (hs : env.stopAt = none)
    (hf : env.failAt = none) (st : Loop L) (ht : st.thrown = false) :
    chunkBody env c n st = ((arLoop env c n MAX_FRAMES 0 (chunkInit st)).1,
      (arLoop env c n MAX_FRAMES 0 (chunkInit st)).2 ++
        chunkGap c n (arLoop env c n MAX_FRAMES 0 (chunkInit st)).1) := by
  have hthrown : (arLoop env c n MAX_FRAMES 0 (chunkInit st)).1.thrown = false := by
    rw [arLoop_thrown env c n hf]; exact ht
  unfold chunkBody
  simp only [deliver_none env _ _ hs, hf, hthrown, Bool.false_eq_true, if_false,
    List.nil_append]
  simp

/-- A chunk of an uncancelled run that ends by end of speech: what its iteration posts. -/
theorem chunkBody_eos (env : Env L) (c n e : Nat)
    (hs : env.stopAt = none) (hf : env.failAt = none)
    (hquiet : ∀ k, k < e → env.eosLogit c k ≤ -4) (hfirst : env.eosLogit c e > -4)
    (hcap : e + 3 < MAX_FRAMES) (st : Loop L) (hg : st.isGenerating = true)
    (ht : st.thrown = false) :
    (chunkBody env c n st).1.isGenerating = true ∧
    (chunkBody env c n st).1.thrown = false ∧
    (chunkBody env c n st).1.isFirstAudioChunk = false ∧
    ∃ segs : List (Msg L), (chunkBody env c n st).2 = segs ++ gapAfter c n ∧ segs ≠ [] ∧
      AllDecoded segs ∧ (batches segs).flatten = (List.range (e + 4)).map (env.latent c) := by
  have hg0 : (chunkInit st).isGenerating = true := hg
  obtain ⟨a1, a2, a3, a4, a5⟩ := arLoop_grace env c n e hs hf hquiet hfirst MAX_FRAMES 0
    (chunkInit st) hg0 (by omega) (by omega) (by simp [chunkInit])
  obtain ⟨b1, b2, b3, _, _, _⟩ := arLoop_ready env c n hs hf MAX_FRAMES 0 (chunkInit st) hg0
    (chunkInit_ready st) rfl
  obtain ⟨c1, c2, c3⟩ := b3 a2
  have ht0 : (arLoop env c n MAX_FRAMES 0 (chunkInit st)).1.thrown = false := by
    rw [a5]; exact ht
  rw [chunkBody_eq env c n hs hf st ht]
  refine ⟨a4, ht0, c3, _, ?_, c2, b1, ?_⟩
  · show _ ++ _ = _ ++ _
    congr 1
    unfold chunkGap gapAfter
    rw [a2, a4]
    simp only [Bool.and_self, Bool.true_and, decide_eq_true_eq]
    by_cases h : c + 1 < n
    · rw [if_pos h, if_pos (by omega)]
    · rw [if_neg h, if_neg (by omega)]
  · have hz : (chunkInit st).chunkDecodedFrames = 0 := rfl
    have hl : (chunkInit st).chunkLatents = [] := rfl
    rw [hz, List.take_zero, List.nil_append] at b2
    rw [b2, c1, List.take_length, a1, hl]
    simp [List.range_eq_range']

theorem filter_silence_decoded (segs : List (Msg L)) (h : AllDecoded segs) :
    segs.filter Msg.isSilence = [] := by
  rw [List.filter_eq_nil_iff]
  intro m hm
  simp [(h m hm).2]

/-- The chunk loop of an uncancelled run in which every chunk ends by end of speech. -/
theorem chunkLoop_eos (env : Env L) (n : Nat) (e : Nat → Nat)
    (hs : env.stopAt = none) (hf : env.failAt = none)
    (heos : ∀ c, c < n → (∀ k, k < e c → env.eosLogit c k ≤ -4) ∧ env.eosLogit c (e c) > -4 ∧
      e c + 3 < MAX_FRAMES)
    (remaining c : Nat) (st : Loop L) (hn : c + remaining = n) (hg : st.isGenerating = true)
    (ht : st.thrown = false) :
    (chunkLoop env n remaining c st).1.isGenerating = true ∧
    (chunkLoop env n remaining c st).1.thrown = false ∧
    (chunkLoop env n remaining c st).2.filter Msg.isSilence =
      List.replicate (remaining - 1) gapMsg ∧
    ∃ segs : Nat → List (Msg L),
      (∀ i, c ≤ i → i < n → segs i ≠ [] ∧ AllDecoded (segs i) ∧
        (batches (segs i)).flatten = (List.range (e i + 4)).map (env.latent i)) ∧
      (chunkLoop env n remaining c st).2 =
        ((List.range' c remaining).map (fun i => segs i ++ gapAfter i n)).flatten := by
  induction remaining generalizing c st with
  | zero =>
    refine ⟨hg, ht, by simp [chunkLoop], fun _ => [], ?_, by simp [chunkLoop]⟩
    intro i h1 h2; omega
  | succ r ih =>
    obtain ⟨q1, q2, q3⟩ := heos c (by omega)
    obtain ⟨b1, b2, _, segs0, b4, b5, b6, b7⟩ := chunkBody_eos env c n (e c) hs hf q1 q2 q3 st hg ht
    obtain ⟨i1, i2, i3, segs, i4, i5⟩ := ih (c + 1) (chunkBody env c n st).1 (by omega) b1 b2
    rw [chunkLoop]
    simp only [hg, b2, Bool.not_true, Bool.false_eq_true, if_false]
    refine ⟨i1, i2, ?_, fun i => if i = c then segs0 else segs i, ?_, ?_⟩
    · rw [List.filter_append, i3, b4, List.filter_append, filter_silence_decoded segs0 b6]
      unfold gapAfter
      by_cases h : c + 1 < n
      · rw [if_pos h]
        have hr : r + 1 - 1 = (r - 1) + 1 := by omega
        rw [hr, List.replicate_succ]
        simp [gapMsg, Msg.isSilence]
      · rw [if_neg h]
        have hr : r = 0 := by omega
        subst hr
        simp
    · intro i h1 h2
      by_cases hic : i = c
      · subst hic
        simp only [if_true]
        exact ⟨b5, b6, b7⟩
      · simp only [hic, if_false]
        exact i4 i (by omega) h2
    · rw [List.range'_succ, List.map_cons, List.flatten_cons]
      simp only [if_true]
      rw [b4, i5]
      congr 2
      apply List.map_congr_left
      intro i hi
      have := (List.mem_range'_1.mp hi).1
      rw [if_neg (by omega)]

theorem chunkLoop_thrown (env : Env L) (n : Nat) (hf : env.failAt = none)
    (remaining c : Nat) (st : Loop L) :
    (chunkLoop env n remaining c st).1.thrown = st.thrown := by
  induction remaining generalizing c st with
  | zero => simp [chunkLoop]
  | succ r ih =>
    have hb : (chunkBody env c n st).1.thrown = st.thrown := by
      obtain ⟨_, _, _, d4, _⟩ := deliver_fields env (Await.conditioning c) (chunkInit st)
      have ha := arLoop_thrown env c n hf MAX_FRAMES 0
        (deliver env (Await.conditioning c) (chunkInit st)).1
      unfold chunkBody
      simp only [hf]
      rw [if_neg (by simp)]
      split_ifs
      · simp only []; rw [ha, d4]; rfl
      · simp only []; rw [ha, d4]; rfl
    rw [chunkLoop]
    by_cases hg : (!st.isGenerating) = true
    · rw [if_pos hg]
    · rw [if_neg hg]
      simp only []
      by_cases ht : (chunkBody env c n st).1.thrown = true
      · rw [if_pos ht]; exact hb
      · rw [if_neg ht]; simp only []; rw [ih, hb]

/-- The first batch of an utterance holds three frames. -/
theorem chunkLoop_first (env : Env L) (n : Nat)
    (hs : env.stopAt = none) (hf : env.failAt = none)
    (remaining c : Nat) (st : Loop L) (hfirst : st.isFirstAudioChunk = true)
    (ht : st.thrown = false) :
    ∀ b, (batches (chunkLoop env n remaining c st).2).head? = some b → b.length = 3 := by
  induction remaining generalizing c st with
  | zero => intro b hb; simp [chunkLoop, batches] at hb
  | succ r ih =>
    intro b hb
    rw [chunkLoop] at hb
    by_cases hg : st.isGenerating = true
    · have hg0 : (chunkInit st).isGenerating = true := hg
      obtain ⟨_, _, _, _, p5, p6⟩ := arLoop_ready env c n hs hf MAX_FRAMES 0 (chunkInit st) hg0
        (chunkInit_ready st) rfl
      have hthrown : (arLoop env c n MAX_FRAMES 0 (chunkInit st)).1.thrown = false := by
        rw [arLoop_thrown env c n hf]; exact ht
      have hbody := chunkBody_eq env c n hs hf st ht
      have hgapb : batches (chunkGap c n (arLoop env c n MAX_FRAMES 0 (chunkInit st)).1 :
          List (Msg L)) = [] := by
        unfold chunkGap; split_ifs <;> simp [batches, gapMsg]
      simp only [hg, Bool.not_true, Bool.false_eq_true, if_false, hbody, hthrown] at hb
      rw [batches_append, batches_append, hgapb, List.append_nil] at hb
      rcases p6 with ⟨e1, e2⟩ | ⟨e1, e2⟩
      · rw [e1, List.nil_append] at hb
        exact ih (c + 1) _ (by rw [e2]; exact hfirst) hthrown b hb
      · rw [List.head?_append_of_ne_nil _ e1] at hb
        exact p5 hfirst b hb
    · simp [hg, batches] at hb


theorem visited_succ (env : Env L) (c n remaining k : Nat) (st : Loop L)
    (hs : env.stopAt = none) (hf : env.failAt = none) (hg : st.isGenerating = true) :
    visited env c n (remaining + 1) k st =
      (k, st) :: (if (stepBody env c n k st).2.2 then []
        else visited env c n remaining (k + 1) (stepBody env c n k st).1) := by
  rw [visited]
  simp only [deliver_none env _ st hs, hg, hf, Bool.not_true, Bool.false_eq_true, if_false]
  simp

theorem visited_length (env : Env L) (c n remaining k : Nat) (st : Loop L) :
    (visited env c n remaining k st).length ≤ remaining := by
  induction remaining generalizing k st with
  | zero => simp [visited]
  | succ r ih =>
    have := ih (k + 1) (stepBody env c n k (deliver env (Await.step c k) st).1).1
    rw [visited]
    simp only []
    by_cases h1 : (!st.isGenerating) = true
    · rw [if_pos h1]; simp
    · rw [if_neg h1]
      by_cases h2 : env.failAt = some (Await.step c k)
      · rw [if_pos h2]; simp
      · rw [if_neg h2]
        by_cases h3 : (stepBody env c n k (deliver env (Await.step c k) st).1).2.2 = true
        · rw [if_pos h3]; simp
        · rw [if_neg h3]
          simp only [List.length_cons]
          omega

/-- The steps a chunk executes when the score first exceeds the threshold at step `e`. -/
theorem visited_grace (env : Env L) (c n e : Nat)
    (hs : env.stopAt = none) (hf : env.failAt = none)
    (hquiet : ∀ k, k < e → env.eosLogit c k ≤ -4) (hfirst : env.eosLogit c e > -4)
    (remaining k : Nat) (st : Loop L) (hg : st.isGenerating = true)
    (hk : k ≤ e + 3) (hrem : e + 3 < k + remaining)
    (heos : st.eosStep = if k ≤ e then none else some e) :
    (visited env c n remaining k st).map Prod.fst = List.range' k (e + 4 - k) := by
  induction remaining generalizing k st with
  | zero => omega
  | succ r ih =>
    obtain ⟨s1, s2, s3, s4, s5, s6, _⟩ := stepBody_fields env c n k st
    rw [visited_succ env c n r k st hs hf hg]
    have hupd : eosUpdate (env.eosLogit c k) st.eosStep k =
        (if k < e then none else some e, decide (k = e + 3)) := by
      rw [heos]
      by_cases h1 : k < e
      · rw [if_pos (by omega), if_pos h1, eosUpdate_quiet _ _ (hquiet k h1)]
        simp; omega
      · by_cases h2 : k = e
        · subst h2
          rw [if_pos (le_refl _), if_neg h1, eosUpdate_first _ _ hfirst]
          simp
        · rw [if_neg (by omega), if_neg h1, eosUpdate_after]
          simp; omega
    rw [hupd] at s5 s6
    by_cases hlast : k = e + 3
    · have hstop : (stepBody env c n k st).2.2 = true := by rw [s6]; simp [hlast]
      rw [if_pos hstop]
      have hr : e + 4 - k = 1 := by omega
      rw [hr]
      rfl
    · have hstop : ¬ ((stepBody env c n k st).2.2 = true) := by rw [s6]; simp [hlast]
      rw [if_neg hstop]
      have := ih (k + 1) (stepBody env c n k st).1 (by rw [s1]; exact hg) (by omega) (by omega)
        (by rw [s5]; by_cases h1 : k < e
            · rw [if_pos h1, if_pos (by omega)]
            · rw [if_neg h1, if_neg (by omega)])
      have hr : e + 4 - k = (e + 4 - (k + 1)) + 1 := by omega
      rw [hr, List.range'_succ, List.map_cons, this]

theorem arLoop_decoded_le (env : Env L) (c n : Nat)
    (remaining k : Nat) (st : Loop L) (hr : st.chunkDecodedFrames ≤ st.chunkLatents.length) :
    (arLoop env c n remaining k st).1.chunkDecodedFrames ≤
      (arLoop env c n remaining k st).1.chunkLatents.length := by
  induction remaining generalizing k st with
  | zero => simpa [arLoop] using hr
  | succ r ih =>
    have hd : (deliver env (Await.step c k) st).1.chunkDecodedFrames ≤
        (deliver env (Await.step c k) st).1.chunkLatents.length := by
      unfold deliver; split_ifs <;> exact hr
    obtain ⟨_, _, b3, _⟩ := stepBody_batches env c n k (deliver env (Await.step c k) st).1 hd
    rw [arLoop]
    simp only []
    split_ifs
    · exact hr
    · exact hd
    · exact b3
    · exact ih (k + 1) _ b3

/-- A chunk of a run that is neither cancelled nor failing, whose score never exceeds the
threshold. -/
theorem chunkBody_cap (env : Env L) (c n : Nat) (st : Loop L)
    (hs : env.stopAt = none) (hf : env.failAt = none) (hq : ∀ k, env.eosLogit c k ≤ -4)
    (hg : st.isGenerating = true) (ht : st.thrown = false) :
    (chunkBody env c n st).1.chunkLatents.length = 500 ∧
    (chunkBody env c n st).1.chunkDecodedFrames < 500 ∧
    (batches (chunkBody env c n st).2).flatten =
      (chunkBody env c n st).1.chunkLatents.take (chunkBody env c n st).1.chunkDecodedFrames ∧
    (chunkBody env c n st).2.filter Msg.isLast = [] ∧
    (chunkBody env c n st).1.chunkEnded = false := by
  have hg0 : (chunkInit st).isGenerating = true := hg
  obtain ⟨a1, a2⟩ := arLoop_cap env c n hs hf hq MAX_FRAMES 0 (chunkInit st) hg0 rfl
  have a3 := arLoop_cap_decoded env c n hs hf hq MAX_FRAMES 0 (chunkInit st)
    hg0 (chunkInit_ready _) rfl (Or.inl rfl)
  have a4 := arLoop_decoded_le env c n MAX_FRAMES 0 (chunkInit st) (Nat.zero_le _)
  obtain ⟨_, b2, _, b4, _, _⟩ := arLoop_ready env c n hs hf MAX_FRAMES 0
    (chunkInit st) hg0 (chunkInit_ready _) rfl
  have hend : (arLoop env c n MAX_FRAMES 0 (chunkInit st)).1.chunkEnded = false := by
    rw [a2]; rfl
  have hlen : (arLoop env c n MAX_FRAMES 0 (chunkInit st)).1.chunkLatents.length = 500 := by
    rw [a1]; rfl
  rw [chunkBody_eq env c n hs hf st ht]
  have hgap : (chunkGap c n (arLoop env c n MAX_FRAMES 0 (chunkInit st)).1 :
      List (Msg L)) = [] := by
    unfold chunkGap; rw [hend]; rfl
  simp only [hgap, List.append_nil]
  refine ⟨hlen, by omega, ?_, b4 hend, hend⟩
  have hz : (chunkInit st).chunkDecodedFrames = 0 := rfl
  rw [hz, List.take_zero, List.nil_append] at b2
  exact b2

/-- The `try` block of a run that is neither cancelled nor failing. -/
theorem tryGeneration_plain (env : Env L) (N : Nat) (hs : env.stopAt = none)
    (hf : env.failAt = none) (hN : N ≠ 0) (st : Loop L) (ht : st.thrown = false) :
    tryGeneration env N true st =
      ((chunkLoop env N N 0 { st with isFirstAudioChunk := true }).1,
        (chunkLoop env N N 0 { st with isFirstAudioChunk := true }).2 ++ [Msg.status "idle"]) := by
  have hthrown : (chunkLoop env N N 0 { st with isFirstAudioChunk := true }).1.thrown = false := by
    rw [chunkLoop_thrown env N hf]; exact ht
  unfold tryGeneration runGenerationPipeline
  simp only [hN, if_false, Bool.not_true, Bool.false_eq_true, deliver_none env _ _ hs, hf,
    hthrown, List.nil_append]
  simp

theorem tracks_nil (g : Bool) : Tracks g g ([] : List (Msg L)) :=
  ⟨fun h => absurd h (by simp), fun _ => rfl⟩

theorem tracks_append {g0 g1 g2 : Bool} {o1 o2 : List (Msg L)}
    (h1 : Tracks g0 g1 o1) (h2 : Tracks g1 g2 o2) : Tracks g0 g2 (o1 ++ o2) := by
  constructor
  · intro h
    by_cases hb : Msg.stopped ∈ o2
    · exact h2.1 hb
    · have ha : Msg.stopped ∈ o1 := by
        rcases List.mem_append.mp h with h | h
        · exact h
        · exact absurd h hb
      rw [h2.2 hb]
      exact h1.1 ha
  · intro h
    rw [List.mem_append, not_or] at h
    rw [h2.2 h.2, h1.2 h.1]

theorem tracks_quiet (g : Bool) (out : List (Msg L)) (h : Msg.stopped ∉ out) :
    Tracks g g out :=
  ⟨fun h1 => absurd h1 h, fun _ => rfl⟩

theorem deliver_tracks (env : Env L) (a : Await) (st : Loop L) :
    Tracks st.isGenerating (deliver env a st).1.isGenerating (deliver env a st).2 := by
  unfold deliver
  split_ifs
  · exact ⟨fun _ => rfl, fun h => absurd (by simp) h⟩
  · exact tracks_nil _

theorem stepBody_quiet (env : Env L) (c n k : Nat) (st : Loop L) :
    Msg.stopped ∉ (stepBody env c n k st).2.1 := by
  unfold stepBody
  simp only []
  split_ifs <;> simp [decodeAndPost]

theorem arLoop_tracks (env : Env L) (c n remaining k : Nat) (st : Loop L) :
    Tracks st.isGenerating (arLoop env c n remaining k st).1.isGenerating
      (arLoop env c n remaining k st).2 := by
  induction remaining generalizing k st with
  | zero => exact tracks_nil _
  | succ r ih =>
    have hd := deliver_tracks env (Await.step c k) st
    obtain ⟨s1, _⟩ := stepBody_fields env c n k (deliver env (Await.step c k) st).1
    have hs : Tracks (deliver env (Await.step c k) st).1.isGenerating
        (stepBody env c n k (deliver env (Await.step c k) st).1).1.isGenerating
        (stepBody env c n k (deliver env (Await.step c k) st).1).2.1 := by
      rw [s1]
      exact tracks_quiet _ _ (stepBody_quiet env c n k _)
    have hi := ih (k + 1) (stepBody env c n k (deliver env (Await.step c k) st).1).1
    rw [arLoop]
    simp only []
    by_cases hg : (!st.isGenerating) = true
    · rw [if_pos hg]; exact tracks_nil _
    · rw [if_neg hg]
      by_cases hfail : env.failAt = some (Await.step c k)
      · rw [if_pos hfail]; exact hd
      · rw [if_neg hfail]
        by_cases hstop : (stepBody env c n k (deliver env (Await.step c k) st).1).2.2 = true
        · rw [if_pos hstop]; exact tracks_append hd hs
        · rw [if_neg hstop]; exact tracks_append (tracks_append hd hs) hi

theorem chunkBody_tracks (env : Env L) (c n : Nat) (st : Loop L) :
    Tracks st.isGenerating (chunkBody env c n st).1.isGenerating (chunkBody env c n st).2 := by
  have hd : Tracks st.isGenerating
      (deliver env (Await.conditioning c) (chunkInit st)).1.isGenerating
      (deliver env (Await.conditioning c) (chunkInit st)).2 :=
    deliver_tracks env (Await.conditioning c) (chunkInit st)
  have ha := arLoop_tracks env c n MAX_FRAMES 0
    (deliver env (Await.conditioning c) (chunkInit st)).1
  have hgap : Msg.stopped ∉ (chunkGap c n (arLoop env c n MAX_FRAMES 0
      (deliver env (Await.conditioning c) (chunkInit st)).1).1 : List (Msg L)) := by
    unfold chunkGap; split_ifs <;> simp [gapMsg]
  unfold chunkBody
  simp only []
  split_ifs
  · exact hd
  · exact tracks_append hd ha
  · exact tracks_append (tracks_append hd ha) (tracks_quiet _ _ hgap)

theorem chunkLoop_tracks (env : Env L) (n remaining c : Nat) (st : Loop L) :
    Tracks st.isGenerating (chunkLoop env n remaining c st).1.isGenerating
      (chunkLoop env n remaining c st).2 := by
  induction remaining generalizing c st with
  | zero => exact tracks_nil _
  | succ r ih =>
    have hb := chunkBody_tracks env c n st
    have hi := ih (c + 1) (chunkBody env c n st).1
    rw [chunkLoop]
    by_cases hg : (!st.isGenerating) = true
    · rw [if_pos hg]; exact tracks_nil _
    · rw [if_neg hg]
      simp only []
      by_cases ht : (chunkBody env c n st).1.thrown = true
      · rw [if_pos ht]; exact hb
      · rw [if_neg ht]; exact tracks_append hb hi

theorem tryGeneration_tracks (env : Env L) (n : Nat) (v : Bool) (st : Loop L) :
    Tracks st.isGenerating (tryGeneration env n v st).1.isGenerating
      (tryGeneration env n v st).2 := by
  have hd : Tracks st.isGenerating
      (deliver env Await.setup { st with isFirstAudioChunk := true }).1.isGenerating
      (deliver env Await.setup { st with isFirstAudioChunk := true }).2 :=
    deliver_tracks env Await.setup { st with isFirstAudioChunk := true }
  have hc := chunkLoop_tracks env n n 0
    (deliver env Await.setup { st with isFirstAudioChunk := true }).1
  unfold tryGeneration runGenerationPipeline
  simp only []
  split_ifs
  · exact tracks_nil _
  · exact tracks_nil _
  · exact hd
  · exact tracks_append hd hc
  · exact tracks_append (tracks_append hd hc) (tracks_quiet _ _ (by simp))

/-- Whether the `stop` handler ran during a run shows in the posted messages of the `try`
block alone. -/
theorem stopped_mem (env : Env L) (n : Nat) (v : Bool) (st : Loop L) :
    Msg.stopped ∈ (startGeneration env n v st).2 ↔
      Msg.stopped ∈
        (tryGeneration env n v { st with isGenerating := true, thrown := false }).2 := by
  unfold startGeneration
  simp only [List.mem_append]
  constructor
  · intro h
    rcases h with ((h | h) | h) | h
    · simp at h
    · exact h
    · split_ifs at h <;> simp at h
    · split_ifs at h <;> simp at h
  · intro h
    exact Or.inl (Or.inl (Or.inr h))

/-- A `stop` message handled during the step that ends the first chunk of two: the step runs
to its end and posts its segment after the status of the handler; no silence segment, no
second chunk and no `stream_ended` follow. -/
theorem stop_during_last_step :
    (startGeneration stoppedLate 2 true idle).2 =
      [Msg.status "running", Msg.generationStarted,
        Msg.audioChunk (Audio.decoded [0, 1, 2])
          { isFirst := true, isLast := false, chunkStart := true, isSilence := false },
        Msg.stopped,
        Msg.audioChunk (Audio.decoded [3, 4, 5, 6, 7, 8])
          { isFirst := false, isLast := false, chunkStart := false, isSilence := false },
        Msg.status "idle"] := by
  decide!

/-! ### The claims -/

/-- C16 (counterexample). In a run of two chunks in which a `stop` message is handled
during step 4 of the first chunk, the worker posts one audio segment and no `stream_ended`
message. -/
theorem stop_suppresses_stream_ended :
    (startGeneration stopped 2 true idle).2.filter Msg.isStreamEnded = [] ∧
    (startGeneration stopped 2 true idle).2.filter Msg.isAudio =
      [Msg.audioChunk (Audio.decoded [0, 1, 2])
        { isFirst := true, isLast := false, chunkStart := true, isSilence := false }] := by
  decide!

/-- C16 (amended). Every generation run during which the worker handles no further
`generate` message posts at most one `stream_ended` message: exactly one when no `stop`
message is handled during it, whether it completes or an error is thrown (no text, no voice,
a failing model call), and none when a `stop` message is handled during it, which shows in
the status the `stop` handler posts. A `stop` message handled during the first await of the
pipeline always cancels the run. -/
theorem stream_ended_unless_cancelled (env : Env L) (nChunks : Nat) (hasVoice : Bool)
    (st : Loop L) :
    ((startGeneration env nChunks hasVoice st).2.filter Msg.isStreamEnded).length ≤ 1 ∧
    (env.stopAt = none →
      (startGeneration env nChunks hasVoice st).2.filter Msg.isStreamEnded =
        [Msg.streamEnded]) ∧
    (Msg.stopped ∈ (startGeneration env nChunks hasVoice st).2 →
      (startGeneration env nChunks hasVoice st).2.filter Msg.isStreamEnded = []) ∧
    (Msg.stopped ∉ (startGeneration env nChunks hasVoice st).2 →
      (startGeneration env nChunks hasVoice st).2.filter Msg.isStreamEnded =
        [Msg.streamEnded]) ∧
    (env.stopAt = some Await.setup → nChunks ≠ 0 → hasVoice = true →
      Msg.stopped ∈ (startGeneration env nChunks hasVoice st).2 ∧
      (startGeneration env nChunks hasVoice st).2.filter Msg.isStreamEnded = []) := by
  obtain ⟨t1, t2⟩ := tryGeneration_tracks env nChunks hasVoice
    { st with isGenerating := true, thrown := false }
  have hin : Msg.stopped ∈ (startGeneration env nChunks hasVoice st).2 →
      (startGeneration env nChunks hasVoice st).2.filter Msg.isStreamEnded = [] := by
    intro h
    rw [streamEnded_count, t1 ((stopped_mem env nChunks hasVoice st).mp h)]
    rfl
  refine ⟨?_, ?_, hin, ?_, ?_⟩
  · rw [streamEnded_count]
    split_ifs <;> simp
  · intro h
    rw [streamEnded_count, (tryGeneration_frame env nChunks hasVoice
      { st with isGenerating := true, thrown := false }).2 h]
    rfl
  · intro h
    rw [streamEnded_count, t2 (fun hm => h ((stopped_mem env nChunks hasVoice st).mpr hm))]
    rfl
  · intro hstop hN hv
    have hm : Msg.stopped ∈ (startGeneration env nChunks hasVoice st).2 := by
      rw [stopped_mem]
      subst hv
      unfold tryGeneration runGenerationPipeline deliver
      simp only [hN, hstop, if_false, if_true, Bool.not_true, Bool.false_eq_true]
      split_ifs <;> simp
    exact ⟨hm, hin hm⟩

/-- C19. In a chunk that is neither cancelled nor failing, if `e` is the first step whose
score exceeds `-4.0` and `e + 3 < 500`, the loop executes exactly the steps `0 .. e + 3`,
generates exactly the `e + 4` frames of these steps, records `eosStep = e` and ends the
chunk, whatever the scores after step `e` are. -/
theorem eos_grace (env : Env L) (c n e : Nat) (st : Loop L)
    (hs : env.stopAt = none) (hf : env.failAt = none) (hg : st.isGenerating = true)
    (hquiet : ∀ k, k < e → env.eosLogit c k ≤ -4) (hfirst : env.eosLogit c e > -4)
    (hcap : e + 3 < MAX_FRAMES) :
    (visited env c n MAX_FRAMES 0 (chunkInit st)).map Prod.fst = List.range (e + 4) ∧
    (arLoop env c n MAX_FRAMES 0 (chunkInit st)).1.chunkLatents =
      (List.range (e + 4)).map (env.latent c) ∧
    (arLoop env c n MAX_FRAMES 0 (chunkInit st)).1.chunkLatents.length = e + 4 ∧
    (arLoop env c n MAX_FRAMES 0 (chunkInit st)).1.eosStep = some e ∧
    (arLoop env c n MAX_FRAMES 0 (chunkInit st)).1.chunkEnded = true := by
  have hg0 : (chunkInit st).isGenerating = true := hg
  obtain ⟨a1, a2, a3, a4, a5⟩ := arLoop_grace env c n e hs hf hquiet hfirst MAX_FRAMES 0
    (chunkInit st) hg0 (by omega) (by omega) (by simp [chunkInit])
  have hv := visited_grace env c n e hs hf hquiet hfirst MAX_FRAMES 0
    (chunkInit st) hg0 (by omega) (by omega) (by simp [chunkInit])
  have hl : (chunkInit st).chunkLatents = [] := rfl
  rw [hl, List.nil_append] at a1
  refine ⟨by rw [hv]; simp [List.range_eq_range'], by rw [a1]; simp [List.range_eq_range'],
    by rw [a1]; simp, a3, a2⟩

theorem eos_grace_witness :
    (visited (eosFrom 5) 0 1 MAX_FRAMES 0 (chunkInit generating)).map Prod.fst =
      List.range (5 + 4) ∧
    (arLoop (eosFrom 5) 0 1 MAX_FRAMES 0 (chunkInit generating)).1.chunkLatents =
      (List.range (5 + 4)).map ((eosFrom 5).latent 0) ∧
    (arLoop (eosFrom 5) 0 1 MAX_FRAMES 0 (chunkInit generating)).1.chunkLatents.length = 5 + 4 ∧
    (arLoop (eosFrom 5) 0 1 MAX_FRAMES 0 (chunkInit generating)).1.eosStep = some 5 ∧
    (arLoop (eosFrom 5) 0 1 MAX_FRAMES 0 (chunkInit generating)).1.chunkEnded = true :=
  eos_grace (eosFrom 5) 0 1 5 generating rfl rfl rfl
    (by intro k hk; simp [eosFrom, hk]; norm_num) (by simp [eosFrom]) (by decide)

/-- C20 (the code at the failing input). In a chunk whose score never exceeds the
threshold the loop generates 500 frames and leaves the chunk at the cap: fewer than 500
frames were handed to the vocoder, no segment is flagged `isLast`, and `chunkEnded` is
`false`. -/
theorem cap_drops_pending_frames :
    (chunkBody neverEos 0 1 generating).1.chunkLatents.length = 500 ∧
    (chunkBody neverEos 0 1 generating).1.chunkDecodedFrames < 500 ∧
    (batches (chunkBody neverEos 0 1 generating).2).flatten =
      (chunkBody neverEos 0 1 generating).1.chunkLatents.take
        (chunkBody neverEos 0 1 generating).1.chunkDecodedFrames ∧
    (chunkBody neverEos 0 1 generating).2.filter Msg.isLast = [] ∧
    (chunkBody neverEos 0 1 generating).1.chunkEnded = false :=
  chunkBody_cap neverEos 0 1 generating rfl rfl (by intro k; simp [neverEos]; norm_num) rfl rfl

/-- C21. Whatever the models answer and whenever a `stop` message or a failure occurs, the
step loop of a chunk executes at most `MAX_FRAMES = 500` steps and generates at most 500
frames; it generates exactly 500 when the run is neither cancelled nor failing and the
score never exceeds the threshold. -/
theorem step_loop_capped (env : Env L) (c n : Nat) (st : Loop L) :
    MAX_FRAMES = 500 ∧
    (visited env c n MAX_FRAMES 0 (chunkInit st)).length ≤ 500 ∧
    (arLoop env c n MAX_FRAMES 0 (chunkInit st)).1.chunkLatents.length ≤ 500 ∧
    (chunkBody env c n st).1.chunkLatents.length ≤ 500 ∧
    (env.stopAt = none → env.failAt = none → st.isGenerating = true →
      (∀ k, env.eosLogit c k ≤ -4) →
      (arLoop env c n MAX_FRAMES 0 (chunkInit st)).1.chunkLatents.length = 500) := by
  have h1 := visited_length env c n MAX_FRAMES 0 (chunkInit st)
  have h2 := arLoop_bound env c n MAX_FRAMES 0 (chunkInit st)
  have hl : (chunkInit st).chunkLatents.length = 0 := rfl
  rw [hl] at h2
  refine ⟨rfl, h1, by simpa [MAX_FRAMES] using h2, ?_, ?_⟩
  · obtain ⟨_, _, d3, _⟩ := deliver_fields env (Await.conditioning c) (chunkInit st)
    have h3 := arLoop_bound env c n MAX_FRAMES 0
      (deliver env (Await.conditioning c) (chunkInit st)).1
    rw [d3, hl] at h3
    unfold chunkBody
    simp only []
    split_ifs
    · simp only []; rw [d3, hl]; omega
    · simpa [MAX_FRAMES] using h3
    · simpa [MAX_FRAMES] using h3
  · intro hs hf hg hq
    rw [(arLoop_cap env c n hs hf hq MAX_FRAMES 0 (chunkInit st) hg rfl).1, hl]
    rfl

/-- C25. In an uncancelled, non-failing utterance of `N ≥ 1` chunks each of which ends by
end of speech (`e c` the first step of chunk `c` whose score exceeds the threshold), the
worker posts, between the start messages and the final ones, for each chunk in turn its
audio segments (at least one, none silent, carrying the chunk's `e c + 4` frames) followed,
for every chunk but the last, by one silence segment; so there are exactly `N - 1` silence
segments, each of 6000 zero samples and flagged `isSilence`. -/
theorem silence_between_chunks (env : Env L) (N : Nat) (e : Nat → Nat) (st : Loop L)
    (hs : env.stopAt = none) (hf : env.failAt = none) (hN : 0 < N)
    (heos : ∀ c, c < N → (∀ k, k < e c → env.eosLogit c k ≤ -4) ∧ env.eosLogit c (e c) > -4 ∧
      e c + 3 < MAX_FRAMES) :
    (∃ segs : Nat → List (Msg L),
      (∀ c, c < N → segs c ≠ [] ∧ AllDecoded (segs c) ∧
        (batches (segs c)).flatten = (List.range (e c + 4)).map (env.latent c)) ∧
      (startGeneration env N true st).2 =
        [Msg.status "running", Msg.generationStarted] ++
          ((List.range N).map (fun c => segs c ++ gapAfter c N)).flatten ++
          [Msg.status "idle", Msg.streamEnded, Msg.status "idle"]) ∧
    (startGeneration env N true st).2.filter Msg.isSilence =
      List.replicate (N - 1) (Msg.audioChunk (Audio.zeros 6000)
        { isFirst := false, isLast := false, chunkStart := false, isSilence := true }) := by
  obtain ⟨a1, a2, a3, segs, a4, a5⟩ := chunkLoop_eos env N e hs hf heos N 0
    { st with isGenerating := true, thrown := false, isFirstAudioChunk := true }
    (by omega) rfl rfl
  have hgap : (gapMsg : Msg L) = Msg.audioChunk (Audio.zeros 6000)
      { isFirst := false, isLast := false, chunkStart := false, isSilence := true } := by
    unfold gapMsg; rw [gapSamples_eq]
  have hout : (startGeneration env N true st).2 =
      [Msg.status "running", Msg.generationStarted] ++
        (chunkLoop env N N 0
          { st with isGenerating := true, thrown := false, isFirstAudioChunk := true }).2 ++
        [Msg.status "idle", Msg.streamEnded, Msg.status "idle"] := by
    unfold startGeneration tryGeneration runGenerationPipeline
    have hN0 : ¬ N = 0 := by omega
    simp only [hN0, if_false, Bool.not_true, Bool.false_eq_true, deliver_none env _ _ hs, hf,
      a1, a2, if_true]
    simp [a1, a2]
  rw [hout]
  constructor
  · refine ⟨segs, fun c hc => a4 c (Nat.zero_le _) hc, ?_⟩
    rw [a5, List.range_eq_range']
  · simp only [List.filter_append, a3, hgap]
    simp [Msg.isSilence]

theorem silence_between_chunks_witness :
    (∃ segs : Nat → List (Msg Nat),
      (∀ c, c < 2 → segs c ≠ [] ∧ AllDecoded (segs c) ∧
        (batches (segs c)).flatten = (List.range ((fun _ => 5) c + 4)).map ((eosFrom 5).latent c)) ∧
      (startGeneration (eosFrom 5) 2 true idle).2 =
        [Msg.status "running", Msg.generationStarted] ++
          ((List.range 2).map (fun c => segs c ++ gapAfter c 2)).flatten ++
          [Msg.status "idle", Msg.streamEnded, Msg.status "idle"]) ∧
    (startGeneration (eosFrom 5) 2 true idle).2.filter Msg.isSilence =
      List.replicate (2 - 1) (Msg.audioChunk (Audio.zeros 6000)
        { isFirst := false, isLast := false, chunkStart := false, isSilence := true }) :=
  silence_between_chunks (eosFrom 5) 2 (fun _ => 5) idle rfl rfl (by decide)
    (by intro c hc
        refine ⟨?_, by simp [eosFrom], by simp [MAX_FRAMES]⟩
        intro k hk
        simp [eosFrom, hk]
        norm_num)

/-- C27. At every step a chunk executes, in any run: a step that does not stop decodes
nothing, or one batch of exactly 3 frames if no segment of the utterance was posted before
(`isFirstAudioChunk`) and of exactly 12 frames otherwise, and leaves fewer than 12 frames
pending; a stopping step decodes all pending frames, at least one, in one batch. And in a
run that is neither cancelled nor failing the first batch of the utterance holds exactly 3
frames. -/
theorem frame_batching (env : Env L) (c n : Nat) (st : Loop L) :
    (∀ p ∈ visited env c n MAX_FRAMES 0 (chunkInit st),
      ((stepBody env c n p.1 p.2).2.2 = false →
        (batches (stepBody env c n p.1 p.2).2.1 = [] ∨
          ∃ b, batches (stepBody env c n p.1 p.2).2.1 = [b] ∧
            b.length = if p.2.isFirstAudioChunk then 3 else 12) ∧
        (stepBody env c n p.1 p.2).1.chunkLatents.length -
          (stepBody env c n p.1 p.2).1.chunkDecodedFrames < 12) ∧
      ((stepBody env c n p.1 p.2).2.2 = true →
        batches (stepBody env c n p.1 p.2).2.1 =
          [(p.2.chunkLatents ++ [env.latent c p.1]).drop p.2.chunkDecodedFrames] ∧
        1 ≤ ((p.2.chunkLatents ++ [env.latent c p.1]).drop p.2.chunkDecodedFrames).length ∧
        (stepBody env c n p.1 p.2).1.chunkDecodedFrames =
          (stepBody env c n p.1 p.2).1.chunkLatents.length)) ∧
    (env.stopAt = none → env.failAt = none →
      ∀ (N : Nat) (hasVoice : Bool) (s : Loop L) (b : List L),
        (batches (startGeneration env N hasVoice s).2).head? = some b → b.length = 3) := by
  constructor
  · intro p hp
    have hr := visited_ready env c n MAX_FRAMES 0 (chunkInit st) (chunkInit_ready st) p hp
    obtain ⟨g1, g2⟩ := stepBody_ready env c n p.1 p.2 hr
    constructor
    · intro hgo
      obtain ⟨⟨r1, r2, r3, r4⟩, q⟩ := g1 hgo
      refine ⟨?_, by rw [r1]; exact r3⟩
      rcases q with ⟨e1, _⟩ | ⟨b, e1, e2, _⟩
      · exact Or.inl e1
      · exact Or.inr ⟨b, e1, e2⟩
    · intro hstop
      obtain ⟨_, q2, q3, q4, _⟩ := g2 hstop
      exact ⟨q2, q3, q4⟩
  · intro hs hf N hasVoice s b hb
    by_cases hN : N = 0
    · subst hN
      simp [startGeneration, tryGeneration, batches] at hb
    · by_cases hv : hasVoice = true
      · subst hv
        apply chunkLoop_first env N hs hf N 0
          { s with isGenerating := true, thrown := false, isFirstAudioChunk := true } rfl rfl b
        unfold startGeneration at hb
        rw [tryGeneration_plain env N hs hf hN _ rfl] at hb
        have e1 : batches ([Msg.status "running", Msg.generationStarted] : List (Msg L)) = [] := rfl
        have e2 : batches ([Msg.status "idle"] : List (Msg L)) = [] := rfl
        have e4 : ∀ g : Bool, batches (if g = true then
            [Msg.streamEnded, Msg.status "idle"] else ([] : List (Msg L))) = [] := by
          intro g; cases g <;> rfl
        have e5 : ∀ g : Bool, batches (if g = true then
            [Msg.error] else ([] : List (Msg L))) = [] := by
          intro g; cases g <;> rfl
        simp only [batches_append, e1, e2, e4, e5, List.nil_append, List.append_nil] at hb
        exact hb
      · have hv' : hasVoice = false := by simpa using hv
        subst hv'
        simp [startGeneration, tryGeneration, hN, batches] at hb

end InferenceWorker

/-! ## The stream coordinator: `PocketTTSStreaming` (main thread) -/

namespace StreamCoordinator

/-- Line 7 of `onnx-streaming.js`. -/
def REALTIME_THRESHOLD : ℚ := 1.0

/-- The values of `playbackMode`. -/
inductive PlaybackMode where
  | pending
  | stream
  | bufferAll
  deriving DecidableEq, Repr

/-- The `metrics` object of an `audio_chunk` message, as far as `handleAudioChunk` reads it;
an absent flag is `false`, an absent `genTimeSec` is `none`. -/
structure Metrics where
  isSilence : Bool
  isFirst : Bool
  isLast : Bool
  chunkStart : Bool
  chunkDuration : ℚ
  genTimeSec : Option ℚ

/-- The fields of `PocketTTSStreaming` that the audio path reads and writes; numbers are
rationals, times are readings of `performance.now()` in milliseconds. -/
structure State (A : Type) where
  isGenerating : Bool
  generationStartTime : ℚ
  lastChunkFinishTime : ℚ
  rtfMovingAverage : ℚ
  skipNextRtf : Bool
  edgeOptimizationApplied : Bool
  playbackMode : PlaybackMode
  bufferedChunks : List A
  deferStreamEnd : Bool

/-- What the coordinator does to its collaborators: calls of the player and messages posted
to the worker. -/
inductive Effect (A : Type) where
  | playAudio (audioData : A)
  | notifyStreamEnded
  | playerReset
  | setLsd (lsd : Nat)
  | generate
  deriving DecidableEq, Repr

/-- The two in-place fades of lines 420-433, as functions on the audio data. -/
structure Fades (A : Type) where
  applyFadeIn : A → A
  applyFadeOut : A → A

variable {A : Type}

/-- Lines 376-407 of `startGeneration`: the path that starts a generation (worker ready, not
generating, text not empty). -/
def startGeneration (s : State A) : State A × List (Effect A) :=
  ({ s with
      isGenerating := true
      rtfMovingAverage := 0
      edgeOptimizationApplied := false
      lastChunkFinishTime := 0
      skipNextRtf := false
      playbackMode := PlaybackMode.pending
      bufferedChunks := []
      deferStreamEnd := false },
    [Effect.playerReset, Effect.generate])

/-- Lines 435-441. -/
def bufferOrPlay (s : State A) (audioData : A) : State A × List (Effect A) :=
  if s.playbackMode = PlaybackMode.stream then (s, [Effect.playAudio audioData])
  else ({ s with bufferedChunks := s.bufferedChunks ++ [audioData] }, [])

/-- Lines 443-449. -/
def flushBufferedAudio (s : State A) : State A × List (Effect A) :=
  if s.bufferedChunks.length = 0 then (s, [])
  else ({ s with bufferedChunks := [] }, s.bufferedChunks.map Effect.playAudio)

/-- Lines 451-455. -/
def switchToStream (s : State A) : State A × List (Effect A) :=
  flushBufferedAudio { s with playbackMode := PlaybackMode.stream }

/-- Lines 457-460. -/
def switchToBufferAll (s : State A) : State A :=
  { s with playbackMode := PlaybackMode.bufferAll }

/-- Lines 487-500: the arrival bookkeeping of a non-silence segment; the new state and
`arrivalRTF`. -/
def arrival (s : State A) (metrics : Metrics) (now : ℚ) : State A × ℚ :=
  if metrics.isFirst then ({ s with lastChunkFinishTime := now }, 0)
  else if s.skipNextRtf then ({ s with lastChunkFinishTime := now, skipNextRtf := false }, 0)
  else if s.lastChunkFinishTime > 0 then
    let timeSinceLastChunk := (now - s.lastChunkFinishTime) / 1000
    ({ s with lastChunkFinishTime := now },
      if timeSinceLastChunk > 0 then metrics.chunkDuration / timeSinceLastChunk else 0)
  else (s, 0)

/-- Lines 503-508: `instantaneousRTF`. -/
def instantaneous (metrics : Metrics) (arrivalRTF : ℚ) : ℚ :=
  match metrics.genTimeSec with
  | some g =>
    if g ≠ 0 ∧ g > 0 then metrics.chunkDuration / g
    else if arrivalRTF > 0 then arrivalRTF else 0
  | none => if arrivalRTF > 0 then arrivalRTF else 0

/-- Line 516: `edgeRtf`. -/
def edgeRtf (arrivalRTF instantaneousRTF : ℚ) : ℚ :=
  if arrivalRTF > 0 then arrivalRTF else instantaneousRTF

/-- Lines 509-522: the moving average and the one-time quality reduction. -/
def control (s : State A) (arrivalRTF instantaneousRTF : ℚ) : State A × List (Effect A) :=
  if instantaneousRTF > 0 then
    let s := { s with
      rtfMovingAverage :=
        if s.rtfMovingAverage = 0 then instantaneousRTF
        else s.rtfMovingAverage * 0.8 + instantaneousRTF * 0.2 }
    if !s.edgeOptimizationApplied && decide (edgeRtf arrivalRTF instantaneousRTF < REALTIME_THRESHOLD)
    then ({ s with edgeOptimizationApplied := true }, [Effect.setLsd 1])
    else (s, [])
  else (s, [])

/-- Lines 524-530: leaving the `pending` mode. -/
def chooseMode (s : State A) (metrics : Metrics) (instantaneousRTF : ℚ) :
    State A × List (Effect A) :=
  if s.playbackMode = PlaybackMode.pending then
    if instantaneousRTF ≥ REALTIME_THRESHOLD then switchToStream s
    else if !metrics.isFirst && s.edgeOptimizationApplied &&
        decide (instantaneousRTF < REALTIME_THRESHOLD) then
      (switchToBufferAll s, [])
    else (s, [])
  else (s, [])

/-- Lines 477-478: the fades applied to a non-silence segment. -/
def faded (f : Fades A) (audioData : A) (metrics : Metrics) : A :=
  let a := if metrics.isFirst || metrics.chunkStart then f.applyFadeIn audioData else audioData
  if metrics.isLast then f.applyFadeOut a else a

/-- Lines 468-532 of `handleAudioChunk` (the display update of lines 534-547 is left out);
`now` is the reading of `performance.now()`. -/
def handleAudioChunk (f : Fades A) (s : State A) (audioData : A) (metrics : Metrics) (now : ℚ) :
    State A × List (Effect A) :=
  if !s.isGenerating then (s, [])
  else if metrics.isSilence then
    let r := bufferOrPlay s audioData
    ({ r.1 with skipNextRtf := true }, r.2)
  else
    let audioData := faded f audioData metrics
    let arr := arrival s metrics now
    let instantaneousRTF := instantaneous metrics arr.2
    let ctl := control arr.1 arr.2 instantaneousRTF
    let mode := chooseMode ctl.1 metrics instantaneousRTF
    let play := bufferOrPlay mode.1 audioData
    (play.1, ctl.2 ++ mode.2 ++ play.2)

/-- Lines 462-466: `finalizePlayback`. -/
def finalizePlayback (s : State A) : State A := { s with isGenerating := false }

/-- Lines 550-564. -/
def handleStreamEnd (s : State A) : State A × List (Effect A) :=
  let s := if s.playbackMode = PlaybackMode.pending then switchToBufferAll s else s
  if s.playbackMode = PlaybackMode.bufferAll then
    let r := flushBufferedAudio s
    ({ r.1 with deferStreamEnd := true }, r.2 ++ [Effect.notifyStreamEnded])
  else (finalizePlayback s, [Effect.notifyStreamEnded])

/-- A segment as it arrives: the audio data, its metrics, and the clock reading when it is
handled. -/
structure Segment (A : Type) where
  audioData : A
  metrics : Metrics
  now : ℚ

/-- The segments of a list handled in order: the final state and all effects. -/
def handleAll (f : Fades A) (s : State A) : List (Segment A) → State A × List (Effect A)
  | [] => (s, [])
  | seg :: rest =>
    let r := handleAudioChunk f s seg.audioData seg.metrics seg.now
    let more := handleAll f r.1 rest
    (more.1, r.2 ++ more.2)

/-- The audio handed to `player.playAudio`, in call order. -/
def played : List (Effect A) → List A
  | [] => []
  | .playAudio a :: rest => a :: played rest
  | _ :: rest => played rest

/-- The `set_lsd` commands posted to the worker, in order. -/
def lsdCommands : List (Effect A) → List Nat
  | [] => []
  | .setLsd n :: rest => n :: lsdCommands rest
  | _ :: rest => lsdCommands rest

/-- A segment as `bufferOrPlay` receives it: a silence gap as it is, any other segment after
the fades. -/
def forwarded (f : Fades A) (seg : Segment A) : A :=
  if seg.metrics.isSilence then seg.audioData else faded f seg.audioData seg.metrics

/-- The fades that leave the audio as it is. -/
def noFades : Fades (List ℚ) := { applyFadeIn := id, applyFadeOut := id }

/-- A coordinator before its first generation. -/
def idle : State (List ℚ) :=
  { isGenerating := false, generationStartTime := 0, lastChunkFinishTime := 0
    rtfMovingAverage := 0, skipNextRtf := false, edgeOptimizationApplied := false
    playbackMode := PlaybackMode.pending, bufferedChunks := [], deferStreamEnd := false }

/-- A first segment of 0.24 s of audio that took 0.48 s to generate (RTF 0.5), as the
worker reports it. -/
def slowFirst : Segment (List ℚ) :=
  { audioData := [1, 2, 3]
    metrics := { isSilence := false, isFirst := true, isLast := false, chunkStart := true
                 chunkDuration := 0.24, genTimeSec := some 0.48 }
    now := 480 }

/-- A first segment without a reported generation time. -/
def untimedFirst : Segment (List ℚ) :=
  { audioData := [1, 2, 3]
    metrics := { isSilence := false, isFirst := true, isLast := false, chunkStart := true
                 chunkDuration := 0.24, genTimeSec := none }
    now := 480 }

/-- A second segment of 0.96 s of audio arriving 1920 ms after the first one (arrival RTF
0.5), without a reported generation time. -/
def untimedSecond : Segment (List ℚ) :=
  { audioData := [4, 5]
    metrics := { isSilence := false, isFirst := false, isLast := false, chunkStart := false
                 chunkDuration := 0.96, genTimeSec := none }
    now := 2400 }

/-- A silence gap between two chunks. -/
def gap : Segment (List ℚ) :=
  { audioData := [0, 0]
    metrics := { isSilence := true, isFirst := false, isLast := false, chunkStart := false
                 chunkDuration := 0.25, genTimeSec := none }
    now := 500 }

/-- Whether handling the segment in this state sends the quality reduction: the segment is
handled, is no silence gap, its instantaneous RTF is known and its edge RTF is below the
threshold, and no reduction was applied before. -/
def reduces (s : State A) (seg : Segment A) : Bool :=
  s.isGenerating && !seg.metrics.isSilence && !s.edgeOptimizationApplied &&
    decide (instantaneous seg.metrics (arrival s seg.metrics seg.now).2 > 0) &&
    decide (edgeRtf (arrival s seg.metrics seg.now).2
      (instantaneous seg.metrics (arrival s seg.metrics seg.now).2) < REALTIME_THRESHOLD)

/-- Along a run, for each segment whether it `reduces` in the state in which it is
handled. -/
def reductions (f : Fades A) (s : State A) : List (Segment A) → List Bool
  | [] => []
  | seg :: rest =>
    reduces s seg :: reductions f (handleAudioChunk f s seg.audioData seg.metrics seg.now).1 rest

/-- What reaches the coordinator from the worker during a generation. -/
inductive Event (A : Type) where
  | audioChunk (seg : Segment A)
  | streamEnded

/-- The handler of worker messages (lines 152-157). -/
def handleEvent (f : Fades A) (s : State A) : Event A → State A × List (Effect A)
  | .audioChunk seg => handleAudioChunk f s seg.audioData seg.metrics seg.now
  | .streamEnded => handleStreamEnd s

/-- The events of a list handled in order: the final state and all effects. -/
def handleEvents (f : Fades A) (s : State A) : List (Event A) → State A × List (Effect A)
  | [] => (s, [])
  | e :: rest =>
    let r := handleEvent f s e
    let more := handleEvents f r.1 rest
    (more.1, r.2 ++ more.2)

/-- Along a run, whether some segment `reduces` in the state in which it is handled. -/
def someReduces (f : Fades A) (s : State A) : List (Event A) → Bool
  | [] => false
  | .audioChunk seg :: rest =>
    reduces s seg || someReduces f (handleEvent f s (.audioChunk seg)).1 rest
  | .streamEnded :: rest => someReduces f (handleEvent f s .streamEnded).1 rest

/-- A second segment of 0.96 s of audio that took 1.92 s to generate (RTF 0.5). -/
def slowSecond : Segment (List ℚ) :=
  { audioData := [4, 5]
    metrics := { isSilence := false, isFirst := false, isLast := false, chunkStart := false
                 chunkDuration := 0.96, genTimeSec := some 1.92 }
    now := 2400 }

/-! ### Lemmas -/


theorem played_append (xs ys : List (Effect A)) : played (xs ++ ys) = played xs ++ played ys := by
  induction xs with
  | nil => rfl
  | cons x xs ih => cases x <;> simp [played, ih]

theorem lsdCommands_append (xs ys : List (Effect A)) :
    lsdCommands (xs ++ ys) = lsdCommands xs ++ lsdCommands ys := by
  induction xs with
  | nil => rfl
  | cons x xs ih => cases x <;> simp [lsdCommands, ih]

theorem played_map (xs : List A) : played (xs.map Effect.playAudio) = xs := by
  induction xs with
  | nil => rfl
  | cons x xs ih => simp [played, ih]

theorem lsdCommands_map (xs : List A) : lsdCommands (xs.map Effect.playAudio) = [] := by
  induction xs with
  | nil => rfl
  | cons x xs ih => simp [lsdCommands, ih]

theorem arrival_frame (s : State A) (m : Metrics) (now : ℚ) :
    (arrival s m now).1.isGenerating = s.isGenerating ∧
    (arrival s m now).1.playbackMode = s.playbackMode ∧
    (arrival s m now).1.bufferedChunks = s.bufferedChunks ∧
    (arrival s m now).1.edgeOptimizationApplied = s.edgeOptimizationApplied := by
  unfold arrival
  split_ifs <;> exact ⟨rfl, rfl, rfl, rfl⟩

theorem control_frame (s : State A) (x y : ℚ) :
    (control s x y).1.isGenerating = s.isGenerating ∧
    (control s x y).1.playbackMode = s.playbackMode ∧
    (control s x y).1.bufferedChunks = s.bufferedChunks ∧
    played (control s x y).2 = [] ∧
    ((control s x y).2 = [] ∨ (control s x y).2 = [Effect.setLsd 1]) := by
  unfold control
  simp only []
  split_ifs <;> simp [played]

theorem flushBufferedAudio_spec (s : State A) :
    (flushBufferedAudio s).1 = { s with bufferedChunks := [] } ∧
    played (flushBufferedAudio s).2 = s.bufferedChunks ∧
    lsdCommands (flushBufferedAudio s).2 = [] := by
  unfold flushBufferedAudio
  split_ifs with h
  · have : s.bufferedChunks = [] := List.length_eq_zero.mp h
    refine ⟨?_, by simp [played, this], rfl⟩
    rw [← this]
  · exact ⟨rfl, played_map _, lsdCommands_map _⟩

theorem chooseMode_frame (s : State A) (m : Metrics) (x : ℚ) :
    (chooseMode s m x).1.isGenerating = s.isGenerating ∧
    (chooseMode s m x).1.edgeOptimizationApplied = s.edgeOptimizationApplied ∧
    lsdCommands (chooseMode s m x).2 = [] ∧
    (s.playbackMode ≠ PlaybackMode.pending → chooseMode s m x = (s, [])) := by
  unfold chooseMode switchToStream switchToBufferAll
  obtain ⟨f1, _, f3⟩ := flushBufferedAudio_spec { s with playbackMode := PlaybackMode.stream }
  split_ifs with h1 h2 h3
  · rw [f1]; exact ⟨rfl, rfl, f3, fun h => absurd h1 h⟩
  · exact ⟨rfl, rfl, rfl, fun h => absurd h1 h⟩
  · exact ⟨rfl, rfl, rfl, fun h => absurd h1 h⟩
  · exact ⟨rfl, rfl, rfl, fun _ => rfl⟩

/-- What is played and what stays buffered when the mode is chosen. -/
theorem chooseMode_keeps (s : State A) (m : Metrics) (x : ℚ)
    (hs : s.playbackMode = PlaybackMode.stream → s.bufferedChunks = []) :
    played (chooseMode s m x).2 ++ (chooseMode s m x).1.bufferedChunks = s.bufferedChunks ∧
    ((chooseMode s m x).1.playbackMode = PlaybackMode.stream →
      (chooseMode s m x).1.bufferedChunks = []) ∧
    ((chooseMode s m x).1.playbackMode ≠ PlaybackMode.stream →
      played (chooseMode s m x).2 = [] ∧ s.playbackMode ≠ PlaybackMode.stream) ∧
    (s.playbackMode = PlaybackMode.stream →
      (chooseMode s m x).1.playbackMode = PlaybackMode.stream) := by
  unfold chooseMode switchToStream switchToBufferAll
  obtain ⟨f1, f2, _⟩ := flushBufferedAudio_spec { s with playbackMode := PlaybackMode.stream }
  split_ifs with h1 h2 h3
  · rw [f1, f2]
    simp
  · simp [played, h1]
  · simp [played, h1]
  · refine ⟨by simp [played], hs, ?_, fun h => h⟩
    intro h
    exact ⟨rfl, h⟩

theorem bufferOrPlay_keeps (s : State A) (a : A)
    (hs : s.playbackMode = PlaybackMode.stream → s.bufferedChunks = []) :
    played (bufferOrPlay s a).2 ++ (bufferOrPlay s a).1.bufferedChunks = s.bufferedChunks ++ [a] ∧
    (bufferOrPlay s a).1.playbackMode = s.playbackMode ∧
    (bufferOrPlay s a).1.isGenerating = s.isGenerating ∧
    ((bufferOrPlay s a).1.playbackMode = PlaybackMode.stream →
      (bufferOrPlay s a).1.bufferedChunks = []) ∧
    (s.playbackMode ≠ PlaybackMode.stream → played (bufferOrPlay s a).2 = []) ∧
    lsdCommands (bufferOrPlay s a).2 = [] := by
  unfold bufferOrPlay
  split_ifs with h
  · simp [played, hs h, h, lsdCommands]
  · simp [played, h, lsdCommands]

/-- One segment handled during a generation: what was played and what is buffered. -/
theorem handleAudioChunk_keeps (f : Fades A) (s : State A) (seg : Segment A)
    (hg : s.isGenerating = true)
    (hs : s.playbackMode = PlaybackMode.stream → s.bufferedChunks = []) :
    played (handleAudioChunk f s seg.audioData seg.metrics seg.now).2 ++
        (handleAudioChunk f s seg.audioData seg.metrics seg.now).1.bufferedChunks =
      s.bufferedChunks ++ [forwarded f seg] ∧
    (handleAudioChunk f s seg.audioData seg.metrics seg.now).1.isGenerating = true ∧
    ((handleAudioChunk f s seg.audioData seg.metrics seg.now).1.playbackMode =
        PlaybackMode.stream →
      (handleAudioChunk f s seg.audioData seg.metrics seg.now).1.bufferedChunks = []) ∧
    ((handleAudioChunk f s seg.audioData seg.metrics seg.now).1.playbackMode ≠
        PlaybackMode.stream →
      played (handleAudioChunk f s seg.audioData seg.metrics seg.now).2 = [] ∧
      s.playbackMode ≠ PlaybackMode.stream) := by
  unfold handleAudioChunk forwarded
  simp only [hg, Bool.not_true, Bool.false_eq_true, if_false]
  by_cases hsil : seg.metrics.isSilence = true
  · simp only [hsil, if_true]
    obtain ⟨b1, b2, b3, b4, b5, _⟩ := bufferOrPlay_keeps s seg.audioData hs
    refine ⟨b1, by rw [b3]; exact hg, b4, ?_⟩
    intro h
    have h2 : s.playbackMode ≠ PlaybackMode.stream := by
      intro e; apply h; rw [b2]; exact e
    exact ⟨b5 h2, h2⟩
  · simp only [hsil, Bool.false_eq_true, if_false]
    obtain ⟨a1, a2, a3, _⟩ := arrival_frame s seg.metrics seg.now
    obtain ⟨c1, c2, c3, c4, _⟩ := control_frame (arrival s seg.metrics seg.now).1
      (arrival s seg.metrics seg.now).2 (instantaneous seg.metrics (arrival s seg.metrics seg.now).2)
    have hs2 : (control (arrival s seg.metrics seg.now).1 (arrival s seg.metrics seg.now).2
        (instantaneous seg.metrics (arrival s seg.metrics seg.now).2)).1.playbackMode =
          PlaybackMode.stream →
        (control (arrival s seg.metrics seg.now).1 (arrival s seg.metrics seg.now).2
          (instantaneous seg.metrics (arrival s seg.metrics seg.now).2)).1.bufferedChunks = [] := by
      rw [c2, c3, a2, a3]; exact hs
    obtain ⟨m1, m2, m3, m4⟩ := chooseMode_keeps _ seg.metrics
      (instantaneous seg.metrics (arrival s seg.metrics seg.now).2) hs2
    obtain ⟨d1, _, d3, _⟩ := chooseMode_frame (control (arrival s seg.metrics seg.now).1
      (arrival s seg.metrics seg.now).2
      (instantaneous seg.metrics (arrival s seg.metrics seg.now).2)).1 seg.metrics
      (instantaneous seg.metrics (arrival s seg.metrics seg.now).2)
    obtain ⟨b1, b2, b3, b4, b5, _⟩ := bufferOrPlay_keeps _ (faded f seg.audioData seg.metrics) m2
    refine ⟨?_, ?_, b4, ?_⟩
    · simp only [played_append, c4, List.nil_append, List.append_assoc]
      rw [b1, ← List.append_assoc, m1, c3, a3]
    · rw [b3, d1, c1, a1]; exact hg
    · intro h
      rw [b2] at h
      obtain ⟨n1, n2⟩ := m3 h
      rw [c2, a2] at n2
      refine ⟨?_, n2⟩
      simp only [played_append, c4, n1, b5 h, List.append_nil]

/-- All segments handled during a generation. -/
theorem handleAll_keeps (f : Fades A) (s : State A) (segs : List (Segment A))
    (hg : s.isGenerating = true)
    (hs : s.playbackMode = PlaybackMode.stream → s.bufferedChunks = []) :
    played (handleAll f s segs).2 ++ (handleAll f s segs).1.bufferedChunks =
      s.bufferedChunks ++ segs.map (forwarded f) ∧
    (handleAll f s segs).1.isGenerating = true ∧
    ((handleAll f s segs).1.playbackMode = PlaybackMode.stream →
      (handleAll f s segs).1.bufferedChunks = []) ∧
    ((handleAll f s segs).1.playbackMode ≠ PlaybackMode.stream →
      played (handleAll f s segs).2 = [] ∧ s.playbackMode ≠ PlaybackMode.stream) := by
  induction segs generalizing s with
  | nil =>
    simp only [handleAll, played, List.map_nil, List.append_nil, List.nil_append]
    exact ⟨trivial, hg, hs, fun h => ⟨trivial, h⟩⟩
  | cons seg segs ih =>
    obtain ⟨k1, k2, k3, k4⟩ := handleAudioChunk_keeps f s seg hg hs
    obtain ⟨i1, i2, i3, i4⟩ := ih (handleAudioChunk f s seg.audioData seg.metrics seg.now).1 k2 k3
    simp only [handleAll, played_append, List.map_cons]
    refine ⟨?_, i2, i3, ?_⟩
    · rw [List.append_assoc, i1, ← List.append_assoc, k1]
      simp
    · intro h
      obtain ⟨h3, h4⟩ := i4 h
      obtain ⟨h5, h6⟩ := k4 h4
      rw [h3, h5]
      exact ⟨rfl, h6⟩

/-! ### The claims -/

/-- C22. For every sequence of segments handled during one utterance and followed by
`handleStreamEnd`, the audio handed to `player.playAudio` is the received sequence in the
same order, each segment once (a silence gap as it is, any other segment after its fades);
and unless the mode became `stream`, nothing was handed to the player before
`handleStreamEnd`. -/
theorem delivery_in_order (f : Fades A) (s0 : State A) (segs : List (Segment A)) :
    played ((handleAll f (startGeneration s0).1 segs).2 ++
        (handleStreamEnd (handleAll f (startGeneration s0).1 segs).1).2) =
      segs.map (forwarded f) ∧
    ((handleAll f (startGeneration s0).1 segs).1.playbackMode ≠ PlaybackMode.stream →
      played (handleAll f (startGeneration s0).1 segs).2 = [] ∧
      (handleStreamEnd (handleAll f (startGeneration s0).1 segs).1).1.playbackMode =
        PlaybackMode.bufferAll) := by
  obtain ⟨k1, _, k3, k4⟩ := handleAll_keeps f (startGeneration s0).1 segs rfl
    (by intro h; rfl)
  have hb0 : (startGeneration s0).1.bufferedChunks = [] := rfl
  rw [hb0, List.nil_append] at k1
  rw [played_append]
  cases hm : (handleAll f (startGeneration s0).1 segs).1.playbackMode with
  | stream =>
    have hb := k3 hm
    rw [hb, List.append_nil] at k1
    refine ⟨?_, fun h => absurd rfl h⟩
    unfold handleStreamEnd
    simp [hm, played, k1]
  | pending =>
    have hp := (k4 (by rw [hm]; simp)).1
    rw [hp, List.nil_append] at k1
    refine ⟨?_, fun _ => ⟨hp, ?_⟩⟩
    · unfold handleStreamEnd switchToBufferAll
      simp only [hm, if_true]
      obtain ⟨_, f2, _⟩ := flushBufferedAudio_spec
        { (handleAll f (startGeneration s0).1 segs).1 with playbackMode := PlaybackMode.bufferAll }
      rw [played_append, f2, hp]
      simp [played, k1]
    · unfold handleStreamEnd switchToBufferAll
      simp only [hm, if_true]
      rw [(flushBufferedAudio_spec _).1]
  | bufferAll =>
    have hp := (k4 (by rw [hm]; simp)).1
    rw [hp, List.nil_append] at k1
    refine ⟨?_, fun _ => ⟨hp, ?_⟩⟩
    · unfold handleStreamEnd switchToBufferAll
      simp only [hm, if_true]
      simp only [reduceCtorEq, if_false, if_true, hm]
      obtain ⟨_, f2, _⟩ := flushBufferedAudio_spec (handleAll f (startGeneration s0).1 segs).1
      rw [played_append, f2, hp]
      simp [played, k1]
    · unfold handleStreamEnd switchToBufferAll
      simp only [hm, reduceCtorEq, if_false, if_true]
      rw [(flushBufferedAudio_spec _).1]
      exact hm


/-- With `skipNextRtf` set, a segment that is no silence gap is handled without reading
`lastChunkFinishTime`. -/
theorem handleAudioChunk_skip (f : Fades A) (u : State A) (next : A) (m2 : Metrics)
    (now2 t : ℚ) (hu : u.skipNextRtf = true) (hg : u.isGenerating = true)
    (hm2 : m2.isSilence = false) :
    (arrival u m2 now2).2 = 0 ∧
    handleAudioChunk f { u with lastChunkFinishTime := t } next m2 now2 =
      handleAudioChunk f u next m2 now2 := by
  have harr : arrival { u with lastChunkFinishTime := t } m2 now2 = arrival u m2 now2 ∧
      (arrival u m2 now2).2 = 0 := by
    unfold arrival
    by_cases h1 : m2.isFirst = true
    · simp [h1]
    · simp [h1, hu]
  refine ⟨harr.2, ?_⟩
  unfold handleAudioChunk
  rw [harr.1]
  simp only [hg, hm2, Bool.not_true, Bool.false_eq_true, if_false]

/-- C26. Handling a silence gap during a generation leaves `rtfMovingAverage`,
`edgeOptimizationApplied`, `playbackMode` and `lastChunkFinishTime` as they were, sends no
`set_lsd`, and forwards the segment, without fades, for playback: in the `stream` mode the
only effect is `player.playAudio` with the segment and the buffer is left alone; in the other
modes nothing is done now and the segment is appended to `bufferedChunks`, so that the next
flush plays the earlier buffered segments and then this one. For the next segment that is no
silence gap the arrival RTF is `0` and the outcome does not depend on `lastChunkFinishTime`,
the start of the interval that spans the gap. -/
theorem silence_bypasses_rtf (f : Fades A) (s : State A) (audioData : A) (m : Metrics) (now : ℚ)
    (hg : s.isGenerating = true) (hsil : m.isSilence = true) :
    (handleAudioChunk f s audioData m now).1.rtfMovingAverage = s.rtfMovingAverage ∧
    (handleAudioChunk f s audioData m now).1.edgeOptimizationApplied =
      s.edgeOptimizationApplied ∧
    (handleAudioChunk f s audioData m now).1.playbackMode = s.playbackMode ∧
    (handleAudioChunk f s audioData m now).1.lastChunkFinishTime = s.lastChunkFinishTime ∧
    lsdCommands (handleAudioChunk f s audioData m now).2 = [] ∧
    (handleAudioChunk f s audioData m now).2 = (bufferOrPlay s audioData).2 ∧
    (handleAudioChunk f s audioData m now).1.bufferedChunks =
      (bufferOrPlay s audioData).1.bufferedChunks ∧
    (s.playbackMode = PlaybackMode.stream →
      (handleAudioChunk f s audioData m now).2 = [Effect.playAudio audioData] ∧
      played (handleAudioChunk f s audioData m now).2 = [audioData] ∧
      (handleAudioChunk f s audioData m now).1.bufferedChunks = s.bufferedChunks) ∧
    (s.playbackMode ≠ PlaybackMode.stream →
      (handleAudioChunk f s audioData m now).2 = [] ∧
      (handleAudioChunk f s audioData m now).1.bufferedChunks =
        s.bufferedChunks ++ [audioData] ∧
      played (flushBufferedAudio (handleAudioChunk f s audioData m now).1).2 =
        s.bufferedChunks ++ [audioData]) ∧
    ∀ (next : A) (m2 : Metrics) (now2 t : ℚ), m2.isSilence = false →
      (arrival (handleAudioChunk f s audioData m now).1 m2 now2).2 = 0 ∧
      handleAudioChunk f
          { (handleAudioChunk f s audioData m now).1 with lastChunkFinishTime := t } next m2 now2 =
        handleAudioChunk f (handleAudioChunk f s audioData m now).1 next m2 now2 := by
  have hr : handleAudioChunk f s audioData m now =
      ({ (bufferOrPlay s audioData).1 with skipNextRtf := true }, (bufferOrPlay s audioData).2) := by
    unfold handleAudioChunk
    simp [hg, hsil]
  have hb : (bufferOrPlay s audioData).1.rtfMovingAverage = s.rtfMovingAverage ∧
      (bufferOrPlay s audioData).1.edgeOptimizationApplied = s.edgeOptimizationApplied ∧
      (bufferOrPlay s audioData).1.playbackMode = s.playbackMode ∧
      (bufferOrPlay s audioData).1.lastChunkFinishTime = s.lastChunkFinishTime ∧
      lsdCommands (bufferOrPlay s audioData).2 = [] := by
    unfold bufferOrPlay
    split_ifs <;> simp [lsdCommands]
  rw [hr]
  refine ⟨hb.1, hb.2.1, hb.2.2.1, hb.2.2.2.1, hb.2.2.2.2, rfl, rfl, ?_, ?_, ?_⟩
  · intro hmode
    simp only [bufferOrPlay, hmode, if_true, played]
    exact ⟨trivial, trivial, trivial⟩
  · intro hmode
    have hflush := (flushBufferedAudio_spec
      { (bufferOrPlay s audioData).1 with skipNextRtf := true }).2.1
    simp only [bufferOrPlay, hmode, if_false] at hflush ⊢
    exact ⟨trivial, trivial, hflush⟩
  · intro next m2 now2 t hm2
    have hg2 : (bufferOrPlay s audioData).1.isGenerating = true := by
      unfold bufferOrPlay; split_ifs <;> exact hg
    exact handleAudioChunk_skip f _ next m2 now2 t rfl hg2 hm2

/-- Witness of C26: the silence gap `gap` handled right after the start of a generation, in
the `pending` mode. -/
theorem silence_bypasses_rtf_witness :
    ((startGeneration idle).1.isGenerating = true ∧ gap.metrics.isSilence = true) ∧
    (
      (handleAudioChunk noFades (startGeneration idle).1 gap.audioData gap.metrics gap.now).1.rtfMovingAverage = (startGeneration idle).1.rtfMovingAverage ∧
      (handleAudioChunk noFades (startGeneration idle).1 gap.audioData gap.metrics gap.now).1.edgeOptimizationApplied =
        (startGeneration idle).1.edgeOptimizationApplied ∧
      (handleAudioChunk noFades (startGeneration idle).1 gap.audioData gap.metrics gap.now).1.playbackMode = (startGeneration idle).1.playbackMode ∧
      (handleAudioChunk noFades (startGeneration idle).1 gap.audioData gap.metrics gap.now).1.lastChunkFinishTime = (startGeneration idle).1.lastChunkFinishTime ∧
      lsdCommands (handleAudioChunk noFades (startGeneration idle).1 gap.audioData gap.metrics gap.now).2 = [] ∧
      (handleAudioChunk noFades (startGeneration idle).1 gap.audioData gap.metrics gap.now).2 = (bufferOrPlay (startGeneration idle).1 gap.audioData).2 ∧
      (handleAudioChunk noFades (startGeneration idle).1 gap.audioData gap.metrics gap.now).1.bufferedChunks =
        (bufferOrPlay (startGeneration idle).1 gap.audioData).1.bufferedChunks ∧
      ((startGeneration idle).1.playbackMode = PlaybackMode.stream →
        (handleAudioChunk noFades (startGeneration idle).1 gap.audioData gap.metrics gap.now).2 = [Effect.playAudio gap.audioData] ∧
        played (handleAudioChunk noFades (startGeneration idle).1 gap.audioData gap.metrics gap.now).2 = [gap.audioData] ∧
        (handleAudioChunk noFades (startGeneration idle).1 gap.audioData gap.metrics gap.now).1.bufferedChunks = (startGeneration idle).1.bufferedChunks) ∧
      ((startGeneration idle).1.playbackMode ≠ PlaybackMode.stream →
        (handleAudioChunk noFades (startGeneration idle).1 gap.audioData gap.metrics gap.now).2 = [] ∧
        (handleAudioChunk noFades (startGeneration idle).1 gap.audioData gap.metrics gap.now).1.bufferedChunks =
          (startGeneration idle).1.bufferedChunks ++ [gap.audioData] ∧
        played (flushBufferedAudio (handleAudioChunk noFades (startGeneration idle).1 gap.audioData gap.metrics gap.now).1).2 =
          (startGeneration idle).1.bufferedChunks ++ [gap.audioData]) ∧
      ∀ (next : List ℚ) (m2 : Metrics) (now2 t : ℚ), m2.isSilence = false →
        (arrival (handleAudioChunk noFades (startGeneration idle).1 gap.audioData gap.metrics gap.now).1 m2 now2).2 = 0 ∧
        handleAudioChunk noFades
            { (handleAudioChunk noFades (startGeneration idle).1 gap.audioData gap.metrics gap.now).1 with lastChunkFinishTime := t } next m2 now2 =
          handleAudioChunk noFades (handleAudioChunk noFades (startGeneration idle).1 gap.audioData gap.metrics gap.now).1 next m2 now2) :=
  ⟨⟨rfl, rfl⟩,
    silence_bypasses_rtf noFades (startGeneration idle).1 gap.audioData gap.metrics gap.now
      rfl rfl⟩


theorem bufferOrPlay_lsd (s : State A) (a : A) :
    lsdCommands (bufferOrPlay s a).2 = [] ∧
    (bufferOrPlay s a).1.edgeOptimizationApplied = s.edgeOptimizationApplied := by
  unfold bufferOrPlay
  split_ifs <;> simp [lsdCommands]

theorem control_lsd (s : State A) (x y : ℚ) :
    lsdCommands (control s x y).2 =
      (if !s.edgeOptimizationApplied && decide (y > 0) &&
        decide (edgeRtf x y < REALTIME_THRESHOLD) then [1] else []) ∧
    (control s x y).1.edgeOptimizationApplied =
      (s.edgeOptimizationApplied || (decide (y > 0) &&
        decide (edgeRtf x y < REALTIME_THRESHOLD))) := by
  unfold control
  simp only []
  by_cases h1 : y > 0
  · by_cases h2 : edgeRtf x y < REALTIME_THRESHOLD
    · cases h3 : s.edgeOptimizationApplied <;> simp [h1, h2, h3, lsdCommands]
    · cases h3 : s.edgeOptimizationApplied <;> simp [h1, h2, h3, lsdCommands]
  · simp [h1, lsdCommands]

/-- The quality reduction of one segment. -/
theorem handleAudioChunk_lsd (f : Fades A) (s : State A) (seg : Segment A) :
    lsdCommands (handleAudioChunk f s seg.audioData seg.metrics seg.now).2 =
      (if reduces s seg then [1] else []) ∧
    (handleAudioChunk f s seg.audioData seg.metrics seg.now).1.edgeOptimizationApplied =
      (s.edgeOptimizationApplied || reduces s seg) := by
  unfold handleAudioChunk reduces
  cases hg : s.isGenerating
  · simp [lsdCommands]
  · cases hsil : seg.metrics.isSilence
    · simp only [Bool.not_true, Bool.false_eq_true, if_false, Bool.true_and, Bool.not_false]
      obtain ⟨_, _, _, a4⟩ := arrival_frame s seg.metrics seg.now
      obtain ⟨c1, c2⟩ := control_lsd (arrival s seg.metrics seg.now).1
        (arrival s seg.metrics seg.now).2 (instantaneous seg.metrics (arrival s seg.metrics seg.now).2)
      obtain ⟨_, m2, m3, _⟩ := chooseMode_frame (control (arrival s seg.metrics seg.now).1
        (arrival s seg.metrics seg.now).2
        (instantaneous seg.metrics (arrival s seg.metrics seg.now).2)).1 seg.metrics
        (instantaneous seg.metrics (arrival s seg.metrics seg.now).2)
      obtain ⟨b1, b2⟩ := bufferOrPlay_lsd (chooseMode (control (arrival s seg.metrics seg.now).1
        (arrival s seg.metrics seg.now).2
        (instantaneous seg.metrics (arrival s seg.metrics seg.now).2)).1 seg.metrics
        (instantaneous seg.metrics (arrival s seg.metrics seg.now).2)).1
        (faded f seg.audioData seg.metrics)
      rw [lsdCommands_append, lsdCommands_append, b1, m3, c1, b2, m2, c2, a4]
      cases s.edgeOptimizationApplied <;> simp
    · simp only [Bool.not_true, Bool.false_eq_true, if_false, if_true, Bool.true_and,
        Bool.false_and, Bool.or_false]
      exact bufferOrPlay_lsd s seg.audioData

theorem handleStreamEnd_lsd (s : State A) :
    lsdCommands (handleStreamEnd s).2 = [] ∧
    (handleStreamEnd s).1.edgeOptimizationApplied = s.edgeOptimizationApplied := by
  unfold handleStreamEnd switchToBufferAll finalizePlayback
  simp only []
  split_ifs with h1 h2 h3
  · obtain ⟨f1, _, f3⟩ := flushBufferedAudio_spec { s with playbackMode := PlaybackMode.bufferAll }
    rw [lsdCommands_append, f3, f1]
    exact ⟨rfl, rfl⟩
  · exact ⟨rfl, rfl⟩
  · obtain ⟨f1, _, f3⟩ := flushBufferedAudio_spec s
    rw [lsdCommands_append, f3, f1]
    exact ⟨rfl, rfl⟩
  · exact ⟨rfl, rfl⟩

theorem reduces_applied (s : State A) (seg : Segment A) (h : s.edgeOptimizationApplied = true) :
    reduces s seg = false := by
  simp [reduces, h]

theorem handleEvents_lsd (f : Fades A) (s : State A) (events : List (Event A)) :
    lsdCommands (handleEvents f s events).2 =
      (if someReduces f s events then [1] else []) ∧
    (s.edgeOptimizationApplied = true → someReduces f s events = false) := by
  induction events generalizing s with
  | nil => simp [handleEvents, someReduces, lsdCommands]
  | cons e events ih =>
    cases e with
    | audioChunk seg =>
      obtain ⟨h1, h2⟩ := handleAudioChunk_lsd f s seg
      obtain ⟨i1, i2⟩ := ih (handleAudioChunk f s seg.audioData seg.metrics seg.now).1
      simp only [handleEvents, handleEvent, someReduces, lsdCommands_append, h1, i1]
      constructor
      · by_cases hr : reduces s seg = true
        · have := i2 (by rw [h2, hr]; simp)
          simp [this, hr]
        · have hr2 : reduces s seg = false := by simpa using hr
          simp [hr2]
      · intro ha
        rw [reduces_applied s seg ha, i2 (by rw [h2, ha]; simp)]
        rfl
    | streamEnded =>
      obtain ⟨h1, h2⟩ := handleStreamEnd_lsd s
      obtain ⟨i1, i2⟩ := ih (handleStreamEnd s).1
      simp only [handleEvents, handleEvent, someReduces, lsdCommands_append, h1, i1,
        List.nil_append]
      exact ⟨trivial, fun ha => i2 (by rw [h2]; exact ha)⟩

/-- C18. Between two `startGeneration` calls, whatever segments and `stream_ended`
messages are handled: at most one `set_lsd` command is sent, its value is `1` (the minimum,
so the step count is never raised), and exactly one is sent exactly when some handled
segment that is no silence gap has a known instantaneous RTF and an edge RTF below `1.0`. -/
theorem quality_reduction_once (f : Fades A) (s0 : State A) (events : List (Event A)) :
    (lsdCommands (handleEvents f (startGeneration s0).1 events).2).length ≤ 1 ∧
    (∀ lsd ∈ lsdCommands (handleEvents f (startGeneration s0).1 events).2, lsd = 1) ∧
    lsdCommands (handleEvents f (startGeneration s0).1 events).2 =
      (if someReduces f (startGeneration s0).1 events then [1] else []) := by
  obtain ⟨h1, _⟩ := handleEvents_lsd f (startGeneration s0).1 events
  rw [h1]
  split_ifs <;> simp

/-- C17 (counterexample). A first segment with 0.24 s of audio generated in 0.48 s
(RTF 0.5), handled right after `startGeneration`, sends `set_lsd` with value 1. -/
theorem first_segment_reduces_quality :
    slowFirst.metrics.isFirst = true ∧
    instantaneous slowFirst.metrics 0 = 1 / 2 ∧
    lsdCommands (handleAudioChunk noFades (startGeneration idle).1 slowFirst.audioData
      slowFirst.metrics slowFirst.now).2 = [1] := by
  refine ⟨rfl, ?_, ?_⟩
  · simp [instantaneous, slowFirst]; norm_num
  · rw [(handleAudioChunk_lsd noFades (startGeneration idle).1 slowFirst).1]
    have : reduces (startGeneration idle).1 slowFirst = true := by
      simp [reduces, startGeneration, idle, slowFirst, arrival, instantaneous, edgeRtf,
        REALTIME_THRESHOLD]
      norm_num
    rw [this]
    rfl


/-- C17 (amended). For a first segment (`isFirst`, no silence gap) handled right after
`startGeneration`: if it reports a generation time `g > 0` and its RTF
`chunkDuration / g` lies in `(0, 1)`, `set_lsd` with value 1 is sent while handling it; if
it reports no generation time, nothing is sent while handling it, and `set_lsd` with value
1 is sent while handling a second segment (no silence gap, no generation time) whose arrival
RTF lies in `(0, 1)`. -/
theorem reduction_on_first_or_second (f : Fades A) (s0 : State A) (first : Segment A)
    (hsil : first.metrics.isSilence = false) (hfirst : first.metrics.isFirst = true) :
    (∀ g : ℚ, first.metrics.genTimeSec = some g → 0 < g →
      0 < first.metrics.chunkDuration / g → first.metrics.chunkDuration / g < 1 →
      lsdCommands (handleAudioChunk f (startGeneration s0).1 first.audioData first.metrics
        first.now).2 = [1]) ∧
    (first.metrics.genTimeSec = none →
      lsdCommands (handleAudioChunk f (startGeneration s0).1 first.audioData first.metrics
        first.now).2 = [] ∧
      ∀ second : Segment A, second.metrics.isSilence = false → second.metrics.isFirst = false →
        second.metrics.genTimeSec = none → 0 < first.now → first.now < second.now →
        0 < second.metrics.chunkDuration / ((second.now - first.now) / 1000) →
        second.metrics.chunkDuration / ((second.now - first.now) / 1000) < 1 →
        lsdCommands (handleAudioChunk f
          (handleAudioChunk f (startGeneration s0).1 first.audioData first.metrics first.now).1
          second.audioData second.metrics second.now).2 = [1]) := by
  have harr : arrival (startGeneration s0).1 first.metrics first.now =
      ({ (startGeneration s0).1 with lastChunkFinishTime := first.now }, 0) := by
    simp [arrival, hfirst]
  constructor
  · intro g hg hpos h1 h2
    rw [(handleAudioChunk_lsd f (startGeneration s0).1 first).1]
    have : reduces (startGeneration s0).1 first = true := by
      have hne : g ≠ 0 := ne_of_gt hpos
      simp only [reduces, harr, instantaneous, hg, edgeRtf, REALTIME_THRESHOLD]
      simp [startGeneration, hsil, hne, hpos, h1]
      norm_num
      exact h2
    rw [this]
    rfl
  · intro hnone
    have hno : reduces (startGeneration s0).1 first = false := by
      simp only [reduces, harr, instantaneous, hnone, edgeRtf, REALTIME_THRESHOLD]
      simp
    have hstate : handleAudioChunk f (startGeneration s0).1 first.audioData first.metrics
        first.now = ((bufferOrPlay { (startGeneration s0).1 with lastChunkFinishTime := first.now }
          (faded f first.audioData first.metrics)).1,
          (bufferOrPlay { (startGeneration s0).1 with lastChunkFinishTime := first.now }
          (faded f first.audioData first.metrics)).2) := by
      unfold handleAudioChunk
      rw [harr]
      simp [startGeneration, hsil, instantaneous, hnone, control, chooseMode, REALTIME_THRESHOLD]
      norm_num
    refine ⟨by rw [(handleAudioChunk_lsd f (startGeneration s0).1 first).1, hno]; rfl, ?_⟩
    intro second h1 h2 h3 h4 h5 h6 h7
    rw [(handleAudioChunk_lsd f _ second).1]
    have : reduces (handleAudioChunk f (startGeneration s0).1 first.audioData first.metrics
        first.now).1 second = true := by
      rw [hstate]
      simp only [reduces, bufferOrPlay, startGeneration, arrival, instantaneous, edgeRtf,
        REALTIME_THRESHOLD, h1, h2, h3]
      simp [h4, h5, h6]
      norm_num
      exact h7
    rw [this]
    rfl

theorem reduction_on_first_or_second_witness :
    (∀ g : ℚ, untimedFirst.metrics.genTimeSec = some g → 0 < g →
      0 < untimedFirst.metrics.chunkDuration / g → untimedFirst.metrics.chunkDuration / g < 1 →
      lsdCommands (handleAudioChunk noFades (startGeneration idle).1 untimedFirst.audioData
        untimedFirst.metrics untimedFirst.now).2 = [1]) ∧
    (untimedFirst.metrics.genTimeSec = none →
      lsdCommands (handleAudioChunk noFades (startGeneration idle).1 untimedFirst.audioData
        untimedFirst.metrics untimedFirst.now).2 = [] ∧
      ∀ second : Segment (List ℚ), second.metrics.isSilence = false →
        second.metrics.isFirst = false →
        second.metrics.genTimeSec = none → 0 < untimedFirst.now → untimedFirst.now < second.now →
        0 < second.metrics.chunkDuration / ((second.now - untimedFirst.now) / 1000) →
        second.metrics.chunkDuration / ((second.now - untimedFirst.now) / 1000) < 1 →
        lsdCommands (handleAudioChunk noFades
          (handleAudioChunk noFades (startGeneration idle).1 untimedFirst.audioData
            untimedFirst.metrics untimedFirst.now).1
          second.audioData second.metrics second.now).2 = [1]) :=
  reduction_on_first_or_second noFades idle untimedFirst rfl rfl

/-- C23 (counterexample). A first segment with RTF 0.5, handled right after
`startGeneration`: the quality reduction is applied while handling it, its RTF is below
`1.0`, and the mode stays `pending`. -/
theorem first_segment_stays_pending :
    slowFirst.metrics.isFirst = true ∧
    instantaneous slowFirst.metrics 0 = 1 / 2 ∧
    (handleAudioChunk noFades (startGeneration idle).1 slowFirst.audioData slowFirst.metrics
      slowFirst.now).1.edgeOptimizationApplied = true ∧
    (handleAudioChunk noFades (startGeneration idle).1 slowFirst.audioData slowFirst.metrics
      slowFirst.now).1.playbackMode = PlaybackMode.pending := by
  refine ⟨rfl, ?_, ?_, ?_⟩
  · simp [instantaneous, slowFirst]; norm_num
  · rw [(handleAudioChunk_lsd noFades (startGeneration idle).1 slowFirst).2]
    simp [reduces, startGeneration, idle, slowFirst, arrival, instantaneous, edgeRtf,
      REALTIME_THRESHOLD]
    norm_num
  · decide!

theorem bufferOrPlay_mode (s : State A) (a : A) :
    (bufferOrPlay s a).1.playbackMode = s.playbackMode := by
  unfold bufferOrPlay
  split_ifs <;> rfl

/-- C23 (amended). While the mode is `pending`, a handled segment that is no silence gap
makes it `stream` if its instantaneous RTF is at least `1.0`; otherwise it makes it
`buffer_all` if the segment is not the first of the utterance and the quality reduction
has been applied (before or while handling this segment), and leaves it `pending` if not.
A mode other than `pending` is changed neither by `handleAudioChunk` nor by
`handleStreamEnd`; `handleStreamEnd` turns `pending` into `buffer_all`, and
`startGeneration` sets `pending`. -/
theorem mode_decision (f : Fades A) (s : State A) (seg : Segment A)
    (hg : s.isGenerating = true) (hsil : seg.metrics.isSilence = false)
    (hp : s.playbackMode = PlaybackMode.pending) :
    (instantaneous seg.metrics (arrival s seg.metrics seg.now).2 ≥ 1 →
      (handleAudioChunk f s seg.audioData seg.metrics seg.now).1.playbackMode =
        PlaybackMode.stream) ∧
    (instantaneous seg.metrics (arrival s seg.metrics seg.now).2 < 1 →
      (handleAudioChunk f s seg.audioData seg.metrics seg.now).1.playbackMode =
        if !seg.metrics.isFirst &&
          (handleAudioChunk f s seg.audioData seg.metrics seg.now).1.edgeOptimizationApplied
        then PlaybackMode.bufferAll else PlaybackMode.pending) ∧
    (∀ (t : State A) (seg2 : Segment A), t.playbackMode ≠ PlaybackMode.pending →
      (handleAudioChunk f t seg2.audioData seg2.metrics seg2.now).1.playbackMode =
        t.playbackMode ∧
      (handleStreamEnd t).1.playbackMode = t.playbackMode) ∧
    (handleStreamEnd s).1.playbackMode = PlaybackMode.bufferAll ∧
    (∀ t : State A, (startGeneration t).1.playbackMode = PlaybackMode.pending) := by
  obtain ⟨_, a2, _, _⟩ := arrival_frame s seg.metrics seg.now
  obtain ⟨_, c2, _, _, _⟩ := control_frame (arrival s seg.metrics seg.now).1
    (arrival s seg.metrics seg.now).2 (instantaneous seg.metrics (arrival s seg.metrics seg.now).2)
  have hpc : (control (arrival s seg.metrics seg.now).1 (arrival s seg.metrics seg.now).2
      (instantaneous seg.metrics (arrival s seg.metrics seg.now).2)).1.playbackMode =
        PlaybackMode.pending := by rw [c2, a2, hp]
  have hedge := (handleAudioChunk_lsd f s seg).2
  have hedge2 := (control_lsd (arrival s seg.metrics seg.now).1
    (arrival s seg.metrics seg.now).2
    (instantaneous seg.metrics (arrival s seg.metrics seg.now).2)).2
  have hunf : (handleAudioChunk f s seg.audioData seg.metrics seg.now).1.playbackMode =
      (chooseMode (control (arrival s seg.metrics seg.now).1 (arrival s seg.metrics seg.now).2
        (instantaneous seg.metrics (arrival s seg.metrics seg.now).2)).1 seg.metrics
        (instantaneous seg.metrics (arrival s seg.metrics seg.now).2)).1.playbackMode ∧
      (handleAudioChunk f s seg.audioData seg.metrics seg.now).1.edgeOptimizationApplied =
      (control (arrival s seg.metrics seg.now).1 (arrival s seg.metrics seg.now).2
        (instantaneous seg.metrics (arrival s seg.metrics seg.now).2)).1.edgeOptimizationApplied := by
    unfold handleAudioChunk
    simp only [hg, hsil, Bool.not_true, Bool.false_eq_true, if_false]
    rw [bufferOrPlay_mode, (bufferOrPlay_lsd _ _).2, (chooseMode_frame _ _ _).2.1]
    exact ⟨rfl, rfl⟩
  refine ⟨?_, ?_, ?_, ?_, fun _ => rfl⟩
  · intro h
    rw [hunf.1]
    unfold chooseMode switchToStream
    have h' : instantaneous seg.metrics (arrival s seg.metrics seg.now).2 ≥ REALTIME_THRESHOLD := by
      unfold REALTIME_THRESHOLD; norm_num; exact h
    rw [if_pos hpc, if_pos h', (flushBufferedAudio_spec _).1]
  · intro h
    rw [hunf.1, hunf.2]
    unfold chooseMode switchToBufferAll
    have h' : ¬ instantaneous seg.metrics (arrival s seg.metrics seg.now).2 ≥ REALTIME_THRESHOLD := by
      unfold REALTIME_THRESHOLD; norm_num; exact h
    have h'' : instantaneous seg.metrics (arrival s seg.metrics seg.now).2 < REALTIME_THRESHOLD := by
      unfold REALTIME_THRESHOLD; norm_num; exact h
    rw [if_pos hpc, if_neg h']
    simp only [h'', decide_True, Bool.and_true]
    split_ifs
    · rfl
    · exact hpc
  · intro t seg2 ht
    constructor
    · unfold handleAudioChunk
      by_cases hg2 : t.isGenerating = true
      · by_cases hs2 : seg2.metrics.isSilence = true
        · simp only [hg2, hs2, Bool.not_true, Bool.false_eq_true, if_false, if_true]
          exact bufferOrPlay_mode t _
        · simp only [hg2, hs2, Bool.not_true, Bool.false_eq_true, if_false]
          rw [bufferOrPlay_mode]
          obtain ⟨_, b2, _, _⟩ := arrival_frame t seg2.metrics seg2.now
          obtain ⟨_, d2, _, _, _⟩ := control_frame (arrival t seg2.metrics seg2.now).1
            (arrival t seg2.metrics seg2.now).2
            (instantaneous seg2.metrics (arrival t seg2.metrics seg2.now).2)
          rw [(chooseMode_frame _ _ _).2.2.2 (by rw [d2, b2]; exact ht), d2, b2]
      · simp [hg2]
    · unfold handleStreamEnd switchToBufferAll finalizePlayback
      simp only [ht, if_false]
      split_ifs with h
      · rw [(flushBufferedAudio_spec _).1]
      · rfl
  · unfold handleStreamEnd switchToBufferAll
    simp only [hp, if_true]
    rw [(flushBufferedAudio_spec _).1]

theorem mode_decision_witness :
    (instantaneous slowSecond.metrics (arrival (handleAudioChunk noFades (startGeneration idle).1
        slowFirst.audioData slowFirst.metrics slowFirst.now).1 slowSecond.metrics
        slowSecond.now).2 ≥ 1 →
      (handleAudioChunk noFades (handleAudioChunk noFades (startGeneration idle).1
        slowFirst.audioData slowFirst.metrics slowFirst.now).1 slowSecond.audioData
        slowSecond.metrics slowSecond.now).1.playbackMode = PlaybackMode.stream) ∧
    (instantaneous slowSecond.metrics (arrival (handleAudioChunk noFades (startGeneration idle).1
        slowFirst.audioData slowFirst.metrics slowFirst.now).1 slowSecond.metrics
        slowSecond.now).2 < 1 →
      (handleAudioChunk noFades (handleAudioChunk noFades (startGeneration idle).1
        slowFirst.audioData slowFirst.metrics slowFirst.now).1 slowSecond.audioData
        slowSecond.metrics slowSecond.now).1.playbackMode =
        if !slowSecond.metrics.isFirst &&
          (handleAudioChunk noFades (handleAudioChunk noFades (startGeneration idle).1
            slowFirst.audioData slowFirst.metrics slowFirst.now).1 slowSecond.audioData
            slowSecond.metrics slowSecond.now).1.edgeOptimizationApplied
        then PlaybackMode.bufferAll else PlaybackMode.pending) ∧
    (∀ (t : State (List ℚ)) (seg2 : Segment (List ℚ)), t.playbackMode ≠ PlaybackMode.pending →
      (handleAudioChunk noFades t seg2.audioData seg2.metrics seg2.now).1.playbackMode =
        t.playbackMode ∧
      (handleStreamEnd t).1.playbackMode = t.playbackMode) ∧
    (handleStreamEnd (handleAudioChunk noFades (startGeneration idle).1
        slowFirst.audioData slowFirst.metrics slowFirst.now).1).1.playbackMode =
      PlaybackMode.bufferAll ∧
    (∀ t : State (List ℚ), (startGeneration t).1.playbackMode = PlaybackMode.pending) :=
  mode_decision noFades (handleAudioChunk noFades (startGeneration idle).1
      slowFirst.audioData slowFirst.metrics slowFirst.now).1 slowSecond
    (handleAudioChunk_keeps noFades (startGeneration idle).1 slowFirst rfl (fun _ => rfl)).2.1
    rfl (by decide!)

end StreamCoordinator

/-! ## The text normalizer of the inference worker (`prepareText`) and the sentence chunker -/

namespace TextNormalizer

/-- JavaScript strings, as lists of characters. -/
abbrev Str := List Char

/-! ### A backtracking matcher for the regular expressions of the normalizer -/

/-- A character class: a union of code ranges, possibly negated. -/
structure CharSet where
  ranges : List (Nat × Nat)
  neg : Bool

/-- Whether the class contains the character. -/
def CharSet.test (s : CharSet) (c : Char) : Bool :=
  s.neg != s.ranges.any (fun r => decide (r.1 ≤ c.toNat) && decide (c.toNat ≤ r.2))

/-- The class `[chars]`. -/
def oneOf (chars : String) : CharSet :=
  { ranges := chars.toList.map (fun c => (c.toNat, c.toNat)), neg := false }

/-- The class `[^chars]`. -/
def noneOf (chars : String) : CharSet :=
  { ranges := chars.toList.map (fun c => (c.toNat, c.toNat)), neg := true }

/-- The class `\d`. -/
def digit : CharSet := { ranges := [(48, 57)], neg := false }

/-- The class `\D`. -/
def nonDigit : CharSet := { ranges := [(48, 57)], neg := true }

/-- The class `[a-z]` under the flag `i`, which is `[A-Z]` under the flag `i`: without the
flag `u` a character outside ASCII never folds onto an ASCII letter. -/
def letterCI : CharSet := { ranges := [(65, 90), (97, 122)], neg := false }

/-- The class `[A-Z]`. -/
def upper : CharSet := { ranges := [(65, 90)], neg := false }

/-- The class `\w`. -/
def word : CharSet := { ranges := [(48, 57), (65, 90), (95, 95), (97, 122)], neg := false }

/-- The class `[a-zA-Z0-9]`. -/
def alnum : CharSet := { ranges := [(48, 57), (65, 90), (97, 122)], neg := false }

/-- The ranges of the class `\s` (white space and line terminators). -/
def spaceRanges : List (Nat × Nat) :=
  [(9, 13), (32, 32), (160, 160), (5760, 5760), (8192, 8202), (8232, 8233), (8239, 8239),
    (8287, 8287), (12288, 12288), (65279, 65279)]

/-- The class `\s`. -/
def space : CharSet := { ranges := spaceRanges, neg := false }

/-- The class `.`: everything but the line terminators. -/
def anyChar : CharSet := { ranges := [(10, 10), (13, 13), (8232, 8233)], neg := true }

/-- A literal character under the flag `i`: both ASCII cases of a letter. -/
def charCI (c : Char) : CharSet :=
  { ranges := [(c.toLower.toNat, c.toLower.toNat), (c.toUpper.toNat, c.toUpper.toNat)]
    neg := false }

/-- Regular expressions, as far as the normalizer uses them. `grp i` is the capturing
group that the source numbers `i + 1`. -/
inductive Re where
  | cls (s : CharSet)
  | eps
  | seq (a b : Re)
  | alt (a b : Re)
  | star (a : Re)
  | grp (i : Nat) (a : Re)
  | bol
  | eol
  | wordBoundary

namespace Re

/-- The literal character `c`. -/
def chr (c : Char) : Re := cls { ranges := [(c.toNat, c.toNat)], neg := false }

/-- The quantifier `a?` (greedy). -/
def opt (a : Re) : Re := alt a eps

/-- The quantifier `a+` (greedy). -/
def plus (a : Re) : Re := seq a (star a)

/-- The sequence of several expressions. -/
def cat : List Re → Re
  | [] => eps
  | [a] => a
  | a :: rest => seq a (cat rest)

/-- A literal string. -/
def lit (s : String) : Re := cat (s.toList.map chr)

/-- A literal string under the flag `i`. -/
def litCI (s : String) : Re := cat (s.toList.map (fun c => cls (charCI c)))

end Re

/-- The captures of a match: for each group the span `(start, stop)` of its text, counted
from the start of the match, or `none` for a group that did not take part (`undefined`). -/
abbrev Spans := List (Option (Nat × Nat))

/-- A position of the matcher: the character before it (if any), the rest of the input, the
number of characters consumed since the start of the match, and the captures so far. -/
structure Pos where
  prev : Option Char
  rest : Str
  idx : Nat
  caps : Spans

/-- Whether a character (or the edge of the input) counts as a word character for `\b`. -/
def isWordAt : Option Char → Bool
  | none => false
  | some c => word.test c

/-- Greedy iteration of a matcher: the continuations after one more round (a round that
consumes nothing is rejected) come before the continuation that stops here. -/
def starAux (body : Pos → List Pos) : Nat → Pos → List Pos
  | 0, p => [p]
  | fuel + 1, p =>
    ((body p).filter (fun q => decide (p.idx < q.idx))).flatMap (starAux body fuel) ++ [p]

/-- All ways an expression matches at a position, in the order in which a backtracking
matcher tries them; the first one is the match. -/
def matchRe : Re → Pos → List Pos
  | .cls s, p =>
    match p.rest with
    | c :: cs =>
      if s.test c then [{ prev := some c, rest := cs, idx := p.idx + 1, caps := p.caps }]
      else []
    | [] => []
  | .eps, p => [p]
  | .seq a b, p => (matchRe a p).flatMap (matchRe b)
  | .alt a b, p => matchRe a p ++ matchRe b p
  | .star a, p => starAux (matchRe a) p.rest.length p
  | .grp i a, p => (matchRe a p).map fun q => { q with caps := q.caps.set i (some (p.idx, q.idx)) }
  | .bol, p => if p.prev.isNone then [p] else []
  | .eol, p => if p.rest.isEmpty then [p] else []
  | .wordBoundary, p => if isWordAt p.prev != isWordAt p.rest.head? then [p] else []

/-- The first match of `re` that starts exactly at the position, if any: its length and
the spans of its `groups` capturing groups. -/
def matchAt (re : Re) (groups : Nat) (prev : Option Char) (input : Str) : Option (Nat × Spans) :=
  match matchRe re { prev := prev, rest := input, idx := 0, caps := List.replicate groups none }
  with
  | [] => none
  | q :: _ => some (q.idx, q.caps)

/-- What a replacer sees of a match: the matched text and the groups. -/
structure Match where
  whole : Str
  groups : List (Option Str)

/-- The match of length `len` with captures `caps` at the start of `input`. -/
def Match.ofSpans (input : Str) (len : Nat) (caps : Spans) : Match :=
  { whole := input.take len
    groups := caps.map (Option.map fun span => (input.drop span.1).take (span.2 - span.1)) }

/-- The text of group `i` (`$1` is group `0`), empty when the group did not take part. -/
def Match.g (m : Match) (i : Nat) : Str := ((m.groups.getD i none).getD [])

/-- Whether group `i` took part in the match with a non-empty text (JavaScript truthiness
of the capture). -/
def Match.has (m : Match) (i : Nat) : Bool :=
  match m.groups.getD i none with
  | some (_ :: _) => true
  | _ => false

/-- The loop of `String.prototype.replace` with a global expression: `skip` characters
are still covered by the match found last. After an empty match the search moves on by one
character, which is copied. -/
def replaceLoop (re : Re) (groups : Nat) (f : Match → Str) : Option Char → Str → Nat → Str
  | prev, [], _ =>
    match matchAt re groups prev [] with
    | some (len, caps) => f (Match.ofSpans [] len caps)
    | none => []
  | _, c :: cs, skip + 1 => replaceLoop re groups f (some c) cs skip
  | prev, c :: cs, 0 =>
    match matchAt re groups prev (c :: cs) with
    | none => c :: replaceLoop re groups f (some c) cs 0
    | some (0, caps) =>
      f (Match.ofSpans (c :: cs) 0 caps) ++ c :: replaceLoop re groups f (some c) cs 0
    | some (len + 1, caps) =>
      f (Match.ofSpans (c :: cs) (len + 1) caps) ++ replaceLoop re groups f (some c) cs len

/-- The call `text.replace(re, f)` for an expression with the flag `g` and `groups`
capturing groups. -/
def replaceAll (re : Re) (groups : Nat) (f : Match → Str) (text : Str) : Str :=
  replaceLoop re groups f none text 0

/-- One statement `text = text.replace(re, f)`. -/
structure Rule where
  re : Re
  groups : Nat
  f : Match → Str

/-- A sequence of statements `text = text.replace(re, f)`. -/
def applyRules (rules : List Rule) (text : Str) : Str :=
  rules.foldl (fun t r => replaceAll r.re r.groups r.f t) text

/-! ### String helpers -/

/-- The method `String.prototype.trim`: white space and line terminators removed at both ends. -/
def trim (text : Str) : Str :=
  ((text.dropWhile space.test).reverse.dropWhile space.test).reverse

/-- The call `parseInt(text)` for a string of decimal digits (`none` is `NaN`: no leading digit). Values
are exact naturals; JavaScript agrees below `2 ^ 53`. -/
def parseInt (text : Str) : Option Nat :=
  match text.takeWhile digit.test with
  | [] => none
  | ds => some (ds.foldl (fun acc c => acc * 10 + (c.toNat - 48)) 0)

/-- A number in a template literal: its decimal digits. -/
def numStr (n : Nat) : Str := Nat.toDigits 10 n

/-- The call `text.split(sep)` for a one-character separator given as a class (also the split by a
one-character class expression). -/
def splitOn (sep : CharSet) : Str → List Str
  | [] => [[]]
  | c :: cs =>
    match splitOn sep cs with
    | [] => [[]]
    | part :: parts => if sep.test c then [] :: part :: parts else (c :: part) :: parts

/-- The call `parts.join(sep)`. -/
def join (sep : Str) : List Str → Str
  | [] => []
  | [a] => a
  | a :: rest => a ++ sep ++ join sep rest

/-- The call `text.split('').join(' ')`. -/
def spaced (text : Str) : Str := join [' '] (text.map fun c => [c])

/-- The call `text.endsWith(suffix)`. -/
def endsWith (text suffix : Str) : Bool := suffix.reverse.isPrefixOf text.reverse

/-- The call `text.slice(0, -k)`. -/
def dropLast (text : Str) (k : Nat) : Str := text.take (text.length - k)

/-! ### Numbers in words (lines 53-109) -/

/-- Line 53. -/
def ONES : List String :=
  ["", "one", "two", "three", "four", "five", "six", "seven", "eight", "nine", "ten", "eleven",
    "twelve", "thirteen", "fourteen", "fifteen", "sixteen", "seventeen", "eighteen", "nineteen"]

/-- Line 54. -/
def TENS : List String :=
  ["", "", "twenty", "thirty", "forty", "fifty", "sixty", "seventy", "eighty", "ninety"]

/-- Line 55. -/
def ORDINAL_ONES : List String :=
  ["", "first", "second", "third", "fourth", "fifth", "sixth", "seventh", "eighth", "ninth",
    "tenth", "eleventh", "twelfth", "thirteenth", "fourteenth", "fifteenth", "sixteenth",
    "seventeenth", "eighteenth", "nineteenth"]

/-- Line 56. -/
def ORDINAL_TENS : List String :=
  ["", "", "twentieth", "thirtieth", "fortieth", "fiftieth", "sixtieth", "seventieth",
    "eightieth", "ninetieth"]

/-- An entry of one of the word tables. -/
def entry (table : List String) (i : Nat) : Str := (table.getD i "").toList

/-- The inner function `convert` of `numberToWords` (lines 61-81); every recursive call is
on a smaller number, so `fuel = n + 1` is enough. -/
def convert (andword : Str) : Nat → Nat → Str
  | 0, _ => []
  | fuel + 1, n =>
    if n < 20 then entry ONES n
    else if n < 100 then
      entry TENS (n / 10) ++ (if n % 10 ≠ 0 then ' ' :: entry ONES (n % 10) else [])
    else if n < 1000 then
      let remainder := n % 100
      entry ONES (n / 100) ++ " hundred".toList ++
        (if remainder ≠ 0 then
          (if andword ≠ [] then ' ' :: andword ++ [' '] else [' ']) ++
            convert andword fuel remainder
        else [])
    else if n < 1000000 then
      let remainder := n % 1000
      convert andword fuel (n / 1000) ++ " thousand".toList ++
        (if remainder ≠ 0 then ' ' :: convert andword fuel remainder else [])
    else if n < 1000000000 then
      let remainder := n % 1000000
      convert andword fuel (n / 1000000) ++ " million".toList ++
        (if remainder ≠ 0 then ' ' :: convert andword fuel remainder else [])
    else
      let remainder := n % 1000000000
      convert andword fuel (n / 1000000000) ++ " billion".toList ++
        (if remainder ≠ 0 then ' ' :: convert andword fuel remainder else [])

/-- Lines 58-90, with the options `andword`, `zero` and `group` as arguments. -/
def numberToWordsWith (andword zero : Str) (group : Nat) (num : Nat) : Str :=
  if num = 0 then zero
  else if group = 2 ∧ num > 1000 ∧ num < 10000 then
    let high := num / 100
    let low := num % 100
    if low = 0 then convert andword (high + 1) high ++ " hundred".toList
    else if low < 10 then
      convert andword (high + 1) high ++ [' '] ++
        (if zero = "oh".toList then "oh".toList else zero) ++ [' '] ++ entry ONES low
    else convert andword (high + 1) high ++ [' '] ++ convert andword (low + 1) low
  else convert andword (num + 1) num

/-- The call `numberToWords(num)` with the default options. -/
def numberToWords (num : Nat) : Str := numberToWordsWith [] "zero".toList 0 num

/-- Lines 92-109. -/
def ordinalToWords (num : Nat) : Str :=
  if num < 20 then
    (if entry ORDINAL_ONES num ≠ [] then entry ORDINAL_ONES num
     else numberToWords num ++ "th".toList)
  else if num < 100 then
    let tens := num / 10
    let ones := num % 10
    if ones = 0 then entry ORDINAL_TENS tens
    else entry TENS tens ++ [' '] ++ entry ORDINAL_ONES ones
  else
    let cardinal := numberToWords num
    if endsWith cardinal "y".toList then dropLast cardinal 1 ++ "ieth".toList
    else if endsWith cardinal "one".toList then dropLast cardinal 3 ++ "first".toList
    else if endsWith cardinal "two".toList then dropLast cardinal 3 ++ "second".toList
    else if endsWith cardinal "three".toList then dropLast cardinal 5 ++ "third".toList
    else if endsWith cardinal "ve".toList then dropLast cardinal 2 ++ "fth".toList
    else if endsWith cardinal "e".toList then dropLast cardinal 1 ++ "th".toList
    else if endsWith cardinal "t".toList then cardinal ++ "h".toList
    else cardinal ++ "th".toList

/-! ### `normalizeNumbers` (lines 131-205) -/

section Expressions

open Re

/-- Line 131: `/#(\d)/g`. -/
def NUM_PREFIX_RE : Re := seq (chr '#') (grp 0 (cls digit))

/-- Line 132: `/(\d)([KMBT])/gi`. -/
def NUM_SUFFIX_RE : Re :=
  seq (grp 0 (cls digit)) (grp 1 (cls { ranges := (oneOf "KMBTkmbt").ranges, neg := false }))

/-- Line 133: `/(\d)([a-z])|([a-z])(\d)/gi`. -/
def NUM_LETTER_SPLIT_RE : Re :=
  alt (seq (grp 0 (cls digit)) (grp 1 (cls letterCI)))
    (seq (grp 2 (cls letterCI)) (grp 3 (cls digit)))

/-- The class `[\d,]`. -/
def digitOrComma : CharSet := { ranges := [(48, 57), (44, 44)], neg := false }

/-- The class `[\d.,]`. -/
def digitDotComma : CharSet := { ranges := [(48, 57), (46, 46), (44, 44)], neg := false }

/-- Line 134: `/(\d[\d,]+\d)/g`. -/
def COMMA_NUMBER_RE : Re := grp 0 (cat [cls digit, plus (cls digitOrComma), cls digit])

/-- Line 135: a first group `(^|[^/])`, the date (one or two digits, a slash or a dash,
one or two digits, a slash or a dash, two or four digits) as second group, and a third
group `($|[^/])`. -/
def DATE_RE : Re :=
  cat [grp 0 (alt bol (cls (noneOf "/"))),
    grp 1 (cat [cls digit, opt (cls digit), cls (oneOf "/-"), cls digit, opt (cls digit),
      cls (oneOf "/-"), cls digit, cls digit, opt (seq (cls digit) (cls digit))]),
    grp 2 (alt eol (cls (noneOf "/")))]

/-- The class `[-.\s]`. -/
def phoneSep : CharSet := { ranges := [(45, 45), (46, 46)] ++ spaceRanges, neg := false }

/-- Line 136: `/\(?\d{3}\)?[-.\s]\d{3}[-.\s]?\d{4}/g`. -/
def PHONE_NUMBER_RE : Re :=
  cat [opt (chr '('), cls digit, cls digit, cls digit, opt (chr ')'), cls phoneSep,
    cls digit, cls digit, cls digit, opt (cls phoneSep),
    cls digit, cls digit, cls digit, cls digit]

/-- Line 137: `/(\d\d?):(\d\d)(?::(\d\d))?/g`. -/
def TIME_RE : Re :=
  cat [grp 0 (seq (cls digit) (opt (cls digit))), chr ':', grp 1 (seq (cls digit) (cls digit)),
    opt (seq (chr ':') (grp 2 (seq (cls digit) (cls digit))))]

/-- Line 138: `/£([\d,]*\d+)/g`. -/
def POUNDS_RE : Re := seq (chr '£') (grp 0 (seq (star (cls digitOrComma)) (plus (cls digit))))

/-- Line 139: `/\$([\d.,]*\d+)/g`. -/
def DOLLARS_RE : Re := seq (chr '$') (grp 0 (seq (star (cls digitDotComma)) (plus (cls digit))))

/-- Line 140: `/(\d+(?:\.\d+)+)/g`. -/
def DECIMAL_NUMBER_RE : Re :=
  grp 0 (seq (plus (cls digit)) (plus (seq (chr '.') (plus (cls digit)))))

/-- The shape `(\d)\s?c\s?(\d)` of the expressions for `*`, `/` and `+`. -/
def operatorRe (c : Char) : Re :=
  Re.cat [.grp 0 (.cls digit), Re.opt (.cls space), Re.chr c, Re.opt (.cls space),
    .grp 1 (.cls digit)]

/-- Line 141. -/
def MULTIPLY_RE : Re := operatorRe '*'
/-- Line 142. -/
def DIVIDE_RE : Re := operatorRe '/'
/-- Line 143. -/
def ADD_RE : Re := operatorRe '+'

/-- Line 144: `/(\d)?\s?-\s?(\d)/g`. -/
def SUBTRACT_RE : Re :=
  cat [opt (grp 0 (cls digit)), opt (cls space), chr '-', opt (cls space), grp 1 (cls digit)]

/-- Line 145: `/(\d+)\/(\d+)/g`. -/
def FRACTION_RE : Re := cat [grp 0 (plus (cls digit)), chr '/', grp 1 (plus (cls digit))]

/-- Line 146: `/(\d+)(st|nd|rd|th)/gi`. -/
def ORDINAL_RE : Re :=
  seq (grp 0 (plus (cls digit)))
    (grp 1 (alt (litCI "st") (alt (litCI "nd") (alt (litCI "rd") (litCI "th")))))

/-- Line 147: `/\d+/g`. -/
def NUMBER_RE : Re := Re.plus (.cls digit)

end Expressions

/-- The words of the suffix map of line 152. -/
def suffixWord (suffix : Str) : Str :=
  match suffix.map Char.toLower with
  | ['k'] => "thousand".toList
  | ['m'] => "million".toList
  | ['b'] => "billion".toList
  | ['t'] => "trillion".toList
  | _ => "undefined".toList

/-- The replacer of line 164-167. -/
def phoneReplacer (m : Match) : Str :=
  let digits := m.whole.filter digit.test
  if digits.length = 10 then
    spaced (digits.take 3) ++ ", ".toList ++ spaced ((digits.drop 3).take 3) ++ ", ".toList ++
      spaced (digits.drop 6)
  else m.whole

/-- The text `oh ` followed by the second character, for a two-digit text that starts with `0`, the text itself otherwise. -/
def ohForm (x : Str) : Str :=
  if x.head? = some '0' then "oh ".toList ++ (x.drop 1).take 1 else x

/-- The replacer of lines 168-176. -/
def timeReplacer (m : Match) : Str :=
  let hours := m.g 0
  let minutes := m.g 1
  let seconds := m.g 2
  let h := (parseInt hours).getD 0
  let mi := (parseInt minutes).getD 0
  let s := if m.has 2 then (parseInt seconds).getD 0 else 0
  if !m.has 2 then
    if mi = 0 then
      (if h = 0 then "0".toList
       else if h > 12 then hours ++ " minutes".toList else hours ++ " o'clock".toList)
    else if minutes.head? = some '0' then hours ++ " oh ".toList ++ (minutes.drop 1).take 1
    else hours ++ [' '] ++ minutes
  else
    let res : Str :=
      if h ≠ 0 then hours ++ [' '] ++ (if mi = 0 then "oh oh".toList else ohForm minutes)
      else if mi ≠ 0 then minutes ++ [' '] ++ (if s = 0 then "oh oh".toList else ohForm seconds)
      else seconds
    res ++ [' '] ++ (if s = 0 then [] else ohForm seconds)

/-- The replacer of lines 178-186. -/
def dollarsReplacer (m : Match) : Str :=
  let parts := splitOn (oneOf ".") ((m.g 0).filter (fun c => c != ','))
  let dollars := (parseInt (parts.getD 0 [])).getD 0
  let cents := if parts.getD 1 [] ≠ [] then (parseInt (parts.getD 1 [])).getD 0 else 0
  let dollarWord := if dollars = 1 then "dollar" else "dollars"
  let centWord := if cents = 1 then "cent" else "cents"
  if dollars ≠ 0 ∧ cents ≠ 0 then
    numStr dollars ++ [' '] ++ dollarWord.toList ++ ", ".toList ++ numStr cents ++ [' '] ++
      centWord.toList
  else if dollars ≠ 0 then numStr dollars ++ [' '] ++ dollarWord.toList
  else if cents ≠ 0 then numStr cents ++ [' '] ++ centWord.toList
  else "zero dollars".toList

/-- The replacer of lines 194-203. -/
def numberReplacer (m : Match) : Str :=
  let num := (parseInt m.whole).getD 0
  if num > 1000 ∧ num < 3000 then
    if num = 2000 then "two thousand".toList
    else if num > 2000 ∧ num < 2010 then "two thousand ".toList ++ numberToWords (num % 100)
    else if num % 100 = 0 then numberToWords (num / 100) ++ " hundred".toList
    else numberToWordsWith [] "oh".toList 2 num
  else numberToWords num

/-- The replacer of lines 156-160. -/
def letterSplitReplacer (m : Match) : Str :=
  if m.has 0 ∧ m.has 1 then m.g 0 ++ [' '] ++ m.g 1
  else if m.has 2 ∧ m.has 3 then m.g 2 ++ [' '] ++ m.g 3
  else m.whole

/-- The statements of `normalizeNumbers` (lines 150-203), in order; the loop of lines
155-161 runs its statement twice. -/
def numberRules : List Rule :=
  [ { re := NUM_PREFIX_RE, groups := 1, f := fun m => "number ".toList ++ m.g 0 },
    { re := NUM_SUFFIX_RE, groups := 2, f := fun m => m.g 0 ++ [' '] ++ suffixWord (m.g 1) },
    { re := NUM_LETTER_SPLIT_RE, groups := 4, f := letterSplitReplacer },
    { re := NUM_LETTER_SPLIT_RE, groups := 4, f := letterSplitReplacer },
    { re := COMMA_NUMBER_RE, groups := 1, f := fun m => m.whole.filter (fun c => c != ',') },
    { re := DATE_RE, groups := 3
      f := fun m => m.g 0 ++ join " dash ".toList (splitOn (oneOf "./-") (m.g 1)) ++ m.g 2 },
    { re := PHONE_NUMBER_RE, groups := 0, f := phoneReplacer },
    { re := TIME_RE, groups := 3, f := timeReplacer },
    { re := POUNDS_RE, groups := 1
      f := fun m => (m.g 0).filter (fun c => c != ',') ++ " pounds".toList },
    { re := DOLLARS_RE, groups := 1, f := dollarsReplacer },
    { re := DECIMAL_NUMBER_RE, groups := 1
      f := fun m => spaced (join " point ".toList (splitOn (oneOf ".") m.whole)) },
    { re := MULTIPLY_RE, groups := 2, f := fun m => m.g 0 ++ " times ".toList ++ m.g 1 },
    { re := DIVIDE_RE, groups := 2, f := fun m => m.g 0 ++ " over ".toList ++ m.g 1 },
    { re := ADD_RE, groups := 2, f := fun m => m.g 0 ++ " plus ".toList ++ m.g 1 },
    { re := SUBTRACT_RE, groups := 2
      f := fun m => (if m.has 0 then m.g 0 else []) ++ " minus ".toList ++ m.g 1 },
    { re := FRACTION_RE, groups := 2, f := fun m => m.g 0 ++ " over ".toList ++ m.g 1 },
    { re := ORDINAL_RE, groups := 2, f := fun m => ordinalToWords ((parseInt (m.g 0)).getD 0) },
    { re := NUMBER_RE, groups := 0, f := numberReplacer } ]

/-- Lines 149-205. -/
def normalizeNumbers (text : Str) : Str := applyRules numberRules text

/-! ### `normalizeSpecial`, abbreviations, symbols, white space, punctuation (lines 111-238) -/

/-- The table `UNICODE_MAP` (lines 111-113). -/
def UNICODE_MAP : List (Char × String) :=
  [('à', "a"), ('á', "a"), ('â', "a"), ('ã', "a"), ('ä', "a"), ('å', "a"), ('æ', "ae"),
    ('ç', "c"), ('è', "e"), ('é', "e"), ('ê', "e"), ('ë', "e"), ('ì', "i"), ('í', "i"),
    ('î', "i"), ('ï', "i"), ('ñ', "n"), ('ò', "o"), ('ó', "o"), ('ô', "o"), ('õ', "o"),
    ('ö', "o"), ('ø', "o"), ('ù', "u"), ('ú', "u"), ('û', "u"), ('ü', "u"), ('ý', "y"),
    ('ÿ', "y"), ('ß', "ss"), ('œ', "oe"), ('ð', "d"), ('þ', "th"), ('À', "A"), ('Á', "A"),
    ('Â', "A"), ('Ã', "A"), ('Ä', "A"), ('Å', "A"), ('Æ', "AE"), ('Ç', "C"), ('È', "E"),
    ('É', "E"), ('Ê', "E"), ('Ë', "E"), ('Ì', "I"), ('Í', "I"), ('Î', "I"), ('Ï', "I"),
    ('Ñ', "N"), ('Ò', "O"), ('Ó', "O"), ('Ô', "O"), ('Õ', "O"), ('Ö', "O"), ('Ø', "O"),
    ('Ù', "U"), ('Ú', "U"), ('Û', "U"), ('Ü', "U"), ('Ý', "Y"), ('“', "\""),
    ('”', "\""), ('‘', "'"), ('’', "'"), ('…', "..."), ('–', "-"),
    ('—', "-")]

/-- The step `text.split('').map(c => UNICODE_MAP[c] || c).join('')` of line 116. -/
def mapUnicode (text : Str) : Str :=
  text.flatMap fun c =>
    match UNICODE_MAP.lookup c with
    | some r => r.toList
    | none => [c]

/-- The two functions of the host's Unicode tables that `prepareText` calls:
`String.prototype.normalize('NFD')` and `String.prototype.toUpperCase` on one character. -/
structure Host where
  nfd : Str → Str
  toUpperCase : Char → Str

/-- What is assumed of the host: text of ASCII characters is its own canonical
decomposition, and `toUpperCase` on an ASCII character is the ASCII upper case. -/
def Host.Standard (h : Host) : Prop :=
  (∀ text : Str, (∀ c ∈ text, c.toNat < 128) → h.nfd text = text) ∧
  (∀ c : Char, c.toNat < 128 → h.toUpperCase c = [c.toUpper])

/-- The host restricted to ASCII: what every standard host does on ASCII text. -/
def Host.ascii : Host :=
  { nfd := fun text => text, toUpperCase := fun c => [c.toUpper] }

/-- Lines 115-117. -/
def convertToAscii (h : Host) (text : Str) : Str :=
  (h.nfd (mapUnicode text)).filter (fun c => !(decide (768 ≤ c.toNat) && decide (c.toNat ≤ 879)))

/-- The pair `[/\babbr\./gi, replacement]`. -/
def abbr (abbreviation replacement : String) : Re × String :=
  (Re.cat [.wordBoundary, Re.litCI abbreviation, Re.chr '.'], replacement)

/-- The pair `[/\bword\b/g, replacement]`. -/
def cased (w replacement : String) : Re × String :=
  (Re.cat [.wordBoundary, Re.lit w, .wordBoundary], replacement)

/-- Lines 119-121. -/
def ABBREVIATIONS : List (Re × String) :=
  [abbr "mrs" "misuss", abbr "ms" "miss", abbr "mr" "mister", abbr "dr" "doctor",
    abbr "st" "saint", abbr "co" "company", abbr "jr" "junior", abbr "maj" "major",
    abbr "gen" "general", abbr "drs" "doctors", abbr "rev" "reverend", abbr "lt" "lieutenant",
    abbr "hon" "honorable", abbr "sgt" "sergeant", abbr "capt" "captain", abbr "esq" "esquire",
    abbr "ltd" "limited", abbr "col" "colonel", abbr "ft" "fort"]

/-- Lines 122-124. -/
def CASED_ABBREVIATIONS : List (Re × String) :=
  [cased "TTS" "text to speech", cased "Hz" "hertz", cased "kHz" "kilohertz",
    cased "KBs" "kilobytes", cased "KB" "kilobyte", cased "MBs" "megabytes",
    cased "MB" "megabyte", cased "GBs" "gigabytes", cased "GB" "gigabyte",
    cased "TBs" "terabytes", cased "TB" "terabyte", cased "APIs" "a p i's",
    cased "API" "a p i", cased "CLIs" "c l i's", cased "CLI" "c l i", cased "CPUs" "c p u's",
    cased "CPU" "c p u", cased "GPUs" "g p u's", cased "GPU" "g p u", cased "Ave" "avenue",
    cased "etc" "etcetera"]

/-- The loop `for (const [regex, replacement] of table) text = text.replace(regex,
replacement)`, for replacement strings without `$` patterns. -/
def replaceEach (table : List (Re × String)) (text : Str) : Str :=
  applyRules (table.map fun entry => { re := entry.1, groups := 1, f := fun _ => entry.2.toList })
    text

/-- Lines 126-129. -/
def expandAbbreviations (text : Str) : Str :=
  replaceEach (ABBREVIATIONS ++ CASED_ABBREVIATIONS) text

/-- Lines 207-209. -/
def SPECIAL_CHARACTERS : List (Re × String) :=
  [(Re.chr '@', " at "), (Re.chr '&', " and "), (Re.chr '%', " percent "), (Re.chr ':', "."),
    (Re.chr ';', ","), (Re.chr '+', " plus "), (Re.chr '\\', " backslash "),
    (Re.chr '~', " about "),
    (Re.seq (.grp 0 (.alt .bol (Re.chr ' '))) (Re.lit "<3"), " heart "),
    (Re.lit "<=", " less than or equal to "), (Re.lit ">=", " greater than or equal to "),
    (Re.chr '<', " less than "), (Re.chr '>', " greater than "), (Re.chr '=', " equals "),
    (Re.chr '/', " slash "), (Re.chr '_', " ")]

section SpecialExpressions

open Re

/-- Line 210: `/https?:\/\//gi`. -/
def LINK_HEADER_RE : Re := cat [litCI "http", opt (cls (charCI 's')), lit "://"]

/-- Line 211: `/(.) - (.)/g`. -/
def DASH_RE : Re := cat [grp 0 (cls anyChar), lit " - ", grp 1 (cls anyChar)]

/-- Line 212: `/([A-Z])\.([A-Z])/gi`. -/
def DOT_RE : Re := cat [grp 0 (cls letterCI), chr '.', grp 1 (cls letterCI)]

/-- Line 213: an opening bracket, characters other than closing brackets, a closing bracket, and optionally one more character (group 1). -/
def PARENTHESES_RE : Re :=
  cat [cls (oneOf "([\x7b"), star (cls (noneOf ")]\x7d")), cls (oneOf ")]\x7d"),
    opt (grp 0 (cls anyChar))]

end SpecialExpressions

/-- The replacer of lines 219-223. -/
def parenthesesReplacer (m : Match) : Str :=
  let opened := m.whole.flatMap fun c => if (oneOf "([\x7b").test c then ", ".toList else [c]
  let result := opened.flatMap fun c => if (oneOf ")]\x7d").test c then ", ".toList else [c]
  match m.g 0 with
  | [after] => if (oneOf "$.!?,").test after then dropLast result 2 ++ [after] else result
  | _ => result

/-- Lines 215-225. -/
def normalizeSpecial (text : Str) : Str :=
  let text := replaceAll LINK_HEADER_RE 0 (fun _ => "h t t p s colon slash slash ".toList) text
  let text := replaceAll DASH_RE 2 (fun m => m.g 0 ++ ", ".toList ++ m.g 1) text
  let text := replaceAll DOT_RE 2 (fun m => m.g 0 ++ " dot ".toList ++ m.g 1) text
  let text := replaceAll PARENTHESES_RE 1 parenthesesReplacer text
  text

/-- Lines 227-230. -/
def expandSpecialCharacters (text : Str) : Str := replaceEach SPECIAL_CHARACTERS text

/-- Lines 232-234. -/
def collapseWhitespace (text : Str) : Str :=
  let text := replaceAll (Re.plus (.cls space)) 0 (fun _ => [' ']) text
  replaceAll (Re.seq (Re.chr ' ') (.grp 0 (.cls (oneOf ".?!,")))) 1 (fun m => m.g 0) text

/-- The expression `[set]*c[set]*`. -/
def runAround (set : String) (c : Char) : Re :=
  Re.cat [.star (.cls (oneOf set)), Re.chr c, .star (.cls (oneOf set))]

/-- Lines 236-238. -/
def dedupPunctuation (text : Str) : Str :=
  let text := replaceAll (Re.cat [Re.chr '.', Re.chr '.', Re.plus (Re.chr '.')]) 0
    (fun _ => "[ELLIPSIS]".toList) text
  let text := replaceAll (Re.plus (Re.chr ',')) 0 (fun _ => [',']) text
  let text := replaceAll (runAround ".," '.') 0 (fun _ => ['.']) text
  let text := replaceAll (runAround ".,!" '!') 0 (fun _ => ['!']) text
  let text := replaceAll (runAround ".,!?" '?') 0 (fun _ => ['?']) text
  replaceAll (Re.lit "[ELLIPSIS]") 0 (fun _ => "...".toList) text

/-! ### `prepareText` (lines 307-346) -/

/-- Lines 314-333: the rewriting passes and the final `trim`. -/
def cleanText (text : Str) : Str :=
  let text := normalizeNumbers text
  let text := normalizeSpecial text
  let text := expandAbbreviations text
  let text := expandSpecialCharacters text
  let text := collapseWhitespace text
  let text := dedupPunctuation text
  trim text

/-- Lines 335-338: a period is appended when the last character matches `[a-zA-Z0-9]`. -/
def ensurePunctuation (text : Str) : Str :=
  match text.getLast? with
  | some last => if alnum.test last then text ++ ['.'] else text
  | none => text

/-- Lines 314-338: from the ASCII-folded text to the text with its final punctuation. -/
def normalizeBody (text : Str) : Str := ensurePunctuation (cleanText text)

/-- Lines 340-343: capitalize the first letter. -/
def capitalize (h : Host) : Str → Str
  | [] => []
  | first :: rest => if !upper.test first then h.toUpperCase first ++ rest else first :: rest

/-- Lines 307-346. -/
def prepareText (h : Host) (text : Str) : Str :=
  let text := trim text
  if text.isEmpty then []
  else capitalize h (normalizeBody (convertToAscii h text))

/-- The class `[a-z]`. -/
def lower : CharSet := { ranges := [(97, 122)], neg := false }

/-- What the theorems on the first character assume of the host: `toUpperCase` returns at
least one character and never a lowercase ASCII letter. -/
def Host.Upper (h : Host) : Prop :=
  ∀ c : Char, h.toUpperCase c ≠ [] ∧ ∀ d ∈ h.toUpperCase c, lower.test d = false

/-- The normalizer on a string literal, with the ASCII host. -/
def normalized (text : String) : String := String.mk (prepareText Host.ascii text.toList)

/-! ### Sentences and chunks (lines 240-304) -/

/-- The loop of `String.prototype.match` with a global expression: the matched texts, in
order. `skip` characters are still covered by the match found last; after an empty match the
search moves on by one character. -/
def matchLoop (re : Re) (groups : Nat) : Option Char → Str → Nat → List Str
  | prev, [], _ =>
    match matchAt re groups prev [] with
    | some _ => [[]]
    | none => []
  | _, c :: cs, skip + 1 => matchLoop re groups (some c) cs skip
  | prev, c :: cs, 0 =>
    match matchAt re groups prev (c :: cs) with
    | none => matchLoop re groups (some c) cs 0
    | some (0, _) => [] :: matchLoop re groups (some c) cs 0
    | some (len + 1, _) => (c :: cs).take (len + 1) :: matchLoop re groups (some c) cs len

/-- The call `text.match(re)` for an expression with the flag `g`; the empty list stands for
`null`. -/
def matchAll (re : Re) (text : Str) : List Str := matchLoop re 0 none text 0

section SentenceExpression
open Re

/-- Line 240: a run of characters other than `.`, `!`, `?` followed by a run of these, or such
a run up to the end of the text. -/
def SENTENCE_SPLIT_RE : Re :=
  alt (seq (plus (cls (noneOf ".!?"))) (plus (cls (oneOf ".!?"))))
    (seq (plus (cls (noneOf ".!?"))) eol)

end SentenceExpression

/-- Lines 242-246. -/
def splitTextIntoSentences (text : Str) : List Str :=
  ((matchAll SENTENCE_SPLIT_RE text).map trim).filter (fun sentence => !sentence.isEmpty)

/-- The two methods of `tokenizerProcessor` that the chunker calls. -/
structure Tokenizer where
  encodeIds : Str → List Nat
  decodeIds : List Nat → Str

/-- Line 24. -/
def CHUNK_TARGET_TOKENS : Nat := 50

/-- The loop of lines 250-253 from index `i`, for at most `fuel` rounds. -/
def splitLoop (tk : Tokenizer) (tokenIds : List Nat) (maxTokens : Nat) : Nat → Nat → List Str
  | 0, _ => []
  | fuel + 1, i =>
    if i < tokenIds.length then
      let chunkText := trim (tk.decodeIds ((tokenIds.drop i).take maxTokens))
      (if chunkText ≠ [] then [chunkText] else []) ++
        splitLoop tk tokenIds maxTokens fuel (i + maxTokens)
    else []

/-- Lines 248-255; one round per token is enough when `maxTokens` is positive. -/
def splitTokenIdsIntoChunks (tk : Tokenizer) (tokenIds : List Nat) (maxTokens : Nat) :
    List Str :=
  splitLoop tk tokenIds maxTokens tokenIds.length 0

/-- The variables `chunks` and `currentChunk` of `splitIntoBestSentences`. -/
structure Chunking where
  chunks : List Str
  currentChunk : Str

/-- The slices pushed for a sentence above the target (lines 277-280). -/
def hardSplit (tk : Tokenizer) (sentenceText : Str) : List Str :=
  ((splitTokenIdsIntoChunks tk (tk.encodeIds sentenceText) CHUNK_TARGET_TOKENS).filter
    (fun splitChunk => !splitChunk.isEmpty)).map trim

/-- One round of the loop of lines 268-297. -/
def mergeStep (tk : Tokenizer) (st : Chunking) (sentenceText : Str) : Chunking :=
  let sentenceTokens := (tk.encodeIds sentenceText).length
  if sentenceTokens > CHUNK_TARGET_TOKENS then
    let chunks := if st.currentChunk ≠ [] then st.chunks ++ [trim st.currentChunk] else st.chunks
    { chunks := chunks ++ hardSplit tk sentenceText, currentChunk := [] }
  else if st.currentChunk = [] then { st with currentChunk := sentenceText }
  else
    let combined := st.currentChunk ++ [' '] ++ sentenceText
    let combinedTokens := (tk.encodeIds combined).length
    if combinedTokens > CHUNK_TARGET_TOKENS then
      { chunks := st.chunks ++ [trim st.currentChunk], currentChunk := sentenceText }
    else { st with currentChunk := combined }

/-- Lines 299-303: the last chunk is pushed when it is not empty. -/
def finish (st : Chunking) : List Str :=
  if st.currentChunk ≠ [] then st.chunks ++ [trim st.currentChunk] else st.chunks

/-- Lines 258-304. -/
def splitIntoBestSentences (h : Host) (tk : Tokenizer) (text : Str) : List Str :=
  let preparedText := prepareText h text
  if preparedText = [] then []
  else
    let sentences := splitTextIntoSentences preparedText
    if sentences.length = 0 then []
    else finish (sentences.foldl (mergeStep tk) { chunks := [], currentChunk := [] })

/-- An example tokenizer: one token per character. -/
def Tokenizer.perChar : Tokenizer :=
  { encodeIds := fun text => text.map Char.toNat
    decodeIds := fun ids => ids.map Char.ofNat }

/-- A text that is not empty and neither starts nor ends with white space. -/
def Clean (text : Str) : Prop :=
  text ≠ [] ∧ (∀ c, text.head? = some c → space.test c = false) ∧
    (∀ c, text.getLast? = some c → space.test c = false)

/-- A chunk within the token target, or a slice of the hard split of a sentence of `sentences`
above the target. -/
def Budgeted (tk : Tokenizer) (sentences : List Str) (c : Str) : Prop :=
  (tk.encodeIds c).length ≤ CHUNK_TARGET_TOKENS ∨
    ∃ s ∈ sentences, CHUNK_TARGET_TOKENS < (tk.encodeIds s).length ∧ c ∈ hardSplit tk s

set_option maxRecDepth 1000000

/-! ### Lemmas on the matcher and on the last steps of `prepareText` -/

theorem lower_toUpper (c : Char) : lower.test c.toUpper = false := by
  have key : ∀ d : Char, lower.test d = (decide (97 ≤ d.toNat) && decide (d.toNat ≤ 122)) := by
    intro d
    simp [lower, CharSet.test]
  by_cases h : 97 ≤ c.toNat ∧ c.toNat ≤ 122
  · have hc : c = Char.ofNat c.toNat := (Char.ofNat_toNat c).symm
    obtain ⟨h1, h2⟩ := h
    generalize c.toNat = n at hc h1 h2
    subst hc
    interval_cases n <;> decide
  · have : c.toUpper = c := by
      unfold Char.toUpper
      simp only [ge_iff_le]
      rw [if_neg h]
    rw [this, key]
    simpa using h

theorem ascii_upper : Host.ascii.Upper := by
  intro c
  refine ⟨by simp [Host.ascii], ?_⟩
  intro d hd
  simp only [Host.ascii, List.mem_singleton] at hd
  subst hd
  exact lower_toUpper c

theorem upper_not_lower (c : Char) (h : upper.test c = true) : lower.test c = false := by
  simp [upper, lower, CharSet.test] at *
  omega

theorem capitalize_head (h : Host) (hup : h.Upper) (text : Str) (c : Char)
    (hc : (capitalize h text).head? = some c) : lower.test c = false := by
  cases text with
  | nil => simp [capitalize] at hc
  | cons first rest =>
    unfold capitalize at hc
    by_cases hu : upper.test first = true
    · simp only [hu, Bool.not_true, Bool.false_eq_true, if_false, List.head?_cons,
        Option.some.injEq] at hc
      subst hc
      exact upper_not_lower _ hu
    · simp only [hu, Bool.not_false, if_true] at hc
      obtain ⟨h1, h2⟩ := hup first
      cases hx : h.toUpperCase first with
      | nil => exact absurd hx h1
      | cons d ds =>
        rw [hx] at hc
        simp only [List.cons_append, List.head?_cons, Option.some.injEq] at hc
        subst hc
        exact h2 d (by rw [hx]; simp)

theorem capitalize_getLast (h : Host) (text : Str) (h2 : 2 ≤ text.length) :
    (capitalize h text).getLast? = text.getLast? := by
  cases text with
  | nil => simp at h2
  | cons first rest =>
    cases rest with
    | nil => simp at h2
    | cons second rest =>
      simp only [capitalize]
      split_ifs
      · rw [List.getLast?_append_of_ne_nil _ (by simp)]
        simp [List.getLast?_cons_cons]
      · rfl

theorem ensurePunctuation_getLast (text : Str) (c : Char)
    (hc : (ensurePunctuation text).getLast? = some c) : alnum.test c = false := by
  unfold ensurePunctuation at hc
  cases hl : text.getLast? with
  | none => rw [hl] at hc; simp only [] at hc; rw [hl] at hc; exact absurd hc (by simp)
  | some last =>
    rw [hl] at hc
    simp only [] at hc
    by_cases ha : alnum.test last = true
    · rw [if_pos ha] at hc
      simp at hc
      subst hc
      decide
    · rw [if_neg ha, hl] at hc
      simp only [Option.some.injEq] at hc
      subst hc
      simpa using ha

theorem digit_range (c : Char) : digit.test c = true ↔ 48 ≤ c.toNat ∧ c.toNat ≤ 57 := by
  simp [digit, CharSet.test]

theorem seq_cls_hit (s : CharSet) (r : Re) (prev : Option Char) (c : Char) (cs : Str)
    (idx : Nat) (caps : Spans) (h : s.test c = true) :
    matchRe (.seq (.cls s) r) { prev := prev, rest := c :: cs, idx := idx, caps := caps }
      = matchRe r { prev := some c, rest := cs, idx := idx + 1, caps := caps } := by
  simp [matchRe, h]

theorem seq_cls_miss (s : CharSet) (r : Re) (prev : Option Char) (c : Char) (cs : Str)
    (idx : Nat) (caps : Spans) (h : s.test c = false) :
    matchRe (.seq (.cls s) r) { prev := prev, rest := c :: cs, idx := idx, caps := caps }
      = [] := by
  simp [matchRe, h]

theorem seq_opt (a r : Re) (p : Pos) :
    matchRe (.seq (.alt a .eps) r) p = matchRe (.seq a r) p ++ matchRe r p := by
  simp [matchRe]

theorem cls_hit (s : CharSet) (prev : Option Char) (c : Char) (cs : Str)
    (idx : Nat) (caps : Spans) (h : s.test c = true) :
    matchRe (.cls s) { prev := prev, rest := c :: cs, idx := idx, caps := caps }
      = [{ prev := some c, rest := cs, idx := idx + 1, caps := caps }] := by
  simp [matchRe, h]

theorem digit_not_paren (c : Char) (h : digit.test c = true) :
    CharSet.test { ranges := [('('.toNat, '('.toNat)], neg := false } c = false := by
  simp [digit, CharSet.test] at h ⊢
  intro h1
  omega

/-- The phone expression matches ten digits written `ddd-ddd-dddd`, whatever follows. -/
theorem phone_matches (a0 a1 a2 b0 b1 b2 c0 c1 c2 c3 : Char) (rest : Str) (prev : Option Char)
    (h0 : digit.test a0 = true) (h1 : digit.test a1 = true) (h2 : digit.test a2 = true)
    (h3 : digit.test b0 = true) (h4 : digit.test b1 = true) (h5 : digit.test b2 = true)
    (h6 : digit.test c0 = true) (h7 : digit.test c1 = true) (h8 : digit.test c2 = true)
    (h9 : digit.test c3 = true) :
    matchAt PHONE_NUMBER_RE 0 prev
      ([a0, a1, a2, '-', b0, b1, b2, '-', c0, c1, c2, c3] ++ rest) = some (12, []) := by
  have e1 : CharSet.test { ranges := [(')'.toNat, ')'.toNat)], neg := false } '-' = false := by
    decide
  have e2 : phoneSep.test '-' = true := by decide
  have e3 : digit.test '-' = false := by decide
  have e0 := digit_not_paren a0 h0
  simp only [matchAt, PHONE_NUMBER_RE, Re.cat, Re.opt, Re.chr, List.replicate, List.cons_append,
    List.nil_append, seq_opt]
  rw [seq_cls_miss _ _ _ _ _ _ _ e0, List.nil_append, seq_cls_hit _ _ _ _ _ _ _ h0,
    seq_cls_hit _ _ _ _ _ _ _ h1, seq_cls_hit _ _ _ _ _ _ _ h2, seq_opt,
    seq_cls_miss _ _ _ _ _ _ _ e1, List.nil_append, seq_cls_hit _ _ _ _ _ _ _ e2,
    seq_cls_hit _ _ _ _ _ _ _ h3, seq_cls_hit _ _ _ _ _ _ _ h4, seq_cls_hit _ _ _ _ _ _ _ h5,
    seq_opt, seq_cls_hit _ _ _ _ _ _ _ e2, seq_cls_miss _ _ _ _ _ _ _ e3, List.append_nil,
    seq_cls_hit _ _ _ _ _ _ _ h6, seq_cls_hit _ _ _ _ _ _ _ h7, seq_cls_hit _ _ _ _ _ _ _ h8,
    cls_hit _ _ _ _ _ _ h9]

/-- The phone replacer reads ten digits written `ddd-ddd-dddd` digit by digit, in groups of
three, three and four. -/
theorem phone_reads (a0 a1 a2 b0 b1 b2 c0 c1 c2 c3 : Char)
    (h0 : digit.test a0 = true) (h1 : digit.test a1 = true) (h2 : digit.test a2 = true)
    (h3 : digit.test b0 = true) (h4 : digit.test b1 = true) (h5 : digit.test b2 = true)
    (h6 : digit.test c0 = true) (h7 : digit.test c1 = true) (h8 : digit.test c2 = true)
    (h9 : digit.test c3 = true) :
    phoneReplacer
        { whole := [a0, a1, a2, '-', b0, b1, b2, '-', c0, c1, c2, c3], groups := [] }
      = [a0, ' ', a1, ' ', a2, ',', ' ', b0, ' ', b1, ' ', b2, ',', ' ',
          c0, ' ', c1, ' ', c2, ' ', c3] := by
  have e3 : digit.test '-' = false := by decide
  simp [phoneReplacer, List.filter, h0, h1, h2, h3, h4, h5, h6, h7, h8, h9, e3, spaced, join]

/-- The value `parseInt` gives to a zero followed by a digit. -/
theorem parseInt_zero_digit (m : Char) (hm : digit.test m = true) :
    parseInt ['0', m] = some (m.toNat - 48) := by
  have e0 : digit.test '0' = true := by decide
  simp [parseInt, List.takeWhile, e0, hm]

/-- The time replacer on `H:0M` with a minute digit other than zero. -/
theorem time_reads (whole hours : Str) (m : Char) (hm : digit.test m = true) (hm0 : m ≠ '0') :
    timeReplacer { whole := whole, groups := [some hours, some ['0', m], none] }
      = hours ++ " oh ".toList ++ [m] := by
  have hne : m.toNat - 48 ≠ 0 := by
    have h1 := (digit_range m).mp hm
    have h2 : m.toNat ≠ 48 := by
      intro h
      apply hm0
      apply Char.ext
      apply UInt32.ext
      exact h
    omega
  simp [timeReplacer, Match.g, Match.has, List.getD, parseInt_zero_digit m hm, hne]

/-- The time replacer on `H:00` for an hour from one to twelve. -/
theorem time_full_hour (whole hours : Str) (h : Nat) (hh : parseInt hours = some h)
    (h1 : 1 ≤ h) (h12 : h ≤ 12) :
    timeReplacer { whole := whole, groups := [some hours, some ['0', '0'], none] }
      = hours ++ " o'clock".toList := by
  have e : parseInt ['0', '0'] = some 0 := by decide
  have n0 : h ≠ 0 := by omega
  have n12 : ¬ 12 < h := by omega
  simp [timeReplacer, Match.g, Match.has, List.getD, e, hh, n0, n12]

theorem digit_not_dot (x : Char) (h : digit.test x = true) :
    (oneOf ".").test x = false ∧ (x != ',') = true := by
  have hr : 48 ≤ x.toNat ∧ x.toNat ≤ 57 := by simpa [digit, CharSet.test] using h
  constructor
  · simp [oneOf, CharSet.test]
    intro h1
    omega
  · simp only [bne_iff_ne, ne_eq]
    intro hx
    subst hx
    simp at hr

theorem splitOn_plain (sep : CharSet) (cs : Str) (h : ∀ x ∈ cs, sep.test x = false) :
    splitOn sep cs = [cs] := by
  induction cs with
  | nil => rfl
  | cons c cs ih =>
    have hc := h c (by simp)
    rw [splitOn, ih (fun x hx => h x (by simp [hx]))]
    simp [hc]

theorem splitOn_first (sep : CharSet) (ds cs : Str) (c : Char)
    (hds : ∀ x ∈ ds, sep.test x = false) (hc : sep.test c = true)
    (hcs : ∀ x ∈ cs, sep.test x = false) :
    splitOn sep (ds ++ c :: cs) = [ds, cs] := by
  induction ds with
  | nil =>
    rw [List.nil_append, splitOn, splitOn_plain sep cs hcs]
    simp [hc]
  | cons d ds ih =>
    have hd := hds d (by simp)
    rw [List.cons_append, splitOn, ih (fun x hx => hds x (by simp [hx]))]
    simp [hd]

/-- The dollars replacer on an amount written as digits, a period and digits, with non-zero
dollars and cents: both parts are written as the integers `parseInt` reads. -/
theorem dollars_reads (whole ds cs : Str) (d c : Nat)
    (hds : ∀ x ∈ ds, digit.test x = true) (hcs : ∀ x ∈ cs, digit.test x = true)
    (hd : parseInt ds = some d) (hc : parseInt cs = some c) (hd0 : d ≠ 0) (hc0 : c ≠ 0) :
    dollarsReplacer { whole := whole, groups := [some (ds ++ '.' :: cs)] } =
      numStr d ++ [' '] ++ (if d = 1 then "dollar" else "dollars").toList ++ ", ".toList ++
        numStr c ++ [' '] ++ (if c = 1 then "cent" else "cents").toList := by
  have hfilter : (ds ++ '.' :: cs).filter (fun x => x != ',') = ds ++ '.' :: cs := by
    rw [List.filter_eq_self]
    intro x hx
    rcases List.mem_append.mp hx with h | h
    · exact (digit_not_dot x (hds x h)).2
    · rcases List.mem_cons.mp h with h | h
      · subst h; decide
      · exact (digit_not_dot x (hcs x h)).2
  have hsplit : splitOn (oneOf ".") (ds ++ '.' :: cs) = [ds, cs] :=
    splitOn_first _ ds cs '.' (fun x hx => (digit_not_dot x (hds x hx)).1) (by decide)
      (fun x hx => (digit_not_dot x (hcs x hx)).1)
  have hcne : cs ≠ [] := by
    intro h
    rw [h] at hc
    simp [parseInt] at hc
  unfold dollarsReplacer
  simp only [Match.g, List.getD_cons_zero, Option.getD_some, hfilter, hsplit, List.getD_cons_succ,
    hd, hc, hcne, ne_eq, not_false_eq_true, if_true, hd0, hc0, and_self]

theorem number_below_hundred :
    ∀ c : Nat, c < 100 →
      numberReplacer { whole := numStr c, groups := [] } = numberToWords c := by
  decide!

/-! ### Values of `prepareText` -/

theorem eval_colon : prepareText Host.ascii "a:b".toList = "A.b.".toList := by decide!

theorem eval_colon_again : prepareText Host.ascii "A.b.".toList = "A dot b.".toList := by
  decide!

theorem eval_prose : prepareText Host.ascii "Hello world.".toList = "Hello world.".toList := by
  decide!

theorem eval_cats :
    prepareText Host.ascii "I have 3 cats & 2 dogs".toList
      = "I have three cats and two dogs.".toList := by decide!

theorem eval_cats_again :
    prepareText Host.ascii "I have three cats and two dogs.".toList
      = "I have three cats and two dogs.".toList := by decide!

theorem eval_wait : prepareText Host.ascii "wait... what?!".toList = "Wait... what?".toList := by
  decide!

theorem eval_wait_again :
    prepareText Host.ascii "Wait... what?".toList = "Wait... what?".toList := by decide!

theorem eval_call :
    prepareText Host.ascii "Call 555-123-4567 at 3:05.".toList
      = ("Call five five five, one two three, four five six seven at three oh five.").toList := by
  decide!

theorem eval_full_hour : prepareText Host.ascii "3:00".toList = "Three o'clock.".toList := by
  decide!

theorem eval_dollars :
    prepareText Host.ascii "$19.99".toList = "Nineteen dollars, ninety nine cents.".toList := by
  decide!

theorem eval_hello : prepareText Host.ascii "hello,".toList = "Hello,".toList := by decide!

/-! ### The claims on the normalizer -/

/-- C8, counterexample: a colon between two letters. The first pass turns `a:b` into `A.b.`,
and a second pass reads the period between the letters as the word `dot`. -/
theorem colon_between_letters_not_idempotent :
    prepareText Host.ascii "a:b".toList = "A.b.".toList ∧
    prepareText Host.ascii (prepareText Host.ascii "a:b".toList) = "A dot b.".toList ∧
    prepareText Host.ascii (prepareText Host.ascii "a:b".toList)
      ≠ prepareText Host.ascii "a:b".toList := by
  refine ⟨eval_colon, ?_, ?_⟩
  · rw [eval_colon, eval_colon_again]
  · rw [eval_colon, eval_colon_again]
    decide

/-- C8, amended: `prepareText` is idempotent on the representative inputs: prose that is
already normalized, a sentence with numbers and a symbol, and a run of mixed punctuation. -/
theorem idempotent_on_representatives :
    prepareText Host.ascii (prepareText Host.ascii "Hello world.".toList)
      = prepareText Host.ascii "Hello world.".toList ∧
    prepareText Host.ascii (prepareText Host.ascii "I have 3 cats & 2 dogs".toList)
      = prepareText Host.ascii "I have 3 cats & 2 dogs".toList ∧
    prepareText Host.ascii (prepareText Host.ascii "wait... what?!".toList)
      = prepareText Host.ascii "wait... what?!".toList := by
  refine ⟨?_, ?_, ?_⟩
  · rw [eval_prose, eval_prose]
  · rw [eval_cats, eval_cats_again]
  · rw [eval_wait, eval_wait_again]

/-- C9, counterexample: the time `3:00` has the form `H:0M` and is read `three o'clock`,
without `oh` and without the minute digit. -/
theorem full_hour_has_no_oh :
    prepareText Host.ascii "3:00".toList = "Three o'clock.".toList ∧
    ¬ ("oh".toList <:+: prepareText Host.ascii "3:00".toList) ∧
    timeReplacer { whole := "3:00".toList, groups := [some ['3'], some ['0', '0'], none] }
      = "3 o'clock".toList := by
  refine ⟨eval_full_hour, ?_, ?_⟩
  · rw [eval_full_hour]
    decide
  · exact time_full_hour _ _ 3 (by decide) (by decide) (by decide)

/-- C9, amended: the example normalizes to a text with both substrings; the phone expression
matches ten digits written `ddd-ddd-dddd` and its replacer spaces them out in groups of three,
three and four with commas between the groups; the number rule reads one digit as its word; and
the time replacer turns `H:0M` into the hour, `oh` and the minute digit when that digit is not
zero, and `H:00` into the hour and `o'clock` for the hours from one to twelve. -/
theorem phone_and_time_reading :
    (prepareText Host.ascii "Call 555-123-4567 at 3:05.".toList
      = ("Call five five five, one two three, four five six seven at three oh five.").toList ∧
     "five five five, one two three, four five six seven".toList
        <:+: prepareText Host.ascii "Call 555-123-4567 at 3:05.".toList ∧
     "three oh five".toList <:+: prepareText Host.ascii "Call 555-123-4567 at 3:05.".toList) ∧
    (∀ a0 a1 a2 b0 b1 b2 c0 c1 c2 c3 : Char,
      (∀ x ∈ [a0, a1, a2, b0, b1, b2, c0, c1, c2, c3], digit.test x = true) →
      (∀ (prev : Option Char) (rest : Str),
        matchAt PHONE_NUMBER_RE 0 prev
          ([a0, a1, a2, '-', b0, b1, b2, '-', c0, c1, c2, c3] ++ rest) = some (12, [])) ∧
      phoneReplacer
          { whole := [a0, a1, a2, '-', b0, b1, b2, '-', c0, c1, c2, c3], groups := [] }
        = [a0, ' ', a1, ' ', a2, ',', ' ', b0, ' ', b1, ' ', b2, ',', ' ',
            c0, ' ', c1, ' ', c2, ' ', c3]) ∧
    (∀ k : Nat, k < 10 →
      numberReplacer { whole := numStr k, groups := [] }
        = entry ["zero", "one", "two", "three", "four", "five", "six", "seven", "eight",
            "nine"] k) ∧
    (∀ (whole hours : Str) (m : Char), digit.test m = true → m ≠ '0' →
      timeReplacer { whole := whole, groups := [some hours, some ['0', m], none] }
        = hours ++ " oh ".toList ++ [m]) ∧
    (∀ (whole hours : Str) (h : Nat), parseInt hours = some h → 1 ≤ h → h ≤ 12 →
      timeReplacer { whole := whole, groups := [some hours, some ['0', '0'], none] }
        = hours ++ " o'clock".toList) := by
  refine ⟨⟨eval_call, ?_, ?_⟩, ?_, ?_, ?_, fun whole hours h hh h1 h12 =>
    time_full_hour whole hours h hh h1 h12⟩
  · rw [eval_call]
    exact ⟨"Call ".toList, " at three oh five.".toList, by decide⟩
  · rw [eval_call]
    exact ⟨"Call five five five, one two three, four five six seven at ".toList, ".".toList,
      by decide⟩
  · intro a0 a1 a2 b0 b1 b2 c0 c1 c2 c3 h
    simp only [List.mem_cons, List.mem_singleton, forall_eq_or_imp, forall_eq, List.not_mem_nil,
      false_implies, implies_true, and_true] at h
    obtain ⟨h0, h1, h2, h3, h4, h5, h6, h7, h8, h9⟩ := h
    exact ⟨fun prev rest => phone_matches a0 a1 a2 b0 b1 b2 c0 c1 c2 c3 rest prev
        h0 h1 h2 h3 h4 h5 h6 h7 h8 h9,
      phone_reads a0 a1 a2 b0 b1 b2 c0 c1 c2 c3 h0 h1 h2 h3 h4 h5 h6 h7 h8 h9⟩
  · intro k hk
    interval_cases k <;> decide
  · intro whole hours m hm hm0
    exact time_reads whole hours m hm hm0

/-- C10, counterexample: the output for `$19.99` does not contain `nine nine cents`. -/
theorem cents_not_digit_grouped :
    ¬ ("nine nine cents".toList <:+: prepareText Host.ascii "$19.99".toList) := by
  rw [eval_dollars]
  decide

/-- C10, amended: the input `$19.99` normalizes to `Nineteen dollars, ninety nine cents.`. For
an amount written as digits, a period and digits, with non-zero dollars and cents, the dollars
replacer writes both parts as the integers `parseInt` reads, followed by `dollar(s)` and
`cent(s)`; and the number rule reads an integer below 100 with `numberToWords`, as a
cardinal (99 as `ninety nine`), not digit by digit. -/
theorem cents_read_as_cardinal :
    prepareText Host.ascii "$19.99".toList = "Nineteen dollars, ninety nine cents.".toList ∧
    normalizeNumbers "$19.99".toList = "nineteen dollars, ninety nine cents".toList ∧
    dollarsReplacer { whole := "$19.99".toList, groups := [some "19.99".toList] }
      = "19 dollars, 99 cents".toList ∧
    numberReplacer { whole := "99".toList, groups := [] } = "ninety nine".toList ∧
    (∀ (whole ds cs : Str) (d c : Nat),
      (∀ x ∈ ds, digit.test x = true) → (∀ x ∈ cs, digit.test x = true) →
      parseInt ds = some d → parseInt cs = some c → d ≠ 0 → c ≠ 0 →
      dollarsReplacer { whole := whole, groups := [some (ds ++ '.' :: cs)] } =
        numStr d ++ [' '] ++ (if d = 1 then "dollar" else "dollars").toList ++ ", ".toList ++
          numStr c ++ [' '] ++ (if c = 1 then "cent" else "cents").toList) ∧
    (∀ c : Nat, c < 100 →
      numberReplacer { whole := numStr c, groups := [] } = numberToWords c) ∧
    numberToWords 99 = "ninety nine".toList := by
  refine ⟨eval_dollars, ?_, ?_, ?_, ?_, number_below_hundred, ?_⟩
  · decide!
  · decide
  · decide
  · intro whole ds cs d c hds hcs hd hc hd0 hc0
    exact dollars_reads whole ds cs d c hds hcs hd hc hd0 hc0
  · decide

/-- C11, failing input: `1st` normalizes to `One st.`: the statement that separates digits from
letters runs before the ordinal rule and turns `1st` into `1 st`, so the ordinal rule, which
would give `first`, never sees a numeral with its suffix. -/
theorem ordinal_suffix_split_off :
    prepareText Host.ascii "1st".toList = "One st.".toList ∧
    replaceAll NUM_LETTER_SPLIT_RE 4 letterSplitReplacer "1st".toList = "1 st".toList ∧
    replaceAll ORDINAL_RE 2 (fun m => ordinalToWords ((parseInt (m.g 0)).getD 0)) "1st".toList
      = "first".toList ∧
    ordinalToWords 1 = "first".toList := by
  refine ⟨?_, ?_, ?_, ?_⟩ <;> decide!

/-- C12, failing input: `3.14` normalizes to `Three p o i n t one four.`: the replacer of the
decimal rule spaces out every character of `3 point 14`, the letters of `point` included. -/
theorem decimal_point_spelled_out :
    prepareText Host.ascii "3.14".toList = "Three p o i n t one four.".toList ∧
    ¬ ("point".toList <:+: prepareText Host.ascii "3.14".toList) ∧
    replaceAll DECIMAL_NUMBER_RE 1
        (fun m => spaced (join " point ".toList (splitOn (oneOf ".") m.whole))) "3.14".toList
      = "3   p o i n t   1 4".toList := by
  have e : prepareText Host.ascii "3.14".toList = "Three p o i n t one four.".toList := by
    decide!
  refine ⟨e, ?_, ?_⟩
  · rw [e]
    decide
  · decide!

/-- C13, counterexample: `hello,` normalizes to `Hello,`, which ends in a comma. -/
theorem comma_stays_last :
    prepareText Host.ascii "hello,".toList = "Hello,".toList ∧
    (prepareText Host.ascii "hello,".toList).getLast? = some ',' := by
  refine ⟨eval_hello, ?_⟩
  rw [eval_hello]
  decide

/-- C13, amended: for a host whose `toUpperCase` returns at least one character and never a
lowercase ASCII letter, the first character of the output of `prepareText` is not a lowercase
ASCII letter; the text before capitalization never ends in a letter or digit of `[a-zA-Z0-9]`
(a period is appended when it would); and the output ends as that text does when that text has
at least two characters. -/
theorem final_cleanup (h : Host) (hup : h.Upper) (text : Str) :
    (∀ c, (prepareText h text).head? = some c → lower.test c = false) ∧
    (∀ c, (normalizeBody (convertToAscii h (trim text))).getLast? = some c →
      alnum.test c = false) ∧
    (trim text ≠ [] → 2 ≤ (normalizeBody (convertToAscii h (trim text))).length →
      ∀ c, (prepareText h text).getLast? = some c → alnum.test c = false) := by
  refine ⟨?_, ?_, ?_⟩
  · intro c hc
    unfold prepareText at hc
    simp only [] at hc
    by_cases he : (trim text).isEmpty = true
    · rw [if_pos he] at hc
      simp at hc
    · rw [if_neg he] at hc
      exact capitalize_head h hup _ c hc
  · intro c hc
    exact ensurePunctuation_getLast _ c hc
  · intro hne h2 c hc
    unfold prepareText at hc
    simp only [] at hc
    have he : ¬ (trim text).isEmpty = true := by
      simpa [List.isEmpty_iff] using hne
    rw [if_neg he, capitalize_getLast h _ h2] at hc
    exact ensurePunctuation_getLast _ c hc

/-- C13, witness: the ASCII host on `hello world`. -/
theorem final_cleanup_witness :
    Host.ascii.Upper ∧
    ((∀ c, (prepareText Host.ascii "hello world".toList).head? = some c →
        lower.test c = false) ∧
     (∀ c, (normalizeBody (convertToAscii Host.ascii (trim "hello world".toList))).getLast?
        = some c → alnum.test c = false) ∧
     (trim "hello world".toList ≠ [] →
      2 ≤ (normalizeBody (convertToAscii Host.ascii (trim "hello world".toList))).length →
      ∀ c, (prepareText Host.ascii "hello world".toList).getLast? = some c →
        alnum.test c = false)) :=
  ⟨ascii_upper, final_cleanup Host.ascii ascii_upper "hello world".toList⟩

/-! ### Lemmas on `trim`, `join` and the chunker -/

theorem dropWhile_head (p : Char → Bool) (l : Str) (c : Char)
    (h : (l.dropWhile p).head? = some c) : p c = false := by
  induction l with
  | nil => simp at h
  | cons a l ih =>
    by_cases hp : p a = true
    · rw [List.dropWhile_cons, if_pos hp] at h
      exact ih h
    · rw [List.dropWhile_cons, if_neg hp] at h
      simp only [List.head?_cons, Option.some.injEq] at h
      subst h
      simpa using hp

theorem dropWhile_getLast (p : Char → Bool) (l : Str) (c : Char)
    (h : (l.dropWhile p).getLast? = some c) : l.getLast? = some c := by
  induction l with
  | nil => simp at h
  | cons a l ih =>
    by_cases hp : p a = true
    · rw [List.dropWhile_cons, if_pos hp] at h
      have hl := ih h
      cases l with
      | nil => simp at hl
      | cons b l => rw [List.getLast?_cons_cons]; exact hl
    · rw [List.dropWhile_cons, if_neg hp] at h
      exact h

theorem dropWhile_self (p : Char → Bool) (l : Str)
    (h : ∀ c, l.head? = some c → p c = false) : l.dropWhile p = l := by
  cases l with
  | nil => rfl
  | cons a l =>
    have ha : ¬ p a = true := by simpa using h a rfl
    rw [List.dropWhile_cons, if_neg ha]

theorem trim_getLast (text : Str) (c : Char) (h : (trim text).getLast? = some c) :
    space.test c = false := by
  unfold trim at h
  rw [List.getLast?_reverse] at h
  exact dropWhile_head _ _ c h

theorem trim_head (text : Str) (c : Char) (h : (trim text).head? = some c) :
    space.test c = false := by
  unfold trim at h
  rw [List.head?_reverse] at h
  have h1 := dropWhile_getLast _ _ c h
  rw [List.getLast?_reverse] at h1
  exact dropWhile_head _ _ c h1

theorem trim_self (text : Str) (h1 : ∀ c, text.head? = some c → space.test c = false)
    (h2 : ∀ c, text.getLast? = some c → space.test c = false) : trim text = text := by
  unfold trim
  rw [dropWhile_self _ _ h1, dropWhile_self _ text.reverse, List.reverse_reverse]
  intro c hc
  rw [List.head?_reverse] at hc
  exact h2 c hc

theorem join_snoc (sep : Str) (l : List Str) (a : Str) (hl : l ≠ []) :
    join sep (l ++ [a]) = join sep l ++ sep ++ a := by
  induction l with
  | nil => exact absurd rfl hl
  | cons x l ih =>
    cases l with
    | nil => simp [join]
    | cons y r =>
      have h := ih (by simp)
      simp only [List.cons_append] at h ⊢
      simp only [join]
      rw [h]
      simp [List.append_assoc]

/-- Extra rounds do not change the result of the slicing loop. -/
theorem splitLoop_fuel (tk : Tokenizer) (tokenIds : List Nat) (maxTokens : Nat)
    (hmax : 0 < maxTokens) (fuel : Nat) :
    ∀ i extra, tokenIds.length ≤ i + fuel →
      splitLoop tk tokenIds maxTokens (fuel + extra) i = splitLoop tk tokenIds maxTokens fuel i := by
  induction fuel with
  | zero =>
    intro i extra h
    cases extra with
    | zero => rfl
    | succ e =>
      have : ¬ i < tokenIds.length := by omega
      simp [splitLoop, this]
  | succ fuel ih =>
    intro i extra h
    have e : fuel + 1 + extra = (fuel + extra) + 1 := by omega
    rw [e]
    simp only [splitLoop]
    by_cases hi : i < tokenIds.length
    · rw [if_pos hi, if_pos hi, ih (i + maxTokens) extra (by omega)]
    · rw [if_neg hi, if_neg hi]

theorem clean_trim {text : Str} (h : Clean text) : trim text = text :=
  trim_self text h.2.1 h.2.2

theorem clean_combined {a b : Str} (ha : Clean a) (hb : Clean b) : Clean (a ++ [' '] ++ b) := by
  refine ⟨by simp [ha.1], ?_, ?_⟩
  · intro c hc
    rw [List.append_assoc, List.head?_append_of_ne_nil _ ha.1] at hc
    exact ha.2.1 c hc
  · intro c hc
    rw [List.getLast?_append_of_ne_nil _ hb.1] at hc
    exact hb.2.2 c hc

theorem sentence_clean (text s : Str) (hs : s ∈ splitTextIntoSentences text) : Clean s := by
  unfold splitTextIntoSentences at hs
  rw [List.mem_filter, List.mem_map] at hs
  obtain ⟨⟨m, _, hm⟩, hne⟩ := hs
  subst hm
  refine ⟨?_, trim_head m, trim_getLast m⟩
  intro h
  rw [h] at hne
  simp at hne

theorem mergeStep_budget (tk : Tokenizer) (sentences : List Str) (st : Chunking) (s : Str)
    (hs : s ∈ sentences) (hc : Clean s)
    (h1 : ∀ c ∈ st.chunks, Budgeted tk sentences c)
    (h2 : st.currentChunk ≠ [] →
      Clean st.currentChunk ∧ (tk.encodeIds st.currentChunk).length ≤ CHUNK_TARGET_TOKENS) :
    (∀ c ∈ (mergeStep tk st s).chunks, Budgeted tk sentences c) ∧
    ((mergeStep tk st s).currentChunk ≠ [] →
      Clean (mergeStep tk st s).currentChunk ∧
        (tk.encodeIds (mergeStep tk st s).currentChunk).length ≤ CHUNK_TARGET_TOKENS) := by
  unfold mergeStep
  simp only []
  by_cases hbig : (tk.encodeIds s).length > CHUNK_TARGET_TOKENS
  · rw [if_pos hbig]
    refine ⟨?_, fun h => absurd rfl h⟩
    intro c hcm
    simp only [List.mem_append] at hcm
    rcases hcm with hcm | hcm
    · by_cases hcur : st.currentChunk ≠ []
      · rw [if_pos hcur, List.mem_append, List.mem_singleton] at hcm
        rcases hcm with hcm | hcm
        · exact h1 c hcm
        · subst hcm
          rw [clean_trim (h2 hcur).1]
          exact Or.inl (h2 hcur).2
      · rw [if_neg hcur] at hcm
        exact h1 c hcm
    · exact Or.inr ⟨s, hs, hbig, hcm⟩
  · rw [if_neg hbig]
    by_cases hcur : st.currentChunk = []
    · rw [if_pos hcur]
      exact ⟨h1, fun _ => ⟨hc, Nat.le_of_not_lt hbig⟩⟩
    · rw [if_neg hcur]
      by_cases hcomb :
          (tk.encodeIds (st.currentChunk ++ [' '] ++ s)).length > CHUNK_TARGET_TOKENS
      · rw [if_pos hcomb]
        refine ⟨?_, fun _ => ⟨hc, Nat.le_of_not_lt hbig⟩⟩
        intro c hcm
        rw [List.mem_append, List.mem_singleton] at hcm
        rcases hcm with hcm | hcm
        · exact h1 c hcm
        · subst hcm
          rw [clean_trim (h2 hcur).1]
          exact Or.inl (h2 hcur).2
      · rw [if_neg hcomb]
        exact ⟨h1, fun _ => ⟨clean_combined (h2 hcur).1 hc, Nat.le_of_not_lt hcomb⟩⟩

theorem foldl_budget (tk : Tokenizer) (sentences : List Str) (l : List Str) :
    ∀ st : Chunking, (∀ s ∈ l, s ∈ sentences ∧ Clean s) →
      (∀ c ∈ st.chunks, Budgeted tk sentences c) →
      (st.currentChunk ≠ [] →
        Clean st.currentChunk ∧ (tk.encodeIds st.currentChunk).length ≤ CHUNK_TARGET_TOKENS) →
      ∀ c ∈ finish (l.foldl (mergeStep tk) st), Budgeted tk sentences c := by
  induction l with
  | nil =>
    intro st _ h1 h2 c hcm
    simp only [List.foldl_nil, finish] at hcm
    by_cases hcur : st.currentChunk ≠ []
    · rw [if_pos hcur, List.mem_append, List.mem_singleton] at hcm
      rcases hcm with hcm | hcm
      · exact h1 c hcm
      · subst hcm
        rw [clean_trim (h2 hcur).1]
        exact Or.inl (h2 hcur).2
    · rw [if_neg hcur] at hcm
      exact h1 c hcm
  | cons s l ih =>
    intro st hl h1 h2
    rw [List.foldl_cons]
    have hs := hl s (by simp)
    obtain ⟨k1, k2⟩ := mergeStep_budget tk sentences st s hs.1 hs.2 h1 h2
    exact ih _ (fun t ht => hl t (by simp [ht])) k1 k2

theorem chunks_budgeted (h : Host) (tk : Tokenizer) (text : Str) (c : Str)
    (hc : c ∈ splitIntoBestSentences h tk text) :
    Budgeted tk (splitTextIntoSentences (prepareText h text)) c := by
  unfold splitIntoBestSentences at hc
  simp only [] at hc
  by_cases hp : prepareText h text = []
  · rw [if_pos hp] at hc
    simp at hc
  · rw [if_neg hp] at hc
    by_cases hz : (splitTextIntoSentences (prepareText h text)).length = 0
    · rw [if_pos hz] at hc
      simp at hc
    · rw [if_neg hz] at hc
      exact foldl_budget tk _ _ _ (fun s hs => ⟨hs, sentence_clean _ s hs⟩)
        (by intro c hcm; simp at hcm) (fun hne => absurd rfl hne) c hc

theorem mergeStep_no_merge (tk : Tokenizer) (st : Chunking) (s : Str)
    (hcur : st.currentChunk ≠ [])
    (hs : (tk.encodeIds s).length ≤ CHUNK_TARGET_TOKENS)
    (hcomb : CHUNK_TARGET_TOKENS < (tk.encodeIds (st.currentChunk ++ [' '] ++ s)).length) :
    mergeStep tk st s = { chunks := st.chunks ++ [trim st.currentChunk], currentChunk := s } := by
  unfold mergeStep
  simp only []
  rw [if_neg (by omega), if_neg hcur, if_pos hcomb]

theorem mergeStep_first (tk : Tokenizer) (chunks : List Str) (s : Str)
    (hs : (tk.encodeIds s).length ≤ CHUNK_TARGET_TOKENS) :
    mergeStep tk { chunks := chunks, currentChunk := [] } s
      = { chunks := chunks, currentChunk := s } := by
  unfold mergeStep
  simp only []
  rw [if_neg (by omega)]
  simp

theorem splitTextIntoSentences_nil : splitTextIntoSentences [] = [] := by decide

theorem two_sentences_apart (h : Host) (tk : Tokenizer) (text a b : Str)
    (hab : splitTextIntoSentences (prepareText h text) = [a, b])
    (ha : (tk.encodeIds a).length ≤ CHUNK_TARGET_TOKENS)
    (hb : (tk.encodeIds b).length ≤ CHUNK_TARGET_TOKENS)
    (hcomb : CHUNK_TARGET_TOKENS < (tk.encodeIds (a ++ [' '] ++ b)).length) :
    splitIntoBestSentences h tk text = [a, b] := by
  have hca : Clean a := sentence_clean _ a (by rw [hab]; simp)
  have hcb : Clean b := sentence_clean _ b (by rw [hab]; simp)
  have hp : prepareText h text ≠ [] := by
    intro hp
    rw [hp, splitTextIntoSentences_nil] at hab
    simp at hab
  unfold splitIntoBestSentences
  simp only []
  rw [if_neg hp, hab, if_neg (by simp)]
  simp only [List.foldl_cons, List.foldl_nil]
  rw [mergeStep_first tk [] a ha, mergeStep_no_merge tk _ b hca.1 hb hcomb]
  simp only [finish]
  rw [if_pos hcb.1, clean_trim hca, clean_trim hcb]
  rfl

theorem mergeStep_join (tk : Tokenizer) (st : Chunking) (done : List Str) (s : Str)
    (hc : Clean s) (hs : (tk.encodeIds s).length ≤ CHUNK_TARGET_TOKENS)
    (h1 : st.currentChunk = [] → st.chunks = [] ∧ done = [])
    (h2 : st.currentChunk ≠ [] → Clean st.currentChunk ∧ done ≠ [] ∧
      join [' '] (st.chunks ++ [st.currentChunk]) = join [' '] done) :
    Clean (mergeStep tk st s).currentChunk ∧
      join [' '] ((mergeStep tk st s).chunks ++ [(mergeStep tk st s).currentChunk])
        = join [' '] (done ++ [s]) := by
  unfold mergeStep
  simp only []
  rw [if_neg (by omega)]
  by_cases hcur : st.currentChunk = []
  · rw [if_pos hcur]
    obtain ⟨e1, e2⟩ := h1 hcur
    refine ⟨hc, ?_⟩
    simp only [e1, e2, List.nil_append]
  · rw [if_neg hcur]
    obtain ⟨k1, k2, k3⟩ := h2 hcur
    by_cases hcomb :
        (tk.encodeIds (st.currentChunk ++ [' '] ++ s)).length > CHUNK_TARGET_TOKENS
    · rw [if_pos hcomb]
      refine ⟨hc, ?_⟩
      simp only []
      rw [clean_trim k1, join_snoc _ _ _ (by simp), join_snoc _ _ _ k2, k3]
    · rw [if_neg hcomb]
      refine ⟨clean_combined k1 hc, ?_⟩
      simp only []
      rw [join_snoc _ done _ k2, ← k3]
      by_cases hch : st.chunks = []
      · simp [hch, join]
      · rw [join_snoc _ _ _ hch, join_snoc _ _ _ hch]
        simp [List.append_assoc]

theorem foldl_join (tk : Tokenizer) (l : List Str) :
    ∀ (st : Chunking) (done : List Str),
      (∀ s ∈ l, Clean s ∧ (tk.encodeIds s).length ≤ CHUNK_TARGET_TOKENS) →
      (st.currentChunk = [] → st.chunks = [] ∧ done = []) →
      (st.currentChunk ≠ [] → Clean st.currentChunk ∧ done ≠ [] ∧
        join [' '] (st.chunks ++ [st.currentChunk]) = join [' '] done) →
      join [' '] (finish (l.foldl (mergeStep tk) st)) = join [' '] (done ++ l) := by
  induction l with
  | nil =>
    intro st done _ h1 h2
    simp only [List.foldl_nil, finish, List.append_nil]
    by_cases hcur : st.currentChunk = []
    · obtain ⟨e1, e2⟩ := h1 hcur
      rw [if_neg (by simpa using hcur), e1, e2]
    · obtain ⟨k1, _, k3⟩ := h2 hcur
      rw [if_pos hcur, clean_trim k1, k3]
  | cons s l ih =>
    intro st done hl h1 h2
    obtain ⟨hc, hs⟩ := hl s (by simp)
    obtain ⟨k1, k2⟩ := mergeStep_join tk st done s hc hs h1 h2
    rw [List.foldl_cons, ih (mergeStep tk st s) (done ++ [s])
      (fun t ht => hl t (by simp [ht])) (fun h0 => absurd h0 k1.1)
      (fun _ => ⟨k1, by simp, k2⟩)]
    simp

/-! ### The claims on the chunker -/

/-- C14: for every tokenizer and every input, each chunk returned by `splitIntoBestSentences`
has at most `CHUNK_TARGET_TOKENS` (50) tokens, unless it is one of the slices of the hard split
of a sentence above the target. A round of the loop never merges the current chunk with a
sentence when the joined text has more than 50 tokens, and a text of two sentences whose joined
text has more than 50 tokens comes back as the two sentences. -/
theorem token_budget (h : Host) (tk : Tokenizer) (text : Str) :
    (∀ c ∈ splitIntoBestSentences h tk text,
      (tk.encodeIds c).length ≤ CHUNK_TARGET_TOKENS ∨
      ∃ s ∈ splitTextIntoSentences (prepareText h text),
        CHUNK_TARGET_TOKENS < (tk.encodeIds s).length ∧ c ∈ hardSplit tk s) ∧
    (∀ (st : Chunking) (s : Str), st.currentChunk ≠ [] →
      (tk.encodeIds s).length ≤ CHUNK_TARGET_TOKENS →
      CHUNK_TARGET_TOKENS < (tk.encodeIds (st.currentChunk ++ [' '] ++ s)).length →
      mergeStep tk st s
        = { chunks := st.chunks ++ [trim st.currentChunk], currentChunk := s }) ∧
    (∀ a b : Str, splitTextIntoSentences (prepareText h text) = [a, b] →
      (tk.encodeIds a).length ≤ CHUNK_TARGET_TOKENS →
      (tk.encodeIds b).length ≤ CHUNK_TARGET_TOKENS →
      CHUNK_TARGET_TOKENS < (tk.encodeIds (a ++ [' '] ++ b)).length →
      splitIntoBestSentences h tk text = [a, b]) :=
  ⟨fun c hc => chunks_budgeted h tk text c hc,
    fun st s hcur hs hcomb => mergeStep_no_merge tk st s hcur hs hcomb,
    fun a b hab ha hb hcomb => two_sentences_apart h tk text a b hab ha hb hcomb⟩

/-- C15: when no sentence of the normalized text `prepareText(text)` has more than 50
tokens, the chunks returned by `splitIntoBestSentences(text)`, joined with single spaces, are
the sentences that `splitTextIntoSentences` returns for the normalized text, joined with single
spaces. -/
theorem chunk_reconstruction (h : Host) (tk : Tokenizer) (text : Str)
    (hfit : ∀ s ∈ splitTextIntoSentences (prepareText h text),
      (tk.encodeIds s).length ≤ CHUNK_TARGET_TOKENS) :
    join [' '] (splitIntoBestSentences h tk text)
      = join [' '] (splitTextIntoSentences (prepareText h text)) := by
  unfold splitIntoBestSentences
  simp only []
  by_cases hp : prepareText h text = []
  · rw [if_pos hp, hp, splitTextIntoSentences_nil]
  · rw [if_neg hp]
    by_cases hz : (splitTextIntoSentences (prepareText h text)).length = 0
    · rw [if_pos hz, List.length_eq_zero.mp hz]
    · rw [if_neg hz, foldl_join tk _ { chunks := [], currentChunk := [] } []
        (fun s hs => ⟨sentence_clean _ s hs, hfit s hs⟩) (fun _ => ⟨rfl, rfl⟩)
        (fun hne => absurd rfl hne)]
      simp

/-- C15, witness: three sentences with the tokenizer that makes one token of each character;
the first two are merged, the third would pass the target. -/
theorem chunk_reconstruction_witness :
    (∀ s ∈ splitTextIntoSentences
        (prepareText Host.ascii "Hello world. How are you? I have 3 cats & 2 dogs.".toList),
      (Tokenizer.perChar.encodeIds s).length ≤ CHUNK_TARGET_TOKENS) ∧
    join [' '] (splitIntoBestSentences Host.ascii Tokenizer.perChar
        "Hello world. How are you? I have 3 cats & 2 dogs.".toList)
      = join [' '] (splitTextIntoSentences
          (prepareText Host.ascii "Hello world. How are you? I have 3 cats & 2 dogs.".toList)) :=
  have hfit : ∀ s ∈ splitTextIntoSentences
      (prepareText Host.ascii "Hello world. How are you? I have 3 cats & 2 dogs.".toList),
      (Tokenizer.perChar.encodeIds s).length ≤ CHUNK_TARGET_TOKENS := by decide!
  ⟨hfit, chunk_reconstruction Host.ascii Tokenizer.perChar
    "Hello world. How are you? I have 3 cats & 2 dogs.".toList hfit⟩

end TextNormalizer
